import Mathlib

/-!
# Disk-backed queue, random page replacement, page cache and batch specifications:
a verification development

Shallow embedding of

* `src/containers/disk_backed_queue.cc` (`internal_disk_backed_queue_t`),
* `src/buffer_cache/mirrored/page_repl_random.cc` (`evictable_t`, `page_repl_random_t`),
* the acquisition protocol of the page cache that `src/unittest/page_test.cc` exercises, whose
  implementation is not among the sources and is modelled from the specification, and
* `src/rdb_protocol/batching.cc` (`batchspec_t`),

followed by theorems about the embedded functions.

Conventions of the embedding.

* In the queue a block id is `Option Nat`; `none` is the sentinel `NULL_BLOCK_ID`.  In the
  page cache, whose claims speak of the value of an id, a block id is a `Nat` and
  `NULL_BLOCK_ID` is the last 64-bit value.
* A function that can hit `guarantee`, `rassert` or a lock on a block that is not there returns
  a result record whose `fault` field says which check stopped it, together with the state at
  that point.  A `fault` of `none` means the function returned normally.
* `int64_t queue_size` is an `Int`, `int data_size, live_data_offset` are `Nat`: they only
  count records and bytes held by the queue, which stay far below the machine bounds.
* `size_t` arithmetic that can wrap on its operands is written with an explicit `% 2 ^ 64`,
  and the `int64_t` arithmetic of `batchspec_t` with an explicit two's complement wrap.
-/

set_option autoImplicit false

/-! ## Part 1: definitions -/

namespace disk_backed_queue

/-- A block id; `none` stands for the reserved sentinel `NULL_BLOCK_ID`. -/
abbrev block_id_t := Option Nat

/-- The sentinel block id meaning "no block". -/
abbrev NULL_BLOCK_ID : block_id_t := none

/-- The queue block of `disk_backed_queue.hpp`: `next`, `data_size`, `live_data_offset` and the
inline bytes `data[]` that fill the block after the header. -/
structure queue_block_t where
  next : block_id_t
  data_size : Nat
  live_data_offset : Nat
  data : List Nat
  deriving DecidableEq

/-- Modelled from the spec: the byte offset of `data` inside `queue_block_t`
(`{next: u64, data_size: u32, live_data_offset: u32, bytes[block_size − 16]}`); the struct
declaration itself is in the header `disk_backed_queue.hpp`. -/
def QUEUE_BLOCK_HEADER_SIZE : Nat := 16

/-- Modelled from the spec: the content of one block of the cache.  A block is either used by
the queue as a `queue_block_t` or holds the bytes of one indirect (large) blob. -/
inductive buf_t
  | queue_block (b : queue_block_t)
  | blob_block (bytes : List Nat)
  deriving DecidableEq

/-- Modelled from the spec: the cache seen from the queue, a dense table from block ids to
blocks (`none` is a free id) together with the configured block size. -/
structure cache_t where
  block_size : Nat
  blocks : List (Option buf_t)
  deriving DecidableEq

/-- Modelled from the spec: the id handed out for a new block ("IDs are dense and reusable after
deletion"): the lowest free id, or one past the table when every id is in use. -/
def first_free : List (Option buf_t) → Nat
  | [] => 0
  | none :: _ => 0
  | some _ :: t => first_free t + 1

/-- Modelled from the spec: the block stored under an id, `none` when the id is free. -/
def load : List (Option buf_t) → Nat → Option buf_t
  | [], _ => none
  | x :: _, 0 => x
  | _ :: t, i + 1 => load t i

/-- Modelled from the spec: write (or, with `none`, delete) the block stored under an id. -/
def store : List (Option buf_t) → Nat → Option buf_t → List (Option buf_t)
  | [], 0, v => [v]
  | [], i + 1, v => none :: store [] i v
  | _ :: t, 0, v => v :: t
  | x :: t, i + 1, v => x :: store t i v

/-- Write to the block stored under an id of a cache. -/
def cache_t.put (c : cache_t) (i : Nat) (v : Option buf_t) : cache_t :=
  { c with blocks := store c.blocks i v }

/-- The checks that can stop `push` and `pop`. -/
inductive fault_t
  | guarantee_failed
  | rassert_failed
  | bad_block
  deriving DecidableEq

/-- Modelled from the spec: `buf_lock_t(txn, id, rwi_write)` followed by the cast of its data to
`queue_block_t *`; the lock needs a live block, here one that the queue wrote. -/
def acquire (c : cache_t) (id : block_id_t) : Option (Nat × queue_block_t) :=
  match id with
  | none => none
  | some i =>
    match load c.blocks i with
    | some (buf_t.queue_block b) => some (i, b)
    | _ => none

/-- Modelled from the spec: `blob::ref_size(block_size, ref, maxreflen)`, the size of the blob
reference that starts at `ref`.  The first cell is the length of an inline value when it is
below `maxreflen`; any other first cell marks an indirect reference, which has one more cell,
the id of the block with the value. -/
def ref_size (maxreflen : Nat) (ref : List Nat) : Nat :=
  match ref with
  | [] => 0
  | n :: _ => if n < maxreflen then 1 + n else 2

/-- Modelled from the spec: `write_onto_blob(txn, &blob, wm)` on a zeroed buffer, "serialise the
record into a blob reference (inline if small, indirect if large)".  Returns the cache and the
reference left in `buffer`. -/
def write_onto_blob (maxreflen : Nat) (c : cache_t) (wm : List Nat) : cache_t × List Nat :=
  if wm.length < maxreflen then (c, wm.length :: wm)
  else (c.put (first_free c.blocks) (some (buf_t.blob_block wm)),
        [maxreflen, first_free c.blocks])

/-- Modelled from the spec: `blob.expose_all(txn, rwi_read, &blob_group, &acq_group)`, the bytes
of the value a reference stands for; `none` when an indirect reference names no blob block. -/
def expose_all (maxreflen : Nat) (c : cache_t) (ref : List Nat) : Option (List Nat) :=
  match ref with
  | [] => none
  | n :: rest =>
    if n < maxreflen then some (rest.take n)
    else
      match rest with
      | [] => none
      | j :: _ =>
        match load c.blocks j with
        | some (buf_t.blob_block bytes) => some bytes
        | _ => none

/-- Modelled from the spec: `blob.clear(txn)`, "free the blob": an indirect value gives its
block back to the cache, an inline one holds none. -/
def blob_clear (maxreflen : Nat) (c : cache_t) (ref : List Nat) : cache_t :=
  match ref with
  | n :: j :: _ => if n < maxreflen then c else c.put j none
  | _ => c

/-- The bytes `memcpy(dst + off, src, src.length)` leaves in `dst`. -/
def memcpy_at (dst : List Nat) (off : Nat) (src : List Nat) : List Nat :=
  dst.take off ++ src ++ dst.drop (off + src.length)

/-- The fields of `internal_disk_backed_queue_t` that `push` and `pop` use. -/
structure internal_disk_backed_queue_t where
  queue_size : Int
  head_block_id : block_id_t
  tail_block_id : block_id_t
  cache : cache_t
  deriving DecidableEq

/-- The constructor, lines 10-38: an empty queue on the cache it has just created. -/
def internal_disk_backed_queue_t.init (c : cache_t) : internal_disk_backed_queue_t :=
  { queue_size := 0, head_block_id := NULL_BLOCK_ID, tail_block_id := NULL_BLOCK_ID, cache := c }

/-- `internal_disk_backed_queue_t::size`. -/
def size (q : internal_disk_backed_queue_t) : Int := q.queue_size

/-- `internal_disk_backed_queue_t::empty`. -/
def empty (q : internal_disk_backed_queue_t) : Bool := decide (q.queue_size = 0)

/-- How a queue operation ended: the check that stopped it, if any, and the queue then. -/
structure result_t where
  fault : Option fault_t
  q : internal_disk_backed_queue_t
  deriving DecidableEq

/-- How `pop` ended; `viewed` lists the buffer groups given to `viewer->view_buffer_group`. -/
structure pop_result_t where
  fault : Option fault_t
  viewed : List (List Nat)
  q : internal_disk_backed_queue_t
  deriving DecidableEq

/-- The block a `buf_lock_t(txn)` allocation exposes before the queue writes its header: a
zeroed buffer read as a `queue_block_t`. -/
def fresh_block (block_size : Nat) : queue_block_t :=
  { next := some 0, data_size := 0, live_data_offset := 0,
    data := List.replicate (block_size - QUEUE_BLOCK_HEADER_SIZE) 0 }

/-- `internal_disk_backed_queue_t::add_block_to_head`, lines 134-151. -/
def add_block_to_head (q : internal_disk_backed_queue_t) : result_t :=
  let new_id := first_free q.cache.blocks
  let new_head := fresh_block q.cache.block_size
  let c1 := q.cache.put new_id (some (buf_t.queue_block new_head))
  if q.head_block_id = NULL_BLOCK_ID then
    if q.tail_block_id = NULL_BLOCK_ID then
      { fault := none,
        q := { q with
          head_block_id := some new_id
          tail_block_id := some new_id
          cache := c1.put new_id (some (buf_t.queue_block
            { new_head with next := NULL_BLOCK_ID, data_size := 0, live_data_offset := 0 })) } }
    else { fault := some fault_t.rassert_failed, q := { q with cache := c1 } }
  else
    match acquire c1 q.head_block_id with
    | none => { fault := some fault_t.bad_block, q := { q with cache := c1 } }
    | some (h, old_head) =>
      if old_head.next = NULL_BLOCK_ID then
        let c2 := c1.put h (some (buf_t.queue_block { old_head with next := some new_id }))
        { fault := none,
          q := { q with
            head_block_id := some new_id
            cache := c2.put new_id (some (buf_t.queue_block
              { new_head with next := NULL_BLOCK_ID, data_size := 0, live_data_offset := 0 })) } }
      else { fault := some fault_t.rassert_failed, q := { q with cache := c1 } }

/-- `internal_disk_backed_queue_t::remove_block_from_tail`, lines 153-166. -/
def remove_block_from_tail (q : internal_disk_backed_queue_t) : result_t :=
  if q.tail_block_id = NULL_BLOCK_ID then { fault := some fault_t.rassert_failed, q := q }
  else
    match acquire q.cache q.tail_block_id with
    | none => { fault := some fault_t.bad_block, q := q }
    | some (t, old_tail) =>
      if old_tail.next = NULL_BLOCK_ID then
        if q.head_block_id = some t then
          { fault := none,
            q := { q with
              tail_block_id := NULL_BLOCK_ID
              head_block_id := NULL_BLOCK_ID
              cache := q.cache.put t none } }
        else { fault := some fault_t.rassert_failed, q := q }
      else
        { fault := none,
          q := { q with tail_block_id := old_tail.next, cache := q.cache.put t none } }

/-- `internal_disk_backed_queue_t::push`, lines 42-80.  `r0` is the queue after lines 53-55;
`head` is the buffer locked at line 57, which `write_onto_blob` leaves as it is because a blob
only takes a free block id. -/
def push (maxreflen : Nat) (q : internal_disk_backed_queue_t) (wm : List Nat) : result_t :=
  let r0 : result_t :=
    if q.head_block_id = NULL_BLOCK_ID then add_block_to_head q else { fault := none, q := q }
  match r0.fault with
  | some f => { fault := some f, q := r0.q }
  | none =>
    match acquire r0.q.cache r0.q.head_block_id with
    | none => { fault := some fault_t.bad_block, q := r0.q }
    | some (h, head) =>
      let c1 := (write_onto_blob maxreflen r0.q.cache wm).1
      let buffer := (write_onto_blob maxreflen r0.q.cache wm).2
      let q1 := { r0.q with cache := c1 }
      let refsize := ref_size maxreflen buffer
      if QUEUE_BLOCK_HEADER_SIZE + head.data_size + refsize > c1.block_size then
        let r := add_block_to_head q1
        match r.fault with
        | some f => { fault := some f, q := r.q }
        | none =>
          match acquire r.q.cache r.q.head_block_id with
          | none => { fault := some fault_t.bad_block, q := r.q }
          | some (h2, head2) =>
            { fault := none,
              q := { r.q with
                cache := r.q.cache.put h2 (some (buf_t.queue_block
                  { head2 with
                    data := memcpy_at head2.data head2.data_size (buffer.take refsize)
                    data_size := head2.data_size + refsize }))
                queue_size := r.q.queue_size + 1 } }
      else
        { fault := none,
          q := { q1 with
            cache := c1.put h (some (buf_t.queue_block
              { head with
                data := memcpy_at head.data head.data_size (buffer.take refsize)
                data_size := head.data_size + refsize }))
            queue_size := q1.queue_size + 1 } }

/-- `internal_disk_backed_queue_t::pop`, lines 82-124. -/
def pop (maxreflen : Nat) (q : internal_disk_backed_queue_t) : pop_result_t :=
  if size q = 0 then { fault := some fault_t.guarantee_failed, viewed := [], q := q }
  else
    match acquire q.cache q.tail_block_id with
    | none => { fault := some fault_t.bad_block, viewed := [], q := q }
    | some (t, tail) =>
      if tail.data_size = tail.live_data_offset then
        { fault := some fault_t.rassert_failed, viewed := [], q := q }
      else
        let src := tail.data.drop tail.live_data_offset
        let buffer := src.take (ref_size maxreflen src)
        match expose_all maxreflen q.cache buffer with
        | none => { fault := some fault_t.bad_block, viewed := [], q := q }
        | some bytes =>
          let tail1 := { tail with
            live_data_offset := tail.live_data_offset + ref_size maxreflen buffer }
          let c1 := q.cache.put t (some (buf_t.queue_block tail1))
          let c2 := blob_clear maxreflen c1 buffer
          let q2 := { q with cache := c2, queue_size := q.queue_size - 1 }
          if tail1.live_data_offset = tail1.data_size then
            let r := remove_block_from_tail q2
            { fault := r.fault, viewed := [bytes], q := r.q }
          else { fault := none, viewed := [bytes], q := q2 }

/-- One call made on the queue. -/
inductive op_t
  | push (wm : List Nat)
  | pop
  deriving DecidableEq

/-- The result of a sequence of calls: what stopped it, if anything, every buffer group the
viewers received, in order, and the queue at the end. -/
structure run_result_t where
  fault : Option fault_t
  viewed : List (List Nat)
  q : internal_disk_backed_queue_t
  deriving DecidableEq

/-- Run a sequence of `push` and `pop` calls; a fault ends the run (the process aborts). -/
def run (maxreflen : Nat) : List op_t → internal_disk_backed_queue_t → run_result_t
  | [], q => { fault := none, viewed := [], q := q }
  | op_t.push wm :: ops, q =>
    match (push maxreflen q wm).fault with
    | some f => { fault := some f, viewed := [], q := (push maxreflen q wm).q }
    | none => run maxreflen ops (push maxreflen q wm).q
  | op_t.pop :: ops, q =>
    match (pop maxreflen q).fault with
    | some f => { fault := some f, viewed := (pop maxreflen q).viewed, q := (pop maxreflen q).q }
    | none =>
      { fault := (run maxreflen ops (pop maxreflen q).q).fault,
        viewed := (pop maxreflen q).viewed ++ (run maxreflen ops (pop maxreflen q).q).viewed,
        q := (run maxreflen ops (pop maxreflen q).q).q }

/-- The records pushed by a sequence of calls, in order. -/
def pushed : List op_t → List (List Nat)
  | [] => []
  | op_t.push wm :: ops => wm :: pushed ops
  | op_t.pop :: ops => pushed ops

/-- The number of `pop` calls in a sequence. -/
def pops : List op_t → Nat
  | [] => 0
  | op_t.push _ :: ops => pops ops
  | op_t.pop :: ops => pops ops + 1

/-- No `pop` of the sequence is applied to an empty queue, when the queue holds `n` records
at the start. -/
def no_pop_on_empty : Nat → List op_t → Bool
  | _, [] => true
  | n, op_t.push _ :: ops => no_pop_on_empty (n + 1) ops
  | 0, op_t.pop :: _ => false
  | n + 1, op_t.pop :: ops => no_pop_on_empty n ops

/-! ### The queue as a list of records: the representation relation -/

/-- The reference `ref` stands for the record `wm` in the cache `c`: the inline form, or the
indirect form whose block holds `wm`. -/
def ref_for (maxreflen : Nat) (c : cache_t) (ref wm : List Nat) : Prop :=
  (wm.length < maxreflen ∧ ref = wm.length :: wm) ∨
  (¬ wm.length < maxreflen ∧
    ∃ j, ref = [maxreflen, j] ∧ load c.blocks j = some (buf_t.blob_block wm))

/-- The size of the reference `write_onto_blob` makes for a record. -/
def refsize_of (maxreflen : Nat) (wm : List Nat) : Nat :=
  if wm.length < maxreflen then 1 + wm.length else 2

/-- The block a reference keeps in the cache: the one `blob_clear` gives back. -/
def blob_ids (maxreflen : Nat) (ref : List Nat) : List Nat :=
  match ref with
  | n :: j :: _ => if n < maxreflen then [] else [j]
  | _ => []

/-- The description of one block of the chain: its id, its `live_data_offset`, and the
references from that offset up to `data_size`, oldest first, each with its record. -/
structure gblock where
  id : Nat
  off : Nat
  live : List (List Nat × List Nat)

/-- The bytes of a run of references. -/
def ref_bytes : List (List Nat × List Nat) → List Nat
  | [] => []
  | e :: l => e.1 ++ ref_bytes l

/-- The block ids a described block accounts for: its own and those of its indirect blobs. -/
def gblock.owned (maxreflen : Nat) (g : gblock) : List Nat :=
  g.id :: g.live.flatMap (fun e => blob_ids maxreflen e.1)

/-- The block ids a described chain accounts for. -/
def owned (maxreflen : Nat) (chain : List gblock) : List Nat :=
  chain.flatMap (gblock.owned maxreflen)

/-- The queue block `b` is the one `g` describes. -/
def block_ok (maxreflen : Nat) (c : cache_t) (g : gblock) (b : queue_block_t) : Prop :=
  b.live_data_offset = g.off ∧
  b.data_size = g.off + (ref_bytes g.live).length ∧
  (∃ rest, b.data.drop g.off = ref_bytes g.live ++ rest) ∧
  b.data.length = c.block_size - QUEUE_BLOCK_HEADER_SIZE ∧
  QUEUE_BLOCK_HEADER_SIZE + b.data_size ≤ c.block_size ∧
  g.live ≠ [] ∧
  ∀ e ∈ g.live, ref_for maxreflen c e.1 e.2

/-- Following `next` from the block id `id` goes through the blocks described by the list and
ends on the id `last`. -/
def chain_seg (maxreflen : Nat) (c : cache_t) : block_id_t → List gblock → block_id_t → Prop
  | id, [], last => id = last
  | id, g :: rest, last =>
    id = some g.id ∧
    ∃ b, load c.blocks g.id = some (buf_t.queue_block b) ∧ block_ok maxreflen c g b ∧
      chain_seg maxreflen c b.next rest last

/-- The id of the last described block, `NULL_BLOCK_ID` for no block. -/
def last_id : List gblock → block_id_t
  | [] => NULL_BLOCK_ID
  | [g] => some g.id
  | _ :: g :: rest => last_id (g :: rest)

/-- The records a described chain holds, oldest first. -/
def pending (chain : List gblock) : List (List Nat) :=
  (chain.flatMap (fun g => g.live)).map (fun e => e.2)

/-- The queue `q` is a chain of blocks from tail to head as described by `chain`: the blocks
are linked by `next` from `tail_block_id` to `head_block_id`, no block id is accounted for
twice, and `queue_size` counts the references. -/
def rep (maxreflen : Nat) (q : internal_disk_backed_queue_t) (chain : List gblock) : Prop :=
  chain_seg maxreflen q.cache q.tail_block_id chain NULL_BLOCK_ID ∧
  q.head_block_id = last_id chain ∧
  (owned maxreflen chain).Nodup ∧
  q.queue_size = ((pending chain).length : Int)

/-- A queue on a cache with blocks of 18 bytes, after a push of the record `[7]`: the head
block 0 holds the 2-byte reference `[1, 7]` and is full. -/
def small_block_queue : internal_disk_backed_queue_t :=
  (run 6 [op_t.push [7]]
    (internal_disk_backed_queue_t.init { block_size := 18, blocks := [] })).q

/-- A queue on a cache with blocks of 24 bytes, after a push of the record `[1, 2]`. -/
def one_record_queue : internal_disk_backed_queue_t :=
  (run 6 [op_t.push [1, 2]]
    (internal_disk_backed_queue_t.init { block_size := 24, blocks := [] })).q

end disk_backed_queue

namespace page_repl_random

/-- The value `static_cast<size_t>(-1)` that marks a page outside the array. -/
def SIZE_MAX : Nat := 2 ^ 64 - 1

/-- Modelled from the spec: the `loader` of a Page, "either not started, in flight or resident". -/
inductive loader_t
  | not_started
  | in_flight
  | resident
  deriving DecidableEq

/-- An `evictable_t` object: the two fields of the base class, and the state of the page that
its virtual functions `safe_to_unload()` and `unload()` use, whose subclass is not part of this
file.  Modelled from the spec: `pin_count`, `dirty` and `loader` of a Page. -/
structure evictable_t where
  eviction_priority : Int
  page_repl_index : Nat
  pin_count : Nat
  dirty : Bool
  loader : loader_t
  deriving DecidableEq

/-- Modelled from the spec: `safe_to_unload()` is "pin_count == 0, not dirty, not loading". -/
def evictable_t.safe_to_unload (e : evictable_t) : Bool :=
  e.pin_count == 0 && !e.dirty && e.loader != loader_t.in_flight

/-- `evictable_t::in_page_repl`, lines 26-28. -/
def evictable_t.in_page_repl (e : evictable_t) : Bool :=
  e.page_repl_index != SIZE_MAX

/-- `page_repl_random_t`: the threshold and the array of pointers to evictables. -/
structure page_repl_random_t where
  unload_threshold : Nat
  array : List Nat

/-- The part of `mc_cache_t` the evictor works on: the objects behind the `evictable_t *`
pointers (an address is a `Nat`), the page replacement state and the eviction counter
`stats->pm_n_blocks_evicted`. -/
structure mc_cache_t where
  heap : Nat → evictable_t
  page_repl : page_repl_random_t
  pm_n_blocks_evicted : Nat

/-- `evictable_t::insert_into_page_repl`, lines 30-34. -/
def insert_into_page_repl (c : mc_cache_t) (this : Nat) : mc_cache_t :=
  { c with
    heap := Function.update c.heap this
      { c.heap this with page_repl_index := c.page_repl.array.length }
    page_repl := { c.page_repl with array := c.page_repl.array ++ [this] } }

/-- The constructor `evictable_t::evictable_t(cache, loaded)`, lines 8-15, for the object at
address `this`; `pin_count`, `dirty` and `loader` are what the subclass sets up, and
`DEFAULT_EVICTION_PRIORITY` is the constant of that name. -/
def evictable_t.construct (DEFAULT_EVICTION_PRIORITY : Int) (c : mc_cache_t) (this : Nat)
    (pin_count : Nat) (dirty : Bool) (loader : loader_t) (loaded : Bool) : mc_cache_t :=
  let c1 : mc_cache_t :=
    { c with
      heap := Function.update c.heap this
        { eviction_priority := DEFAULT_EVICTION_PRIORITY, page_repl_index := SIZE_MAX,
          pin_count := pin_count, dirty := dirty, loader := loader } }
  if loaded then insert_into_page_repl c1 this else c1

/-- How `remove_from_page_repl` ended: whether its `rassert` stopped it, and the cache then. -/
structure remove_result_t where
  rassert_failed : Bool
  cache : mc_cache_t

/-- `evictable_t::remove_from_page_repl`, lines 36-46. -/
def remove_from_page_repl (c : mc_cache_t) (this : Nat) : remove_result_t :=
  let idx := (c.heap this).page_repl_index
  if idx < c.page_repl.array.length then
    match c.page_repl.array.getLast? with
    | none => { rassert_failed := true, cache := c }
    | some replacement =>
      let heap1 := Function.update c.heap replacement
        { c.heap replacement with page_repl_index := idx }
      let swapped := (c.page_repl.array.set idx replacement).set
        (c.page_repl.array.length - 1) (c.page_repl.array.getD idx replacement)
      { rassert_failed := false,
        cache := { c with
          heap := Function.update heap1 this { heap1 this with page_repl_index := SIZE_MAX }
          page_repl := { c.page_repl with array := swapped.dropLast } } }
  else { rassert_failed := true, cache := c }

/-- Modelled from the spec: `unload()` "drops its buffer; the Page remains referenceable from
its slot but must reload on next use". -/
def unload (c : mc_cache_t) (this : Nat) : mc_cache_t :=
  { c with
    heap := Function.update c.heap this
      { c.heap this with loader := loader_t.not_started } }

/-- `page_repl_random_t::is_full`, lines 53-56; the sum is a `size_t`. -/
def is_full (c : mc_cache_t) (space_needed : Nat) : Bool :=
  decide ((c.page_repl.array.length + space_needed) % 2 ^ 64 > c.page_repl.unload_threshold)

/-- The external `randint(n)`: the draw number `pos` of the random stream `rng`, brought into
`[0, n)`. -/
def randint (rng : Nat → Nat) (pos : Nat) (n : Nat) : Nat := rng pos % n

/-- `randsize`, lines 60-66, reading the four draws `pos .. pos + 3`; the accumulator `x` is
a `size_t`. -/
def randsize (rng : Nat → Nat) (pos : Nat) (n : Nat) : Nat :=
  let x := randint rng pos 0x10000
  let x := (x * 0x10000 + randint rng (pos + 1) 0x10000) % 2 ^ 64
  let x := (x * 0x10000 + randint rng (pos + 2) 0x10000) % 2 ^ 64
  let x := (x * 0x10000 + randint rng (pos + 3) 0x10000) % 2 ^ 64
  x % n

/-- The body of the `for` loop of `make_space`, lines 91-107: the candidate after looking at
`block`, given the candidate `block_to_unload` before. -/
def consider (c : mc_cache_t) (block_to_unload : Option Nat) (block : Nat) : Option Nat :=
  if !(c.heap block).safe_to_unload then block_to_unload
  else
    match block_to_unload with
    | none => some block
    | some cur =>
      if (c.heap cur).eviction_priority < (c.heap block).eviction_priority then some block
      else some cur

/-- The `for` loop of `make_space`, lines 90-108, with `tries` rounds left: returns the final
`block_to_unload`. -/
def sample_round (rng : Nat → Nat) (c : mc_cache_t) : Nat → Nat → Option Nat → Option Nat
  | 0, _, block_to_unload => block_to_unload
  | tries + 1, pos, block_to_unload =>
    let n := randsize rng pos c.page_repl.array.length
    let block := c.page_repl.array.getD n 0
    sample_round rng c tries (pos + 4) (consider c block_to_unload block)

/-- The pages the `for` loop of `make_space` looks at in `tries` rounds, in order. -/
def sampled (rng : Nat → Nat) (c : mc_cache_t) : Nat → Nat → List Nat
  | 0, _ => []
  | tries + 1, pos =>
    c.page_repl.array.getD (randsize rng pos c.page_repl.array.length) 0 ::
      sampled rng c tries (pos + 4)

/-- How `make_space` ended: `rassert_failed` when the check in `remove_from_page_repl` stopped
it, `gave_up` when it left the loop through `break`, the pages it unloaded, in order, the
position reached in the random stream, and the cache. -/
structure make_space_result_t where
  rassert_failed : Bool
  gave_up : Bool
  evicted : List Nat
  pos : Nat
  cache : mc_cache_t

/-- The `while` loop of `make_space`, lines 86-127.  Every round that does not leave the loop
pops one pointer off the array, so the loop is run with the array size as a bound on its
rounds. -/
def make_space_loop (PAGE_REPL_NUM_TRIES : Nat) (rng : Nat → Nat) (target : Nat) :
    Nat → mc_cache_t → Nat → make_space_result_t
  | 0, c, pos =>
    { rassert_failed := false, gave_up := false, evicted := [], pos := pos, cache := c }
  | rounds + 1, c, pos =>
    if c.page_repl.array.length > target then
      let pos1 := pos + 4 * PAGE_REPL_NUM_TRIES
      match sample_round rng c PAGE_REPL_NUM_TRIES pos none with
      | none =>
        { rassert_failed := false, gave_up := true, evicted := [], pos := pos1, cache := c }
      | some block_to_unload =>
        let r := remove_from_page_repl c block_to_unload
        if r.rassert_failed then
          { rassert_failed := true, gave_up := false, evicted := [], pos := pos1,
            cache := r.cache }
        else
          let c2 := unload r.cache block_to_unload
          let c3 := { c2 with pm_n_blocks_evicted := c2.pm_n_blocks_evicted + 1 }
          let rest := make_space_loop PAGE_REPL_NUM_TRIES rng target rounds c3 pos1
          { rest with evicted := block_to_unload :: rest.evicted }
    else
      { rassert_failed := false, gave_up := false, evicted := [], pos := pos, cache := c }

/-- `page_repl_random_t::make_space`, lines 71-128. -/
def make_space (PAGE_REPL_NUM_TRIES : Nat) (rng : Nat → Nat) (pos : Nat) (c : mc_cache_t)
    (space_needed : Nat) : make_space_result_t :=
  let target :=
    if space_needed > c.page_repl.unload_threshold then 0
    else c.page_repl.unload_threshold - space_needed
  make_space_loop PAGE_REPL_NUM_TRIES rng target c.page_repl.array.length c pos

/-- Every page of the array is safe to unload. -/
def all_safe (c : mc_cache_t) : Prop :=
  ∀ p ∈ c.page_repl.array, (c.heap p).safe_to_unload = true

/-- Index coherence of the array: the page stored at position `i` has `page_repl_index = i`. -/
def index_coherent (c : mc_cache_t) : Prop :=
  ∀ i, i < c.page_repl.array.length →
    (c.heap (c.page_repl.array.getD i 0)).page_repl_index = i

/-- The index invariant of the evictor: position `i` of the array holds a page whose
`page_repl_index` is `i`, a page that is not in the array has the sentinel `(size_t)-1` as its
`page_repl_index`, and the array has at most `(size_t)-1` entries. -/
def evictor_inv (c : mc_cache_t) : Prop :=
  index_coherent c ∧
  (∀ p, p ∉ c.page_repl.array → (c.heap p).page_repl_index = SIZE_MAX) ∧
  c.page_repl.array.length ≤ SIZE_MAX

/-- The evictor states the invariants speak of: those reached from an empty array, where no
page is in the array, by constructing evictables, `insert_into_page_repl`,
`remove_from_page_repl` and `make_space`.  A page is constructed or inserted only when it is
not in the array, as the callers and the destructor see to; and `push_back` is reached only
with fewer than `(size_t)-1` pointers in the array, which is more than a `std::vector` of
pointers can hold. -/
inductive reachable (DEFAULT_EVICTION_PRIORITY : Int) (PAGE_REPL_NUM_TRIES : Nat) :
    mc_cache_t → Prop
  | init (heap : Nat → evictable_t) (unload_threshold : Nat)
      (h : ∀ p, (heap p).in_page_repl = false) :
      reachable DEFAULT_EVICTION_PRIORITY PAGE_REPL_NUM_TRIES
        { heap := heap, page_repl := { unload_threshold := unload_threshold, array := [] },
          pm_n_blocks_evicted := 0 }
  | construct (c : mc_cache_t) (this pin_count : Nat) (dirty : Bool) (loader : loader_t)
      (loaded : Bool) :
      reachable DEFAULT_EVICTION_PRIORITY PAGE_REPL_NUM_TRIES c →
      (c.heap this).in_page_repl = false →
      (loaded = true → c.page_repl.array.length < SIZE_MAX) →
      reachable DEFAULT_EVICTION_PRIORITY PAGE_REPL_NUM_TRIES
        (evictable_t.construct DEFAULT_EVICTION_PRIORITY c this pin_count dirty loader loaded)
  | insert (c : mc_cache_t) (this : Nat) :
      reachable DEFAULT_EVICTION_PRIORITY PAGE_REPL_NUM_TRIES c →
      (c.heap this).in_page_repl = false →
      c.page_repl.array.length < SIZE_MAX →
      reachable DEFAULT_EVICTION_PRIORITY PAGE_REPL_NUM_TRIES (insert_into_page_repl c this)
  | remove (c : mc_cache_t) (this : Nat) :
      reachable DEFAULT_EVICTION_PRIORITY PAGE_REPL_NUM_TRIES c →
      reachable DEFAULT_EVICTION_PRIORITY PAGE_REPL_NUM_TRIES
        (remove_from_page_repl c this).cache
  | make_space (c : mc_cache_t) (rng : Nat → Nat) (pos space_needed : Nat) :
      reachable DEFAULT_EVICTION_PRIORITY PAGE_REPL_NUM_TRIES c →
      reachable DEFAULT_EVICTION_PRIORITY PAGE_REPL_NUM_TRIES
        (make_space PAGE_REPL_NUM_TRIES rng pos c space_needed).cache

/-! ### Concrete evictor states -/

/-- An evictor with no page in the array. -/
def empty_cache (unload_threshold : Nat) : mc_cache_t :=
  { heap := fun _ =>
      { eviction_priority := 0, page_repl_index := SIZE_MAX, pin_count := 0, dirty := false,
        loader := loader_t.not_started },
    page_repl := { unload_threshold := unload_threshold, array := [] },
    pm_n_blocks_evicted := 0 }

/-- Three resident, clean, unpinned pages at the addresses 0, 1 and 2, all in the array. -/
def three_clean_pages (unload_threshold : Nat) : mc_cache_t :=
  evictable_t.construct 0
    (evictable_t.construct 0
      (evictable_t.construct 0 (empty_cache unload_threshold) 0 0 false loader_t.resident true)
      1 0 false loader_t.resident true)
    2 0 false loader_t.resident true

/-- Two pinned pages at the addresses 0 and 1, both in the array. -/
def two_pinned_pages (unload_threshold : Nat) : mc_cache_t :=
  evictable_t.construct 0
    (evictable_t.construct 0 (empty_cache unload_threshold) 0 1 false loader_t.resident true)
    1 2 false loader_t.resident true

end page_repl_random

namespace page_cache

/-! ### The current-page slots of the page cache

The page cache itself (`page_cache_t`, `page_txn_t`, `current_page_acq_t`) is exercised by
`unittest/page_test.cc`; its implementation is not among the source files.  The definitions of
this namespace are modelled from the specification of the acquisition protocol (§3, §4.2, §4.4,
§4.5, §6 and §7 of the spec), with the names the test uses. -/

/-- Modelled from the spec: the access mode of an Acquisition, "access mode (Read/Write/Create)";
a `Create` acquisition is a write acquisition on a fresh block. -/
inductive alt_access_t
  | read
  | write
  deriving DecidableEq

/-- Modelled from the spec: an Acquisition (`current_page_acq_t`, missing from the sources), "one
transaction's pending or granted claim on a slot": the transaction, the access mode, the two
one-shot signals, the `declared_snapshotted` flag and, once the acquisition has been converted by
`declare_snapshotted()`, the content it permanently references (`none` inside when the slot had
no page).  `acq_id` names the acquisition object. -/
structure current_page_acq_t where
  acq_id : Nat
  txn : Nat
  access : alt_access_t
  declared_snapshotted : Bool
  read_acq_signal : Bool
  write_acq_signal : Bool
  snapshotted_page : Option (Option (List Nat))
  deriving DecidableEq

/-- Modelled from the spec: a CurrentPageSlot (`current_page_t`, missing from the sources), the
"current Page (the latest observable content)" and "an ordered FIFO of Acquisition entries".
`page` is `none` for a slot without a page: never created, or deleted. -/
structure current_page_t where
  page : Option (List Nat)
  acqs : List current_page_acq_t

/-- Modelled from the spec: the part of `page_cache_t` (missing from the sources) that the
acquisition protocol works on: the slots by block id (every id has a slot, empty until used),
the block ids on the serializer's free list ("IDs are dense and reusable after deletion") with
`next_block_id` one past the highest id ever handed out, and per transaction whether it is
alive, its "live acquisition count" and the blocks it marked deleted. -/
structure page_cache_t where
  current_pages : Nat → current_page_t
  free_list : List Nat
  next_block_id : Nat
  txn_live : Nat → Bool
  live_acqs : Nat → Nat
  deleted : Nat → List Nat

/-- Modelled from the spec: a new cache on an empty serializer. -/
def page_cache_t.init : page_cache_t :=
  { current_pages := fun _ => { page := none, acqs := [] },
    free_list := [],
    next_block_id := 0,
    txn_live := fun _ => false,
    live_acqs := fun _ => 0,
    deleted := fun _ => [] }

/-- Modelled from the spec: what advancement does to one queue entry that holds no snapshot,
when `rok` says that rule 2 of §4.4 holds at its position and `wok` that rule 3 does: the
signals fire, and a read-ready entry that has declared itself snapshotted is converted into one
that references the current content (rule 5). -/
def advance_acq (page : Option (List Nat)) (rok wok : Bool) (a : current_page_acq_t) :
    current_page_acq_t :=
  { a with
    read_acq_signal := a.read_acq_signal || rok
    write_acq_signal := a.write_acq_signal || (wok && decide (a.access = alt_access_t.write))
    snapshotted_page :=
      if (a.read_acq_signal || rok) && a.declared_snapshotted then some page else none }

/-- Modelled from the spec: advancement of a queue from its head (§4.4 rule 1, "the head of the
queue is always considered for advancement after any state change").  `rok` is true while every
earlier entry is a read-ready reader or has been converted by `declare_snapshotted()` (rule 2);
`wok` is true while every earlier entry has been converted, the released ones being gone from
the queue (rule 3). -/
def advance (page : Option (List Nat)) : Bool → Bool → List current_page_acq_t →
    List current_page_acq_t
  | _, _, [] => []
  | rok, wok, a :: rest =>
    match a.snapshotted_page with
    | some _ => a :: advance page rok wok rest
    | none =>
      (advance_acq page rok wok a) ::
        advance page
          (rok && ((advance_acq page rok wok a).snapshotted_page.isSome ||
            decide (a.access = alt_access_t.read)))
          (wok && (advance_acq page rok wok a).snapshotted_page.isSome) rest

/-- The entry of acquisition `acq` in the queue of block `block`. -/
def find_acq (c : page_cache_t) (block acq : Nat) : Option current_page_acq_t :=
  (c.current_pages block).acqs.find? (fun e => e.acq_id == acq)

/-- Modelled from the spec: what an acquisition observes through `current_page_for_read()`: the
content it references once converted to a snapshot, else the current page of the slot once it
is read-ready; `none` while it may not read. -/
def current_page_for_read (c : page_cache_t) (block acq : Nat) : Option (Option (List Nat)) :=
  match find_acq c block acq with
  | none => none
  | some e =>
    match e.snapshotted_page with
    | some p => some p
    | none => if e.read_acq_signal then some (c.current_pages block).page else none

/-- Modelled from the spec: the page an acquisition exposes through `current_page_for_write()`:
the current page of the slot, once the acquisition is write-ready. -/
def current_page_for_write (c : page_cache_t) (block acq : Nat) : Option (List Nat) :=
  match find_acq c block acq with
  | none => none
  | some e =>
    if e.write_acq_signal && e.snapshotted_page.isNone then (c.current_pages block).page
    else none

/-- Modelled from the spec: `NULL_BLOCK_ID`, "a reserved sentinel meaning none".  Block ids are
64-bit (`next: u64` in §6) and are handed out densely from 0; the sentinel is taken to be the
last 64-bit value, as `static_cast<size_t>(-1)` is for an index in `page_repl_random.cc`. -/
def NULL_BLOCK_ID : Nat := 2 ^ 64 - 1

/-- A block id is allocated when it has been handed out and is not on the free list. -/
def allocated (c : page_cache_t) (block : Nat) : Bool :=
  decide (block < c.next_block_id) && decide (block ∉ c.free_list)

/-- Modelled from the spec: the block ids a `Create` acquisition can receive, "New IDs come from
the serializer's free list; IDs are dense and reusable after deletion": any id on the free
list, or the next id never handed out when no id is free.  Which of several free ids comes
first is the free list's choice; the spec does not fix it. -/
def free_id (c : page_cache_t) (block : Nat) : Bool :=
  if c.free_list = [] then decide (block = c.next_block_id) else decide (block ∈ c.free_list)

/-- A new queue entry. -/
def new_acq (txn acq : Nat) (access : alt_access_t) : current_page_acq_t :=
  { acq_id := acq, txn := txn, access := access, declared_snapshotted := false,
    read_acq_signal := false, write_acq_signal := false, snapshotted_page := none }

/-- Replace the queue of a slot and consider it for advancement. -/
def set_acqs (c : page_cache_t) (block : Nat) (acqs : List current_page_acq_t) : page_cache_t :=
  { c with
    current_pages := Function.update c.current_pages block
      { page := (c.current_pages block).page,
        acqs := advance (c.current_pages block).page true true acqs } }

/-- Replace the page of a slot. -/
def set_page (c : page_cache_t) (block : Nat) (page : Option (List Nat)) : page_cache_t :=
  { c with
    current_pages := Function.update c.current_pages block
      { page := page, acqs := (c.current_pages block).acqs } }

/-- The order the queue keeps between an entry `e` and a later entry `a`: while `e` has not
been converted to a snapshot the write signal of `a` is unpulsed, and while `e` is moreover a
write acquisition the read signal of `a` is unpulsed too. -/
def waits_behind (e a : current_page_acq_t) : Prop :=
  (e.snapshotted_page = none → a.write_acq_signal = false) ∧
  (e.snapshotted_page = none → e.access = alt_access_t.write → a.read_acq_signal = false)

/-- The invariant of the cache states: the free list has no duplicates and holds ids below
`next_block_id`; a block id that is not allocated has no page; the acquisitions of a slot have
distinct names and keep the queue order; a block that a live transaction marked deleted is
allocated and has no page, and is on the list of one transaction only, once. -/
def cache_inv (c : page_cache_t) : Prop :=
  c.free_list.Nodup ∧
  (∀ b ∈ c.free_list, b < c.next_block_id) ∧
  (∀ b, allocated c b = false → (c.current_pages b).page = none) ∧
  (∀ b, ((c.current_pages b).acqs.map (fun e => e.acq_id)).Nodup) ∧
  (∀ b, (c.current_pages b).acqs.Pairwise waits_behind) ∧
  (∀ t b, b ∈ c.deleted t → allocated c b = true ∧ (c.current_pages b).page = none) ∧
  (∀ t1 t2 b, b ∈ c.deleted t1 → b ∈ c.deleted t2 → t1 = t2) ∧
  (∀ t, (c.deleted t).Nodup)

/-- The calls of the public interface (§6 of the spec). -/
inductive op_t
  | begin_txn (txn : Nat)
  | acquire (txn block acq : Nat) (access : alt_access_t)
  | create (txn acq block : Nat)
  | declare_snapshotted (block acq : Nat)
  | write (block acq : Nat) (content : List Nat)
  | mark_deleted (block acq : Nat)
  | release (block acq : Nat)
  | destroy_txn (txn : Nat)
  deriving DecidableEq

/-- Modelled from the spec: one call on the cache; `none` is a call the interface does not
allow.

* `new Transaction`: the transaction must not be alive already.
* `new Acquisition(transaction, block_id, mode)`: on any block id, queued at the end of the
  slot (rule 1); "acquiring write on a block already deleted by the same transaction" is a
  contract violation (§7).
* `new Acquisition(transaction, Create)`: "asks the cache for a fresh BlockId, initialises an
  empty resident Page in the matching slot" (rule 6); `block` is the id the free list hands
  out, one of the ids of `free_id`, and the acquisition is queued on its slot like any other.
* `declare_snapshotted()`: "Any holder may call" (rule 5).
* writing through `get_buf_write()` and `mark_deleted()`: on a write-granted acquisition (rule
  7) of a slot that has a page; a deleted page leaves the slot empty (§4.2).
* dropping an acquisition dequeues it, "the next head is re-evaluated".
* dropping a transaction, with no live acquisition: the ids of the blocks it marked deleted go
  to the free list. -/
def step (c : page_cache_t) : op_t → Option page_cache_t
  | op_t.begin_txn txn =>
    if c.txn_live txn then none
    else some { c with txn_live := Function.update c.txn_live txn true }
  | op_t.acquire txn block acq access =>
    if c.txn_live txn && (find_acq c block acq).isNone &&
        !(decide (access = alt_access_t.write) && decide (block ∈ c.deleted txn)) then
      some { set_acqs c block ((c.current_pages block).acqs ++ [new_acq txn acq access]) with
        live_acqs := Function.update c.live_acqs txn (c.live_acqs txn + 1) }
    else none
  | op_t.create txn acq block =>
    if c.txn_live txn && free_id c block && (find_acq c block acq).isNone then
      some { set_acqs (set_page c block (some [])) block
          ((c.current_pages block).acqs ++ [new_acq txn acq alt_access_t.write]) with
        free_list := c.free_list.erase block
        next_block_id := if c.free_list = [] then c.next_block_id + 1 else c.next_block_id
        live_acqs := Function.update c.live_acqs txn (c.live_acqs txn + 1) }
    else none
  | op_t.declare_snapshotted block acq =>
    if (find_acq c block acq).isSome then
      some (set_acqs c block
        ((c.current_pages block).acqs.map
          (fun e => if e.acq_id = acq then { e with declared_snapshotted := true } else e)))
    else none
  | op_t.write block acq content =>
    match find_acq c block acq with
    | none => none
    | some e =>
      if e.write_acq_signal && e.snapshotted_page.isNone &&
          decide (e.access = alt_access_t.write) && (c.current_pages block).page.isSome then
        some (set_page c block (some content))
      else none
  | op_t.mark_deleted block acq =>
    match find_acq c block acq with
    | none => none
    | some e =>
      if e.write_acq_signal && e.snapshotted_page.isNone &&
          decide (e.access = alt_access_t.write) && (c.current_pages block).page.isSome then
        some { set_page c block none with
          deleted := Function.update c.deleted e.txn (block :: c.deleted e.txn) }
      else none
  | op_t.release block acq =>
    match find_acq c block acq with
    | none => none
    | some e =>
      some { set_acqs c block ((c.current_pages block).acqs.filter (fun x => x.acq_id != acq)) with
        live_acqs := Function.update c.live_acqs e.txn (c.live_acqs e.txn - 1) }
  | op_t.destroy_txn txn =>
    if c.txn_live txn && decide (c.live_acqs txn = 0) then
      some { c with
        txn_live := Function.update c.txn_live txn false
        free_list := c.deleted txn ++ c.free_list
        deleted := Function.update c.deleted txn [] }
    else none

/-- A sequence of calls, stopping at the first contract violation. -/
def run : List op_t → page_cache_t → Option page_cache_t
  | [], c => some c
  | op :: ops, c =>
    match step c op with
    | none => none
    | some c1 => run ops c1

/-- The states of the cache: those a sequence of calls reaches from a new cache. -/
inductive reachable_cache : page_cache_t → Prop
  | init : reachable_cache page_cache_t.init
  | step (c : page_cache_t) (op : op_t) (c1 : page_cache_t) :
      reachable_cache c → step c op = some c1 → reachable_cache c1

/-! ### Concrete cache states -/

/-- As in `run_txn1` and `run_txn2` of the test: transaction 1 creates a block and holds it,
transaction 2 acquires the block for write. -/
def txn2_behind_txn1_ops : List op_t :=
  [op_t.begin_txn 1, op_t.create 1 1 0, op_t.begin_txn 2,
    op_t.acquire 2 0 2 alt_access_t.write]

/-- The cache after `txn2_behind_txn1_ops`. -/
def txn2_behind_txn1 : page_cache_t :=
  (run txn2_behind_txn1_ops page_cache_t.init).getD page_cache_t.init

/-- Transaction 1 has created block 0, written `[1]` to it and holds the acquisition. -/
def one_block_ops : List op_t :=
  [op_t.begin_txn 1, op_t.create 1 1 0, op_t.write 0 1 [1]]

/-- The cache after `one_block_ops`. -/
def one_block : page_cache_t :=
  (run one_block_ops page_cache_t.init).getD page_cache_t.init

/-- The cache after transaction 1 of `one_block` has made a second `Create` acquisition, which
receives the id 1. -/
def second_block_created : page_cache_t :=
  (step one_block (op_t.create 1 2 1)).getD page_cache_t.init

/-- Transaction 1 has created block 0 and holds the acquisition, a write acquisition, which it
has declared snapshotted; transaction 2 has acquired the block for write. -/
def writer_snapshotted_ops : List op_t :=
  [op_t.begin_txn 1, op_t.create 1 1 0, op_t.declare_snapshotted 0 1, op_t.begin_txn 2,
    op_t.acquire 2 0 2 alt_access_t.write]

/-- The cache after `writer_snapshotted_ops`. -/
def writer_snapshotted : page_cache_t :=
  (run writer_snapshotted_ops page_cache_t.init).getD page_cache_t.init

/-- Block 0 holds the content `[1]` and transaction 3 has a read acquisition on it, which is
read-ready. -/
def reader_ready : page_cache_t :=
  (run [op_t.begin_txn 1, op_t.create 1 1 0, op_t.write 0 1 [1], op_t.release 0 1,
    op_t.begin_txn 3, op_t.acquire 3 0 3 alt_access_t.read] page_cache_t.init).getD
    page_cache_t.init

/-- The cache after the reader of `reader_ready` has declared itself snapshotted. -/
def reader_snapshotted : page_cache_t :=
  (step reader_ready (op_t.declare_snapshotted 0 3)).getD page_cache_t.init

/-- As in `run_txn11` to `run_txn13` of the test: a later transaction appends to the block and
deletes it, and another one creates a block, which receives the same id, and writes to it. -/
def later_writers_ops : List op_t :=
  [op_t.begin_txn 4, op_t.acquire 4 0 4 alt_access_t.write, op_t.write 0 4 [1, 2],
    op_t.mark_deleted 0 4, op_t.release 0 4, op_t.destroy_txn 4,
    op_t.begin_txn 5, op_t.create 5 5 0, op_t.write 0 5 [9]]

/-- The cache after `later_writers_ops`, run on `reader_snapshotted`. -/
def after_later_writers : page_cache_t :=
  (run later_writers_ops reader_snapshotted).getD page_cache_t.init

/-- Block 0 held the content `[7]`; transaction 1 has marked it deleted and released its
acquisition, and is about to be destroyed. -/
def block_deleted_ops : List op_t :=
  [op_t.begin_txn 0, op_t.create 0 0 0, op_t.write 0 0 [7], op_t.release 0 0,
    op_t.destroy_txn 0, op_t.begin_txn 1, op_t.acquire 1 0 2 alt_access_t.write,
    op_t.mark_deleted 0 2, op_t.release 0 2]

/-- The cache after `block_deleted_ops`. -/
def block_deleted : page_cache_t :=
  (run block_deleted_ops page_cache_t.init).getD page_cache_t.init

/-- As in `run_txn14` of the test: block 0 holds the content `[7]`; transaction 14 acquires
it for write and appends. -/
def txn14_ops : List op_t :=
  [op_t.begin_txn 7, op_t.create 7 0 0, op_t.write 0 0 [7], op_t.release 0 0,
    op_t.begin_txn 14, op_t.acquire 14 0 1 alt_access_t.write, op_t.write 0 1 [7, 14]]

/-- The cache after `txn14_ops`. -/
def txn14_holds : page_cache_t :=
  (run txn14_ops page_cache_t.init).getD page_cache_t.init

/-- The cache after transaction 14 of `txn14_holds` has acquired block 0 for write again, while
it holds the first acquisition. -/
def txn14_reacquired : page_cache_t :=
  (step txn14_holds (op_t.acquire 14 0 2 alt_access_t.write)).getD page_cache_t.init

end page_cache

namespace ql

/-! ### Batch specifications (`rdb_protocol/batching.cc`)

`batchspec_t`, its constructor and the three functions that derive a new `batchspec_t`.  The
class declaration (`batching.hpp`) is not among the source files: the enumeration
`batch_type_t` is taken as a number and its enumerator `NORMAL` as a parameter. -/

/-- `std::numeric_limits<int64_t>::max()`. -/
def INT64_MAX : Int := 2 ^ 63 - 1

/-- `std::numeric_limits<int64_t>::min()`. -/
def INT64_MIN : Int := -(2 ^ 63)

/-- `std::numeric_limits<microtime_t>::max()`, the type `microtime_t` of `end_time` being a
`uint64_t`. -/
def MICROTIME_MAX : Nat := 2 ^ 64 - 1

/-- The `int64_t` a product or sum is stored as when the exact result is `x`: the two's
complement value the compiled arithmetic leaves.  (Where `x` is out of range the C++ standard
leaves the behaviour undefined.) -/
def wrap_int64 (x : Int) : Int := (x + 2 ^ 63) % 2 ^ 64 - 2 ^ 63

/-- The `int64_t` division `a / b`, which truncates toward zero; `none` where the machine
division traps: a zero divisor, or `INT64_MIN / -1`. -/
def div_int64 (a b : Int) : Option Int :=
  if b = 0 ∨ (a = INT64_MIN ∧ b = -1) then none else some (Int.tdiv a b)

/-- The fields of `batchspec_t`; `batch_type` is the value of the `enum class batch_type_t`. -/
structure batchspec_t where
  batch_type : Nat
  els_left : Int
  size_left : Int
  end_time : Nat
  deriving DecidableEq

/-- How a call that builds a `batchspec_t` ends: with the object, with the exception of
`r_sanity_check`, or with a trap of the division. -/
inductive result_t
  | ok (b : batchspec_t)
  | sanity_check_failed
  | arithmetic_fault
  deriving DecidableEq

/-- The constructor `batchspec_t::batchspec_t`, lines 11-23; `NORMAL` is the enumerator
`batch_type_t::NORMAL`. -/
def batchspec_t.construct (NORMAL : Nat) (batch_type : Nat) (els size : Int) (end_time : Nat) :
    result_t :=
  if els ≥ 1 then
    result_t.ok
      { batch_type := batch_type, els_left := els, size_left := size,
        end_time := if batch_type = NORMAL then end_time else MICROTIME_MAX }
  else result_t.sanity_check_failed

/-- `batchspec_t::user(batch_type, conf)`, lines 25-42: `max_els`, `max_size` and `max_dur` are
the `as_int()` values of the entries of `conf`, where it has them; `now` is
`current_microtime()` and `MEGABYTE` the constant of that name.  The sum for `end_time` is
taken in `uint64_t`. -/
def batchspec_t.user (NORMAL : Nat) (MEGABYTE : Int) (batch_type : Nat)
    (max_els max_size max_dur : Option Int) (now : Nat) : result_t :=
  batchspec_t.construct NORMAL batch_type
    (match max_els with
      | some e => e
      | none => INT64_MAX)
    (match max_size with
      | some s => s
      | none => Int.tdiv MEGABYTE 4)
    (if batch_type = NORMAL then
      (((now : Int) + (match max_dur with
        | some d => d
        | none => 500 * 1000)) % 2 ^ 64).toNat
    else MICROTIME_MAX)

/-- `batchspec_t::with_at_most`, lines 55-62; `_max_els` is a `uint64_t`. -/
def batchspec_t.with_at_most (NORMAL : Nat) (b : batchspec_t) (_max_els : Nat) : result_t :=
  let max_els : Int := ((min INT64_MAX.toNat _max_els : Nat) : Int)
  batchspec_t.construct NORMAL b.batch_type (max 1 (min b.els_left max_els)) b.size_left
    b.end_time

/-- The expression `(x * 8 / (7 * divisor)) + 8` of `scale_down`, lines 71-72, in `int64_t`. -/
def scaled (x divisor : Int) : Option Int :=
  match div_int64 (wrap_int64 (x * 8)) (wrap_int64 (7 * divisor)) with
  | none => none
  | some r => some (wrap_int64 (r + 8))

/-- `batchspec_t::scale_down`, lines 64-77. -/
def batchspec_t.scale_down (NORMAL : Nat) (b : batchspec_t) (divisor : Int) : result_t :=
  match scaled b.els_left divisor with
  | none => result_t.arithmetic_fault
  | some new_els_left =>
    match scaled b.size_left divisor with
    | none => result_t.arithmetic_fault
    | some new_size_left =>
      batchspec_t.construct NORMAL b.batch_type (min b.els_left new_els_left)
        (min b.size_left new_size_left) b.end_time

end ql

/-! ## Part 2: theorems -/

namespace disk_backed_queue

/-! ### The block table -/

theorem load_nil (i : Nat) : load [] i = none := by
  cases i <;> rfl

theorem load_store (l : List (Option buf_t)) (i j : Nat) (v : Option buf_t) :
    load (store l i v) j = if j = i then v else load l j := by
  induction l generalizing i j with
  | nil =>
    induction i generalizing j with
    | zero =>
      cases j with
      | zero => simp [store, load]
      | succ j => simp [store, load, load_nil]
    | succ i ih =>
      cases j with
      | zero => simp [store, load]
      | succ j => simp [store, load, ih, load_nil]
  | cons x t ih =>
    cases i with
    | zero =>
      cases j with
      | zero => simp [store, load]
      | succ j => simp [store, load]
    | succ i =>
      cases j with
      | zero => simp [store, load]
      | succ j => simp [store, load, ih]

theorem load_first_free (l : List (Option buf_t)) : load l (first_free l) = none := by
  induction l with
  | nil => rfl
  | cons x t ih =>
    cases x with
    | none => rfl
    | some b => simpa [first_free, load] using ih

theorem load_put (c : cache_t) (i j : Nat) (v : Option buf_t) :
    load (c.put i v).blocks j = if j = i then v else load c.blocks j := by
  simp [cache_t.put, load_store]

theorem put_block_size (c : cache_t) (i : Nat) (v : Option buf_t) :
    (c.put i v).block_size = c.block_size := rfl

theorem add_block_to_head_size (q : internal_disk_backed_queue_t) :
    (add_block_to_head q).q.queue_size = q.queue_size := by
  unfold add_block_to_head
  simp only
  split_ifs <;> try rfl
  all_goals (split <;> try rfl)
  all_goals (split_ifs <;> rfl)

theorem remove_block_from_tail_size (q : internal_disk_backed_queue_t) :
    (remove_block_from_tail q).q.queue_size = q.queue_size := by
  unfold remove_block_from_tail
  split_ifs <;> try rfl
  split <;> try rfl
  split_ifs <;> rfl

theorem remove_block_from_tail_fault (q : internal_disk_backed_queue_t) :
    (remove_block_from_tail q).fault ≠ some fault_t.guarantee_failed := by
  unfold remove_block_from_tail
  split_ifs <;> try simp
  split <;> try simp
  split_ifs <;> simp

theorem push_size (maxreflen : Nat) (q : internal_disk_backed_queue_t) (wm : List Nat)
    (h : (push maxreflen q wm).fault = none) :
    size (push maxreflen q wm).q = size q + 1 := by
  have h0 : (if q.head_block_id = NULL_BLOCK_ID then add_block_to_head q
      else ({ fault := none, q := q } : result_t)).q.queue_size = q.queue_size := by
    split_ifs
    · exact add_block_to_head_size q
    · rfl
  revert h
  unfold push size
  simp only
  generalize (if q.head_block_id = NULL_BLOCK_ID then add_block_to_head q
      else ({ fault := none, q := q } : result_t)) = r0 at h0 ⊢
  split
  · simp
  · split
    · simp
    · split_ifs
      · split
        · simp
        · split
          · simp
          · intro _
            simp [add_block_to_head_size, h0]
      · intro _
        simp [h0]

theorem pop_size (maxreflen : Nat) (q : internal_disk_backed_queue_t)
    (h : (pop maxreflen q).fault = none) :
    size (pop maxreflen q).q = size q - 1 := by
  revert h
  unfold pop
  simp only [size]
  split_ifs
  · simp
  · cases acquire q.cache q.tail_block_id with
    | none => simp
    | some tb =>
      simp only
      split_ifs
      · simp
      · cases expose_all maxreflen q.cache _ with
        | none => simp
        | some bytes => simp [remove_block_from_tail_size]
      · cases expose_all maxreflen q.cache _ with
        | none => simp
        | some bytes => simp

theorem pop_guarantee_only_when_empty (maxreflen : Nat) (q : internal_disk_backed_queue_t) :
    (size q = 0 →
      pop maxreflen q = { fault := some fault_t.guarantee_failed, viewed := [], q := q }) ∧
    (size q ≠ 0 → (pop maxreflen q).fault ≠ some fault_t.guarantee_failed) := by
  constructor
  · intro h
    simp [pop, h]
  · intro h
    unfold pop
    rw [if_neg h]
    simp only
    cases acquire q.cache q.tail_block_id with
    | none => simp
    | some tb =>
      simp only
      split_ifs
      · simp
      · cases expose_all maxreflen q.cache _ with
        | none => simp
        | some bytes => exact remove_block_from_tail_fault _
      · cases expose_all maxreflen q.cache _ with
        | none => simp
        | some bytes => simp


theorem run_size (maxreflen : Nat) (ops : List op_t) (q : internal_disk_backed_queue_t)
    (h : (run maxreflen ops q).fault = none) :
    size (run maxreflen ops q).q = size q + (pushed ops).length - pops ops := by
  induction ops generalizing q with
  | nil => simp [run, pushed, pops]
  | cons op ops ih =>
    cases op with
    | push wm =>
      cases hp : (push maxreflen q wm).fault with
      | some f => simp [run, hp] at h
      | none =>
        simp only [run, hp] at h ⊢
        rw [ih _ h, push_size maxreflen q wm hp]
        simp [pushed, pops]
        ring
    | pop =>
      cases hp : (pop maxreflen q).fault with
      | some f => simp [run, hp] at h
      | none =>
        simp only [run, hp] at h ⊢
        rw [ih _ h, pop_size maxreflen q hp]
        simp [pushed, pops]
        ring

/-! ### Frame lemmas for the representation relation -/

theorem ref_for_length {maxreflen : Nat} {c : cache_t} {ref wm : List Nat}
    (h : ref_for maxreflen c ref wm) :
    ref.length = refsize_of maxreflen wm ∧ ref_size maxreflen ref = ref.length ∧
      1 ≤ ref.length := by
  rcases h with ⟨h1, h2⟩ | ⟨h1, j, h2, _⟩
  · subst h2
    simp [refsize_of, ref_size, h1]
    omega
  · subst h2
    simp [refsize_of, ref_size, h1]

theorem ref_size_append {maxreflen : Nat} {c : cache_t} {ref wm : List Nat}
    (h : ref_for maxreflen c ref wm) (rest : List Nat) :
    ref_size maxreflen (ref ++ rest) = ref.length := by
  rcases h with ⟨h1, h2⟩ | ⟨h1, j, h2, _⟩
  · subst h2
    simp [ref_size, h1]
    omega
  · subst h2
    simp [ref_size]

theorem ref_for_expose {maxreflen : Nat} {c : cache_t} {ref wm : List Nat}
    (h : ref_for maxreflen c ref wm) : expose_all maxreflen c ref = some wm := by
  rcases h with ⟨h1, h2⟩ | ⟨h1, j, h2, h3⟩
  · subst h2
    simp [expose_all, h1]
  · subst h2
    simp [expose_all, h3]

theorem ref_for_frame {maxreflen : Nat} {c c2 : cache_t} {ref wm : List Nat}
    (h : ref_for maxreflen c ref wm)
    (hf : ∀ i ∈ blob_ids maxreflen ref, load c2.blocks i = load c.blocks i) :
    ref_for maxreflen c2 ref wm := by
  rcases h with ⟨h1, h2⟩ | ⟨h1, j, h2, h3⟩
  · exact Or.inl ⟨h1, h2⟩
  · refine Or.inr ⟨h1, j, h2, ?_⟩
    rw [hf j, h3]
    subst h2
    simp [blob_ids]

theorem ref_for_loaded {maxreflen : Nat} {c : cache_t} {ref wm : List Nat}
    (h : ref_for maxreflen c ref wm) :
    ∀ i ∈ blob_ids maxreflen ref, load c.blocks i ≠ none := by
  rcases h with ⟨h1, h2⟩ | ⟨h1, j, h2, h3⟩
  · subst h2
    intro i hi
    cases wm with
    | nil => simp [blob_ids] at hi
    | cons a t =>
      simp [blob_ids] at hi
      simp at h1
      omega
  · subst h2
    intro i hi
    simp [blob_ids] at hi
    subst hi
    simp [h3]

theorem owned_cons (maxreflen : Nat) (g : gblock) (l : List gblock) :
    owned maxreflen (g :: l) = gblock.owned maxreflen g ++ owned maxreflen l := by
  simp [owned]

theorem block_ok_frame {maxreflen : Nat} {c c2 : cache_t} {g : gblock} {b : queue_block_t}
    (h : block_ok maxreflen c g b) (hbs : c2.block_size = c.block_size)
    (hf : ∀ i ∈ g.live.flatMap (fun e => blob_ids maxreflen e.1),
      load c2.blocks i = load c.blocks i) :
    block_ok maxreflen c2 g b := by
  obtain ⟨h1, h2, h3, h4, h5, h6, h7⟩ := h
  refine ⟨h1, h2, h3, by rw [hbs]; exact h4, by rw [hbs]; exact h5, h6, ?_⟩
  intro e he
  refine ref_for_frame (h7 e he) ?_
  intro i hi
  exact hf i (List.mem_flatMap.mpr ⟨e, he, hi⟩)

theorem block_ok_next {maxreflen : Nat} {c : cache_t} {g : gblock} {b : queue_block_t}
    (h : block_ok maxreflen c g b) (n : block_id_t) :
    block_ok maxreflen c g { b with next := n } := h

theorem chain_seg_frame {maxreflen : Nat} {c c2 : cache_t} {chain : List gblock}
    {id last : block_id_t}
    (h : chain_seg maxreflen c id chain last) (hbs : c2.block_size = c.block_size)
    (hf : ∀ i ∈ owned maxreflen chain, load c2.blocks i = load c.blocks i) :
    chain_seg maxreflen c2 id chain last := by
  induction chain generalizing id with
  | nil => exact h
  | cons g rest ih =>
    obtain ⟨h1, b, h2, h3, h4⟩ := h
    refine ⟨h1, b, ?_, ?_, ?_⟩
    · rw [hf g.id (by simp [owned, gblock.owned]), h2]
    · refine block_ok_frame h3 hbs ?_
      intro i hi
      exact hf i (by simp only [owned, List.flatMap_cons, gblock.owned]; simp [hi])
    · refine ih h4 ?_
      intro i hi
      exact hf i (by simp only [owned, List.flatMap_cons] at hi ⊢; simp [hi])

theorem chain_seg_append {maxreflen : Nat} {c : cache_t} {l1 l2 : List gblock}
    {id last : block_id_t} :
    chain_seg maxreflen c id (l1 ++ l2) last ↔
      ∃ mid, chain_seg maxreflen c id l1 mid ∧ chain_seg maxreflen c mid l2 last := by
  induction l1 generalizing id with
  | nil => simp [chain_seg]
  | cons g rest ih =>
    show (id = some g.id ∧ ∃ b, load c.blocks g.id = some (buf_t.queue_block b) ∧
        block_ok maxreflen c g b ∧ chain_seg maxreflen c b.next (rest ++ l2) last) ↔
      ∃ mid, (id = some g.id ∧ ∃ b, load c.blocks g.id = some (buf_t.queue_block b) ∧
        block_ok maxreflen c g b ∧ chain_seg maxreflen c b.next rest mid) ∧
        chain_seg maxreflen c mid l2 last
    simp only [ih]
    constructor
    · rintro ⟨h1, b, h2, h3, mid, h4, h5⟩
      exact ⟨mid, ⟨h1, b, h2, h3, h4⟩, h5⟩
    · rintro ⟨mid, ⟨h1, b, h2, h3, h4⟩, h5⟩
      exact ⟨h1, b, h2, h3, mid, h4, h5⟩

theorem owned_loaded {maxreflen : Nat} {c : cache_t} {chain : List gblock}
    {id last : block_id_t} (h : chain_seg maxreflen c id chain last) :
    ∀ i ∈ owned maxreflen chain, load c.blocks i ≠ none := by
  induction chain generalizing id with
  | nil => intro i hi; simp [owned] at hi
  | cons g rest ih =>
    obtain ⟨h1, b, h2, h3, h4⟩ := h
    intro i hi
    rw [owned_cons, List.mem_append] at hi
    rcases hi with hi | hi
    · simp only [gblock.owned, List.mem_cons, List.mem_flatMap] at hi
      rcases hi with hi | ⟨e, he, hi⟩
      · subst hi; simp [h2]
      · exact ref_for_loaded (h3.2.2.2.2.2.2 e he) i hi
    · exact ih h4 i hi

theorem owned_append (maxreflen : Nat) (l1 l2 : List gblock) :
    owned maxreflen (l1 ++ l2) = owned maxreflen l1 ++ owned maxreflen l2 := by
  simp [owned]

theorem pending_append (l1 l2 : List gblock) :
    pending (l1 ++ l2) = pending l1 ++ pending l2 := by
  simp [pending]

theorem last_id_concat (l : List gblock) (g : gblock) : last_id (l ++ [g]) = some g.id := by
  induction l with
  | nil => rfl
  | cons a t ih =>
    cases t with
    | nil => rfl
    | cons b t2 => simpa [last_id] using ih

theorem write_onto_blob_spec (maxreflen : Nat) (c : cache_t) (wm : List Nat) :
    (write_onto_blob maxreflen c wm).1.block_size = c.block_size ∧
    (∀ i, load c.blocks i ≠ none →
      load (write_onto_blob maxreflen c wm).1.blocks i = load c.blocks i) ∧
    ref_for maxreflen (write_onto_blob maxreflen c wm).1 (write_onto_blob maxreflen c wm).2 wm ∧
    (∀ i ∈ blob_ids maxreflen (write_onto_blob maxreflen c wm).2, load c.blocks i = none) ∧
    (blob_ids maxreflen (write_onto_blob maxreflen c wm).2).Nodup := by
  by_cases h : wm.length < maxreflen
  · have e : write_onto_blob maxreflen c wm = (c, wm.length :: wm) := by
      simp [write_onto_blob, h]
    rw [e]
    refine ⟨rfl, fun _ _ => rfl, Or.inl ⟨h, rfl⟩, ?_, ?_⟩
    · intro i hi
      cases wm with
      | nil => simp [blob_ids] at hi
      | cons a t =>
        simp [blob_ids] at hi
        simp at h
        omega
    · cases wm with
      | nil => simp [blob_ids]
      | cons a t =>
        simp only [blob_ids]
        split_ifs
        all_goals simp
  · have e : write_onto_blob maxreflen c wm =
        (c.put (first_free c.blocks) (some (buf_t.blob_block wm)),
          [maxreflen, first_free c.blocks]) := by
      simp [write_onto_blob, h]
    rw [e]
    refine ⟨rfl, ?_, Or.inr ⟨h, first_free c.blocks, rfl, ?_⟩, ?_, ?_⟩
    · intro i hi
      rw [load_put, if_neg]
      intro he
      subst he
      exact hi (load_first_free _)
    · rw [load_put, if_pos rfl]
    · intro i hi
      simp [blob_ids] at hi
      subst hi
      exact load_first_free _
    · simp [blob_ids]

theorem memcpy_at_length (dst : List Nat) (off : Nat) (src : List Nat)
    (h : off + src.length ≤ dst.length) : (memcpy_at dst off src).length = dst.length := by
  simp [memcpy_at]
  omega

theorem memcpy_at_drop (data : List Nat) (off : Nat) (bytes rest ref : List Nat)
    (h : data.drop off = bytes ++ rest) (hle : off + bytes.length ≤ data.length) :
    ∃ rest2, (memcpy_at data (off + bytes.length) ref).drop off = (bytes ++ ref) ++ rest2 := by
  have hd : data = data.take off ++ (bytes ++ rest) := by
    rw [← h, List.take_append_drop]
  have hlt : (data.take off).length = off := by
    rw [List.length_take]
    omega
  refine ⟨data.drop (off + bytes.length + ref.length), ?_⟩
  unfold memcpy_at
  have ht : data.take (off + bytes.length) = data.take off ++ bytes := by
    conv_lhs => rw [hd]
    rw [List.take_append_eq_append_take, hlt]
    simp
  rw [ht, List.append_assoc, List.append_assoc, List.drop_append_eq_append_drop, hlt]
  simp [List.drop_take]

theorem ref_bytes_append (l1 l2 : List (List Nat × List Nat)) :
    ref_bytes (l1 ++ l2) = ref_bytes l1 ++ ref_bytes l2 := by
  induction l1 with
  | nil => rfl
  | cons e t ih => simp [ref_bytes, ih]

theorem add_block_to_head_block_size (q : internal_disk_backed_queue_t) :
    (add_block_to_head q).q.cache.block_size = q.cache.block_size := by
  unfold add_block_to_head
  simp only
  split_ifs <;> try rfl
  all_goals (split <;> try rfl)
  all_goals (split_ifs <;> rfl)

/-- The block `add_block_to_head` leaves under the new id. -/
theorem fresh_block_header (bs : Nat) :
    ({ fresh_block bs with next := NULL_BLOCK_ID, data_size := 0, live_data_offset := 0 } :
      queue_block_t) =
    { next := none, data_size := 0, live_data_offset := 0,
      data := List.replicate (bs - QUEUE_BLOCK_HEADER_SIZE) 0 } := rfl

theorem add_block_to_head_none (q : internal_disk_backed_queue_t)
    (hh : q.head_block_id = none) (ht : q.tail_block_id = none) :
    add_block_to_head q =
      { fault := none,
        q := { q with
          head_block_id := some (first_free q.cache.blocks)
          tail_block_id := some (first_free q.cache.blocks)
          cache := (q.cache.put (first_free q.cache.blocks)
              (some (buf_t.queue_block (fresh_block q.cache.block_size)))).put
            (first_free q.cache.blocks)
            (some (buf_t.queue_block
              { next := none, data_size := 0, live_data_offset := 0,
                data :=
                  List.replicate (q.cache.block_size - QUEUE_BLOCK_HEADER_SIZE) 0 })) } } := by
  simp [add_block_to_head, hh, ht, fresh_block]

theorem add_block_to_head_some (q : internal_disk_backed_queue_t) (h : Nat)
    (b : queue_block_t) (hh : q.head_block_id = some h)
    (hb : load q.cache.blocks h = some (buf_t.queue_block b)) (hn : b.next = none) :
    add_block_to_head q =
      { fault := none,
        q := { q with
          head_block_id := some (first_free q.cache.blocks)
          cache := ((q.cache.put (first_free q.cache.blocks)
              (some (buf_t.queue_block (fresh_block q.cache.block_size)))).put h
              (some (buf_t.queue_block { b with next := some (first_free q.cache.blocks) }))).put
            (first_free q.cache.blocks)
            (some (buf_t.queue_block
              { next := none, data_size := 0, live_data_offset := 0,
                data :=
                  List.replicate (q.cache.block_size - QUEUE_BLOCK_HEADER_SIZE) 0 })) } } := by
  have hne : h ≠ first_free q.cache.blocks := by
    intro he
    rw [he, load_first_free] at hb
    exact absurd hb (by simp)
  simp [add_block_to_head, hh, acquire, load_put, hne, hb, hn, fresh_block]

theorem block_ok_push {maxreflen : Nat} {c2 : cache_t} {g : gblock} {b : queue_block_t}
    {ref wm : List Nat}
    (h1 : b.live_data_offset = g.off)
    (h2 : b.data_size = g.off + (ref_bytes g.live).length)
    (h3 : ∃ rest, b.data.drop g.off = ref_bytes g.live ++ rest)
    (h4 : b.data.length = c2.block_size - QUEUE_BLOCK_HEADER_SIZE)
    (h7 : ∀ e ∈ g.live, ref_for maxreflen c2 e.1 e.2)
    (href : ref_for maxreflen c2 ref wm)
    (hfit : QUEUE_BLOCK_HEADER_SIZE + b.data_size + ref.length ≤ c2.block_size) :
    block_ok maxreflen c2 { id := g.id, off := g.off, live := g.live ++ [(ref, wm)] }
      { b with
        data := memcpy_at b.data b.data_size ref
        data_size := b.data_size + ref.length } := by
  obtain ⟨rest, h3⟩ := h3
  have hle : g.off + (ref_bytes g.live).length ≤ b.data.length := by
    rw [h4, ← h2]
    omega
  refine ⟨h1, ?_, ?_, ?_, ?_, ?_, ?_⟩
  · simp [ref_bytes_append, ref_bytes, h2]
    omega
  · obtain ⟨rest2, hr⟩ := memcpy_at_drop b.data g.off (ref_bytes g.live) rest ref h3 hle
    refine ⟨rest2, ?_⟩
    simp only [ref_bytes_append, ref_bytes, List.append_nil]
    rw [h2]
    exact hr
  · simp only
    rw [memcpy_at_length, h4]
    rw [h4]
    omega
  · simp only
    omega
  · simp
  · intro e he
    simp only [List.mem_append, List.mem_singleton] at he
    rcases he with he | he
    · exact h7 e he
    · subst he
      exact href

theorem push_rep_nil (maxreflen : Nat) (q : internal_disk_backed_queue_t) (wm : List Nat)
    (hrep : rep maxreflen q [])
    (hfit : QUEUE_BLOCK_HEADER_SIZE + refsize_of maxreflen wm ≤ q.cache.block_size) :
    (push maxreflen q wm).fault = none ∧
    (push maxreflen q wm).q.cache.block_size = q.cache.block_size ∧
    ∃ chain2, rep maxreflen (push maxreflen q wm).q chain2 ∧ pending chain2 = [wm] := by
  obtain ⟨hseg, hhead, -, hsz⟩ := hrep
  have htail : q.tail_block_id = none := hseg
  have hhead : q.head_block_id = none := hhead
  set n := first_free q.cache.blocks with hn
  set nb : queue_block_t :=
    { next := none, data_size := 0, live_data_offset := 0,
      data := List.replicate (q.cache.block_size - QUEUE_BLOCK_HEADER_SIZE) 0 } with hnb
  set c2 := (q.cache.put n (some (buf_t.queue_block (fresh_block q.cache.block_size)))).put n
    (some (buf_t.queue_block nb)) with hc2
  have hload2 : load c2.blocks n = some (buf_t.queue_block nb) := by
    rw [hc2, load_put, if_pos rfl]
  obtain ⟨wbs, wkeep, wref, wfresh, wnd⟩ := write_onto_blob_spec maxreflen c2 wm
  set c3 := (write_onto_blob maxreflen c2 wm).1 with hc3
  set ref := (write_onto_blob maxreflen c2 wm).2 with href
  obtain ⟨hlen, hrs, hpos⟩ := ref_for_length wref
  have hbs2 : c2.block_size = q.cache.block_size := rfl
  have hnov : ¬ (QUEUE_BLOCK_HEADER_SIZE + 0 + ref.length > c3.block_size) := by
    rw [wbs, hbs2, hlen]
    omega
  have hpush : push maxreflen q wm =
      { fault := none,
        q := { queue_size := q.queue_size + 1, head_block_id := some n, tail_block_id := some n,
               cache := c3.put n (some (buf_t.queue_block
                { nb with
                  data := memcpy_at nb.data nb.data_size ref
                  data_size := nb.data_size + ref.length })) } } := by
    unfold push
    simp only [hhead, if_true, add_block_to_head_none q hhead htail]
    simp only [acquire, ← hn, ← hnb, ← hc2, hload2, ← hc3, ← href, hrs,
      List.take_length]
    rw [if_neg hnov]
  rw [hpush]
  refine ⟨rfl, ?_, [{ id := n, off := 0, live := [(ref, wm)] }], ?_, ?_⟩
  · show (c3.put n _).block_size = q.cache.block_size
    rw [put_block_size, wbs, hbs2]
  · have hjn : ∀ j ∈ blob_ids maxreflen ref, j ≠ n := by
      intro j hj he
      have := wfresh j hj
      rw [he, hload2] at this
      exact absurd this (by simp)
    refine ⟨?_, rfl, ?_, ?_⟩
    · refine ⟨rfl, { nb with
          data := memcpy_at nb.data nb.data_size ref
          data_size := nb.data_size + ref.length }, ?_, ?_, ?_⟩
      rotate_left 2
      · show nb.next = none
        rfl
      · show load (c3.put n _).blocks n = _
        rw [load_put, if_pos rfl]
      · have hr2 : ref_for maxreflen (c3.put n (some (buf_t.queue_block
            { nb with
              data := memcpy_at nb.data nb.data_size ref
              data_size := nb.data_size + ref.length }))) ref wm := by
          refine ref_for_frame wref ?_
          intro j hj
          rw [load_put, if_neg (hjn j hj)]
        refine block_ok_push (g := { id := n, off := 0, live := [] }) rfl rfl ⟨nb.data, rfl⟩
          ?_ ?_ hr2 ?_
        · simp [hnb, put_block_size, wbs, hbs2]
        · intro e he
          simp at he
        · rw [put_block_size, wbs, hbs2, hlen]
          simp only [hnb]
          omega
    · simp only [owned, gblock.owned, List.flatMap_cons, List.flatMap_nil, List.append_nil]
      rw [List.nodup_cons]
      exact ⟨fun hm => hjn n hm rfl, wnd⟩
    · simp [pending, hsz]
  · simp [pending]

theorem chain_seg_single {maxreflen : Nat} {c : cache_t} {g : gblock} {id last : block_id_t} :
    chain_seg maxreflen c id [g] last ↔
      id = some g.id ∧ ∃ b, load c.blocks g.id = some (buf_t.queue_block b) ∧
        block_ok maxreflen c g b ∧ b.next = last := Iff.rfl

theorem push_rep_snoc (maxreflen : Nat) (q : internal_disk_backed_queue_t) (wm : List Nat)
    (init : List gblock) (g : gblock)
    (hrep : rep maxreflen q (init ++ [g]))
    (hfit : QUEUE_BLOCK_HEADER_SIZE + refsize_of maxreflen wm ≤ q.cache.block_size) :
    (push maxreflen q wm).fault = none ∧
    (push maxreflen q wm).q.cache.block_size = q.cache.block_size ∧
    ∃ chain2, rep maxreflen (push maxreflen q wm).q chain2 ∧
      pending chain2 = pending (init ++ [g]) ++ [wm] := by
  obtain ⟨hseg, hhead, hnd, hsz⟩ := hrep
  have hloaded := owned_loaded hseg
  rw [chain_seg_append] at hseg
  obtain ⟨mid, hinit, hmid, b, hb, hbok, hnext⟩ := hseg
  rw [last_id_concat] at hhead
  rw [owned_append, List.nodup_append] at hnd
  obtain ⟨hnd1, hnd2, hdisj⟩ := hnd
  have hog : owned maxreflen [g] = gblock.owned maxreflen g := by simp [owned]
  rw [hog] at hnd2 hdisj
  obtain ⟨wbs, wkeep, wref, wfresh, wnd⟩ := write_onto_blob_spec maxreflen q.cache wm
  set c1 := (write_onto_blob maxreflen q.cache wm).1 with hc1
  set ref := (write_onto_blob maxreflen q.cache wm).2 with href
  obtain ⟨hlen, hrs, hpos⟩ := ref_for_length wref
  have hacq : acquire q.cache (some g.id) = some (g.id, b) := by
    simp [acquire, hb]
  have hgid : g.id ∈ gblock.owned maxreflen g := by simp [gblock.owned]
  have hblobs : ∀ e ∈ g.live, ∀ i ∈ blob_ids maxreflen e.1,
      i ∈ gblock.owned maxreflen g ∧ i ≠ g.id := by
    intro e he i hi
    have hm : i ∈ g.live.flatMap (fun e => blob_ids maxreflen e.1) :=
      List.mem_flatMap.mpr ⟨e, he, hi⟩
    refine ⟨by simp only [gblock.owned, List.mem_cons]; exact Or.inr hm, ?_⟩
    intro heq
    simp only [gblock.owned, List.nodup_cons] at hnd2
    exact hnd2.1 (heq ▸ hm)
  have hinit_ne : ∀ i ∈ owned maxreflen init, i ≠ g.id := by
    intro i hi heq
    exact hdisj hi (heq ▸ hgid)
  have hold : ∀ i, i ∈ owned maxreflen init ∨ i ∈ gblock.owned maxreflen g →
      load q.cache.blocks i ≠ none := by
    intro i hi
    refine hloaded i ?_
    rw [owned_append, hog, List.mem_append]
    exact hi
  have hfresh_old : ∀ j ∈ blob_ids maxreflen ref,
      j ∉ owned maxreflen init ∧ j ∉ gblock.owned maxreflen g := by
    intro j hj
    exact ⟨fun hm => hold j (Or.inl hm) (wfresh j hj),
      fun hm => hold j (Or.inr hm) (wfresh j hj)⟩
  by_cases hov : QUEUE_BLOCK_HEADER_SIZE + b.data_size + ref.length > c1.block_size
  · -- the reference does not fit: a new head block
    have hb1 : load c1.blocks g.id = some (buf_t.queue_block b) := by
      rw [wkeep g.id (by simp [hb]), hb]
    set n := first_free c1.blocks with hn
    have hnfree : load c1.blocks n = none := load_first_free _
    have hgn : g.id ≠ n := by
      intro he
      rw [he, hnfree] at hb1
      exact absurd hb1 (by simp)
    set nb : queue_block_t :=
      { next := none, data_size := 0, live_data_offset := 0,
        data := List.replicate (c1.block_size - QUEUE_BLOCK_HEADER_SIZE) 0 } with hnb
    set c4 := ((c1.put n (some (buf_t.queue_block (fresh_block c1.block_size)))).put g.id
        (some (buf_t.queue_block { b with next := some n }))).put n
        (some (buf_t.queue_block nb)) with hc4
    have habh := add_block_to_head_some
      { queue_size := q.queue_size, head_block_id := some g.id,
        tail_block_id := q.tail_block_id, cache := c1 } g.id b rfl hb1 hnext
    simp only [← hn, ← hnb, ← hc4] at habh
    have hload4 : load c4.blocks n = some (buf_t.queue_block nb) := by
      rw [hc4, load_put, if_pos rfl]
    have hpush : push maxreflen q wm =
        { fault := none,
          q := { queue_size := q.queue_size + 1, head_block_id := some n,
                 tail_block_id := q.tail_block_id,
                 cache := c4.put n (some (buf_t.queue_block
                  { nb with
                    data := memcpy_at nb.data nb.data_size ref
                    data_size := nb.data_size + ref.length })) } } := by
      unfold push
      simp only [hhead, reduceCtorEq, if_false, hacq, ← hc1, ← href, hrs, List.take_length]
      rw [if_pos hov, habh]
      simp only [acquire, hload4]
    rw [hpush]
    have hbs4 : c4.block_size = q.cache.block_size := by
      rw [hc4]
      simp only [put_block_size]
      exact wbs
    have hload5 : ∀ i, i ≠ n → i ≠ g.id → load q.cache.blocks i ≠ none →
        load (c4.put n (some (buf_t.queue_block
          { nb with
            data := memcpy_at nb.data nb.data_size ref
            data_size := nb.data_size + ref.length }))).blocks i = load q.cache.blocks i := by
      intro i h1 h2 h3
      rw [load_put, if_neg h1, hc4, load_put, if_neg h1, load_put, if_neg h2, load_put,
        if_neg h1, wkeep i h3]
    have hold_n : ∀ i, load q.cache.blocks i ≠ none → i ≠ n := by
      intro i hi he
      rw [← wkeep i hi, he, hnfree] at hi
      exact hi rfl
    have hjn : ∀ j ∈ blob_ids maxreflen ref, j ≠ n ∧ j ≠ g.id := by
      intro j hj
      constructor
      · intro he
        have := ref_for_loaded wref j hj
        rw [he, hnfree] at this
        exact this rfl
      · intro he
        have := wfresh j hj
        rw [he, hb] at this
        exact absurd this (by simp)
    refine ⟨rfl, ?_, (init ++ [g]) ++ [{ id := n, off := 0, live := [(ref, wm)] }], ?_, ?_⟩
    · show (c4.put n _).block_size = q.cache.block_size
      rw [put_block_size, hbs4]
    · refine ⟨?_, ?_, ?_, ?_⟩
      · rw [chain_seg_append]
        refine ⟨some n, ?_, ?_⟩
        · rw [chain_seg_append]
          refine ⟨some g.id, ?_, ?_⟩
          · rw [hmid] at hinit
            refine chain_seg_frame hinit (by rw [put_block_size, hbs4]) ?_
            intro i hi
            exact hload5 i (hold_n i (hold i (Or.inl hi))) (hinit_ne i hi) (hold i (Or.inl hi))
          · rw [chain_seg_single]
            refine ⟨rfl, { b with next := some n }, ?_, ?_, rfl⟩
            · rw [load_put, if_neg hgn, hc4, load_put, if_neg hgn, load_put, if_pos rfl]
            · refine block_ok_next (block_ok_frame hbok (by rw [put_block_size, hbs4]) ?_) _
              intro i hi
              obtain ⟨e, he, hi2⟩ := List.mem_flatMap.mp hi
              obtain ⟨hm, hne⟩ := hblobs e he i hi2
              exact hload5 i (hold_n i (hold i (Or.inr hm))) hne (hold i (Or.inr hm))
        · rw [chain_seg_single]
          refine ⟨rfl, { nb with
            data := memcpy_at nb.data nb.data_size ref
            data_size := nb.data_size + ref.length }, ?_, ?_, rfl⟩
          · rw [load_put, if_pos rfl]
          · have hr2 : ref_for maxreflen (c4.put n (some (buf_t.queue_block
                { nb with
                  data := memcpy_at nb.data nb.data_size ref
                  data_size := nb.data_size + ref.length }))) ref wm := by
              refine ref_for_frame wref ?_
              intro j hj
              obtain ⟨h1, h2⟩ := hjn j hj
              rw [load_put, if_neg h1, hc4, load_put, if_neg h1, load_put, if_neg h2, load_put,
                if_neg h1]
            refine block_ok_push (g := { id := n, off := 0, live := [] }) rfl rfl
              ⟨nb.data, rfl⟩ ?_ ?_ hr2 ?_
            · simp [hnb, put_block_size, hbs4, wbs]
            · intro e he
              simp at he
            · rw [put_block_size, hbs4, hlen]
              simp only [hnb]
              omega
      · show some n = last_id (init ++ [g] ++ [{ id := n, off := 0, live := [(ref, wm)] }])
        rw [last_id_concat]
      · rw [owned_append, owned_append, hog, List.nodup_append]
        refine ⟨List.nodup_append.mpr ⟨hnd1, hnd2, hdisj⟩, ?_, ?_⟩
        · simp only [owned, gblock.owned, List.flatMap_cons, List.flatMap_nil, List.append_nil]
          rw [List.nodup_cons]
          exact ⟨fun hm => (hjn n hm).1 rfl, wnd⟩
        · intro i hi1 hi2
          rw [List.mem_append] at hi1
          simp only [owned, gblock.owned, List.flatMap_cons, List.flatMap_nil, List.append_nil,
            List.mem_cons] at hi2
          rcases hi2 with hi2 | hi2
          · exact hold_n i (hold i hi1) hi2
          · rcases hi1 with hi1 | hi1
            · exact (hfresh_old i hi2).1 hi1
            · exact (hfresh_old i hi2).2 hi1
      · simp only [pending_append] at hsz ⊢
        simp [pending, hsz] at hsz ⊢
        omega
    · simp [pending]
  · -- the reference fits in the head block
    have hpush : push maxreflen q wm =
        { fault := none,
          q := { queue_size := q.queue_size + 1, head_block_id := some g.id,
                 tail_block_id := q.tail_block_id,
                 cache := c1.put g.id (some (buf_t.queue_block
                  { b with
                    data := memcpy_at b.data b.data_size ref
                    data_size := b.data_size + ref.length })) } } := by
      unfold push
      simp only [hhead, reduceCtorEq, if_false, hacq, ← hc1, ← href, hrs, List.take_length]
      rw [if_neg hov]
    rw [hpush]
    have hload2 : ∀ i, i ≠ g.id → load q.cache.blocks i ≠ none →
        load (c1.put g.id (some (buf_t.queue_block
          { b with
            data := memcpy_at b.data b.data_size ref
            data_size := b.data_size + ref.length }))).blocks i = load q.cache.blocks i := by
      intro i h1 h2
      rw [load_put, if_neg h1, wkeep i h2]
    have hjg : ∀ j ∈ blob_ids maxreflen ref, j ≠ g.id := by
      intro j hj he
      have := wfresh j hj
      rw [he, hb] at this
      exact absurd this (by simp)
    refine ⟨rfl, ?_,
      init ++ [{ id := g.id, off := g.off, live := g.live ++ [(ref, wm)] }], ?_, ?_⟩
    · show (c1.put g.id _).block_size = q.cache.block_size
      rw [put_block_size, wbs]
    · refine ⟨?_, ?_, ?_, ?_⟩
      · rw [chain_seg_append]
        refine ⟨some g.id, ?_, ?_⟩
        · rw [hmid] at hinit
          refine chain_seg_frame hinit (by rw [put_block_size, wbs]) ?_
          intro i hi
          exact hload2 i (hinit_ne i hi) (hold i (Or.inl hi))
        · rw [chain_seg_single]
          refine ⟨rfl, { b with
            data := memcpy_at b.data b.data_size ref
            data_size := b.data_size + ref.length }, ?_, ?_, hnext⟩
          · rw [load_put, if_pos rfl]
          · obtain ⟨h1, h2, h3, h4, h5, h6, h7⟩ := hbok
            refine block_ok_push h1 h2 h3 ?_ ?_ ?_ ?_
            · rw [put_block_size, wbs]
              exact h4
            · intro e he
              refine ref_for_frame (h7 e he) ?_
              intro i hi
              obtain ⟨hm, hne⟩ := hblobs e he i hi
              exact hload2 i hne (hold i (Or.inr hm))
            · refine ref_for_frame wref ?_
              intro j hj
              rw [load_put, if_neg (hjg j hj)]
            · rw [put_block_size]
              omega
      · show some g.id = last_id _
        rw [last_id_concat]
      · rw [owned_append]
        have e : owned maxreflen [{ id := g.id, off := g.off, live := g.live ++ [(ref, wm)] }] =
            gblock.owned maxreflen g ++ blob_ids maxreflen ref := by
          simp [owned, gblock.owned]
        rw [e, ← List.append_assoc, List.nodup_append]
        refine ⟨List.nodup_append.mpr ⟨hnd1, hnd2, hdisj⟩, wnd, ?_⟩
        intro i hi1 hi2
        rw [List.mem_append] at hi1
        rcases hi1 with hi1 | hi1
        · exact (hfresh_old i hi2).1 hi1
        · exact (hfresh_old i hi2).2 hi1
      · simp only [pending_append] at hsz ⊢
        simp [pending, hsz] at hsz ⊢
        omega
    · simp [pending]

theorem push_rep (maxreflen : Nat) (q : internal_disk_backed_queue_t) (wm : List Nat)
    (chain : List gblock) (hrep : rep maxreflen q chain)
    (hfit : QUEUE_BLOCK_HEADER_SIZE + refsize_of maxreflen wm ≤ q.cache.block_size) :
    (push maxreflen q wm).fault = none ∧
    (push maxreflen q wm).q.cache.block_size = q.cache.block_size ∧
    ∃ chain2, rep maxreflen (push maxreflen q wm).q chain2 ∧
      pending chain2 = pending chain ++ [wm] := by
  rcases List.eq_nil_or_concat chain with h | ⟨init, g, h⟩
  · subst h
    simpa [pending] using push_rep_nil maxreflen q wm hrep hfit
  · rw [List.concat_eq_append] at h
    subst h
    exact push_rep_snoc maxreflen q wm init g hrep hfit

theorem blob_clear_spec (maxreflen : Nat) (c : cache_t) (ref : List Nat) :
    (blob_clear maxreflen c ref).block_size = c.block_size ∧
    ∀ i, load (blob_clear maxreflen c ref).blocks i =
      if i ∈ blob_ids maxreflen ref then none else load c.blocks i := by
  unfold blob_clear blob_ids
  split
  · split_ifs
    · simp
    · refine ⟨rfl, ?_⟩
      intro i
      rw [load_put]
      simp
  · simp

theorem ref_bytes_eq_nil {maxreflen : Nat} {c : cache_t} {l : List (List Nat × List Nat)}
    (h : ∀ e ∈ l, ref_for maxreflen c e.1 e.2) : (ref_bytes l).length = 0 → l = [] := by
  cases l with
  | nil => intro _; rfl
  | cons e t =>
    intro h0
    have := (ref_for_length (h e (by simp))).2.2
    simp only [ref_bytes, List.length_append] at h0
    omega

theorem last_id_cons_cons (g g2 : gblock) (l : List gblock) :
    last_id (g :: g2 :: l) = last_id (g2 :: l) := rfl

theorem pop_rep (maxreflen : Nat) (q : internal_disk_backed_queue_t)
    (g : gblock) (gs : List gblock) (hrep : rep maxreflen q (g :: gs)) :
    ∃ wm rest chain2, pending (g :: gs) = wm :: rest ∧
      (pop maxreflen q).fault = none ∧ (pop maxreflen q).viewed = [wm] ∧
      (pop maxreflen q).q.cache.block_size = q.cache.block_size ∧
      rep maxreflen (pop maxreflen q).q chain2 ∧ pending chain2 = rest := by
  obtain ⟨hseg, hhead, hnd, hsz⟩ := hrep
  obtain ⟨htail, b, hb, hbok, hrest⟩ := hseg
  have hloaded_gs := owned_loaded hrest
  obtain ⟨h1, h2, ⟨rest0, h3⟩, h4, h5, h6, h7⟩ := hbok
  obtain ⟨⟨ref, wm⟩, l, hlive⟩ := List.exists_cons_of_ne_nil h6
  rw [hlive] at h2 h3 h7
  have href : ref_for maxreflen q.cache ref wm := h7 (ref, wm) (by simp)
  obtain ⟨hlen, hrs, hpos⟩ := ref_for_length href
  have hpend : pending (g :: gs) = wm :: (l.map (fun e => e.2) ++ pending gs) := by
    simp [pending, hlive]
  refine ⟨wm, l.map (fun e => e.2) ++ pending gs, ?_⟩
  -- what the ownership list says
  rw [owned_cons, List.nodup_append] at hnd
  obtain ⟨hndg, hndgs, hdisj⟩ := hnd
  have hog : gblock.owned maxreflen g =
      g.id :: (blob_ids maxreflen ref ++ l.flatMap (fun e => blob_ids maxreflen e.1)) := by
    simp [gblock.owned, hlive]
  rw [hog] at hndg hdisj
  rw [List.nodup_cons, List.nodup_append] at hndg
  obtain ⟨hgid_notin, hnd_ref, hnd_l, hdisj_l⟩ := hndg
  have hj_ne : ∀ j ∈ blob_ids maxreflen ref, j ≠ g.id := by
    intro j hj he
    exact hgid_notin (by rw [← he]; simp [hj])
  have hgs_ne : ∀ i ∈ owned maxreflen gs, i ≠ g.id ∧ i ∉ blob_ids maxreflen ref := by
    intro i hi
    constructor
    · intro he
      exact hdisj (by rw [← he]; simp) hi
    · intro hm
      exact hdisj (by simp [hm]) hi
  have hl_ne : ∀ i ∈ l.flatMap (fun e => blob_ids maxreflen e.1),
      i ≠ g.id ∧ i ∉ blob_ids maxreflen ref := by
    intro i hi
    constructor
    · intro he
      exact hgid_notin (by rw [← he]; simp [hi])
    · intro hm
      exact hdisj_l hm hi
  -- the evaluation of pop up to the advance of the offset
  have hsize : size q ≠ 0 := by
    simp only [size, hsz, hpend]
    simp
    omega
  have hacq : acquire q.cache q.tail_block_id = some (g.id, b) := by
    simp [acquire, htail, hb]
  have hne : ¬ b.data_size = b.live_data_offset := by
    rw [h1, h2]
    simp only [ref_bytes, List.length_append]
    omega
  have hsrc : b.data.drop b.live_data_offset = ref ++ (ref_bytes l ++ rest0) := by
    rw [h1, h3]
    simp [ref_bytes]
  have hbuf : (b.data.drop b.live_data_offset).take
      (ref_size maxreflen (b.data.drop b.live_data_offset)) = ref := by
    rw [hsrc, ref_size_append href]
    simp
  set tail1 : queue_block_t := { b with live_data_offset := b.live_data_offset + ref.length }
    with htail1
  set c1 := q.cache.put g.id (some (buf_t.queue_block tail1)) with hc1
  obtain ⟨cbs, cload⟩ := blob_clear_spec maxreflen c1 ref
  set c2 := blob_clear maxreflen c1 ref with hc2
  have hload2 : ∀ i, i ≠ g.id → i ∉ blob_ids maxreflen ref →
      load c2.blocks i = load q.cache.blocks i := by
    intro i hi1 hi2
    rw [cload, if_neg hi2, hc1, load_put, if_neg hi1]
  have hload2g : load c2.blocks g.id = some (buf_t.queue_block tail1) := by
    rw [cload, if_neg (fun hm => hj_ne g.id hm rfl), hc1, load_put, if_pos rfl]
  have hbs2 : c2.block_size = q.cache.block_size := by
    rw [cbs, hc1, put_block_size]
  have hgs2 : ∀ c3 : cache_t, c3.block_size = q.cache.block_size →
      (∀ i, i ≠ g.id → i ∉ blob_ids maxreflen ref →
        load c3.blocks i = load q.cache.blocks i) →
      chain_seg maxreflen c3 b.next gs NULL_BLOCK_ID := by
    intro c3 hbs3 hl3
    refine chain_seg_frame hrest hbs3 ?_
    intro i hi
    exact hl3 i (hgs_ne i hi).1 (hgs_ne i hi).2
  have hpop : pop maxreflen q =
      if tail1.live_data_offset = tail1.data_size then
        { fault := (remove_block_from_tail
            { q with cache := c2, queue_size := q.queue_size - 1 }).fault,
          viewed := [wm],
          q := (remove_block_from_tail
            { q with cache := c2, queue_size := q.queue_size - 1 }).q }
      else
        { fault := none, viewed := [wm],
          q := { q with cache := c2, queue_size := q.queue_size - 1 } } := by
    unfold pop
    rw [if_neg hsize]
    simp only [hacq, if_neg hne, hbuf, ref_for_expose href, hrs, ← htail1, ← hc1, ← hc2]
  rw [hpop]
  by_cases hl : l = []
  · -- the tail block is used up
    subst hl
    have hcond : tail1.live_data_offset = tail1.data_size := by
      simp [htail1, h1, h2, ref_bytes]
    rw [if_pos hcond]
    have hacq2 : acquire c2 (some g.id) = some (g.id, tail1) := by
      simp [acquire, hload2g]
    have hbs3 : (c2.put g.id none).block_size = q.cache.block_size := by
      rw [put_block_size, hbs2]
    have hload3 : ∀ i, i ≠ g.id → i ∉ blob_ids maxreflen ref →
        load (c2.put g.id none).blocks i = load q.cache.blocks i := by
      intro i hi1 hi2
      rw [load_put, if_neg hi1, hload2 i hi1 hi2]
    have hpend2 : pending (g :: gs) = wm :: pending gs := by
      simpa using hpend
    cases gs with
    | nil =>
      have hbn : b.next = none := hrest
      have hhead2 : q.head_block_id = some g.id := hhead
      have hrm : remove_block_from_tail
          { q with cache := c2, queue_size := q.queue_size - 1 } =
          { fault := none,
            q := { queue_size := q.queue_size - 1, head_block_id := none,
                   tail_block_id := none, cache := c2.put g.id none } } := by
        unfold remove_block_from_tail
        simp [htail, hacq2, htail1, hbn, hhead2]
      rw [hrm]
      refine ⟨[], by simpa [pending] using hpend, rfl, rfl, hbs3, ?_, by simp [pending]⟩
      refine ⟨rfl, rfl, by simp [owned], ?_⟩
      show q.queue_size - 1 = _
      rw [hsz, hpend2]
      simp [pending]
    | cons g2 gs2 =>
      obtain ⟨hbn, -⟩ := hrest
      have hrm : remove_block_from_tail
          { q with cache := c2, queue_size := q.queue_size - 1 } =
          { fault := none,
            q := { queue_size := q.queue_size - 1, head_block_id := q.head_block_id,
                   tail_block_id := b.next, cache := c2.put g.id none } } := by
        unfold remove_block_from_tail
        simp [htail, hacq2, htail1, hbn]
      rw [hrm]
      refine ⟨g2 :: gs2, by simpa using hpend, rfl, rfl, hbs3, ?_, by simp⟩
      refine ⟨hgs2 _ hbs3 hload3, ?_, hndgs, ?_⟩
      · show q.head_block_id = _
        rw [hhead]
        rfl
      · show q.queue_size - 1 = _
        rw [hsz, hpend2]
        simp
  · -- the tail block still holds references
    have hcond : ¬ tail1.live_data_offset = tail1.data_size := by
      intro he
      simp only [htail1, h1, h2, ref_bytes, List.length_append] at he
      have h0 : (ref_bytes l).length = 0 := by omega
      exact hl (ref_bytes_eq_nil (fun e he => h7 e (by simp [he])) h0)
    rw [if_neg hcond]
    refine ⟨{ id := g.id, off := g.off + ref.length, live := l } :: gs, hpend, rfl, rfl,
      hbs2, ?_, ?_⟩
    · refine ⟨⟨htail, tail1, hload2g, ?_, hgs2 c2 hbs2 hload2⟩, ?_, ?_, ?_⟩
      · refine ⟨by simp [htail1, h1], ?_, ⟨rest0, ?_⟩, ?_, ?_, hl, ?_⟩
        · simp only [htail1, h2, ref_bytes, List.length_append]
          omega
        · show b.data.drop (g.off + ref.length) = ref_bytes l ++ rest0
          rw [← List.drop_drop, h3]
          simp [ref_bytes]
        · rw [hbs2]
          exact h4
        · rw [hbs2]
          exact h5
        · intro e he
          refine ref_for_frame (h7 e (by simp [he])) ?_
          intro i hi
          have hm : i ∈ l.flatMap (fun e => blob_ids maxreflen e.1) :=
            List.mem_flatMap.mpr ⟨e, he, hi⟩
          exact hload2 i (hl_ne i hm).1 (hl_ne i hm).2
      · show q.head_block_id = _
        rw [hhead]
        cases gs <;> rfl
      · rw [owned_cons, List.nodup_append]
        refine ⟨?_, hndgs, ?_⟩
        · simp only [gblock.owned, List.nodup_cons]
          exact ⟨fun hm => hgid_notin (by simp [hm]), hnd_l⟩
        · intro i hi1 hi2
          refine hdisj ?_ hi2
          simp only [gblock.owned, List.mem_cons] at hi1
          rcases hi1 with hi1 | hi1
          · simp [hi1]
          · simp [hi1]
      · show q.queue_size - 1 = _
        rw [hsz, hpend]
        simp [pending]
    · simp [pending]

theorem run_rep (maxreflen : Nat) (ops : List op_t) (q : internal_disk_backed_queue_t)
    (chain : List gblock) (hrep : rep maxreflen q chain)
    (hfit : ∀ wm ∈ pushed ops,
      QUEUE_BLOCK_HEADER_SIZE + refsize_of maxreflen wm ≤ q.cache.block_size)
    (hpop : no_pop_on_empty (pending chain).length ops = true) :
    (run maxreflen ops q).fault = none ∧
    (run maxreflen ops q).viewed = (pending chain ++ pushed ops).take (pops ops) ∧
    ∃ chain2, rep maxreflen (run maxreflen ops q).q chain2 ∧
      pending chain2 = (pending chain ++ pushed ops).drop (pops ops) := by
  induction ops generalizing q chain with
  | nil =>
    refine ⟨rfl, by simp [run, pops], chain, hrep, by simp [pushed, pops]⟩
  | cons op ops ih =>
    cases op with
    | push wm =>
      obtain ⟨hf, hbs, chain2, hrep2, hpend2⟩ :=
        push_rep maxreflen q wm chain hrep (hfit wm (by simp [pushed]))
      have hfit2 : ∀ wm2 ∈ pushed ops, QUEUE_BLOCK_HEADER_SIZE + refsize_of maxreflen wm2 ≤
          (push maxreflen q wm).q.cache.block_size := by
        intro wm2 h2
        rw [hbs]
        exact hfit wm2 (by simp [pushed, h2])
      have hpop2 : no_pop_on_empty (pending chain2).length ops = true := by
        rw [hpend2]
        simpa [no_pop_on_empty] using hpop
      obtain ⟨r1, r2, chain3, r3, r4⟩ := ih _ chain2 hrep2 hfit2 hpop2
      simp only [run, hf]
      refine ⟨r1, ?_, chain3, r3, ?_⟩
      · rw [r2, hpend2]
        simp [pushed, pops]
      · rw [r4, hpend2]
        simp [pushed, pops]
    | pop =>
      cases chain with
      | nil => simp [pending, no_pop_on_empty] at hpop
      | cons g gs =>
        obtain ⟨wm, rest, chain2, hpend, hf, hv, hbs, hrep2, hpend2⟩ :=
          pop_rep maxreflen q g gs hrep
        have hfit2 : ∀ wm2 ∈ pushed ops, QUEUE_BLOCK_HEADER_SIZE + refsize_of maxreflen wm2 ≤
            (pop maxreflen q).q.cache.block_size := by
          intro wm2 h2
          rw [hbs]
          exact hfit wm2 (by simpa [pushed] using h2)
        have hpop2 : no_pop_on_empty (pending chain2).length ops = true := by
          rw [hpend2]
          rw [hpend] at hpop
          simpa [no_pop_on_empty] using hpop
        obtain ⟨r1, r2, chain3, r3, r4⟩ := ih _ chain2 hrep2 hfit2 hpop2
        simp only [run, hf]
        refine ⟨r1, ?_, chain3, r3, ?_⟩
        · rw [r2, hv, hpend2, hpend]
          simp [pushed, pops]
        · rw [r4, hpend2, hpend]
          simp [pushed, pops]

theorem rep_init (maxreflen : Nat) (c : cache_t) :
    rep maxreflen (internal_disk_backed_queue_t.init c) [] := by
  refine ⟨rfl, rfl, by simp [owned], rfl⟩

theorem pops_le_pushed (n : Nat) (ops : List op_t) (h : no_pop_on_empty n ops = true) :
    pops ops ≤ n + (pushed ops).length := by
  induction ops generalizing n with
  | nil => simp [pops]
  | cons op ops ih =>
    cases op with
    | push wm =>
      have := ih (n + 1) (by simpa [no_pop_on_empty] using h)
      simp only [pops, pushed, List.length_cons]
      omega
    | pop =>
      cases n with
      | zero => simp [no_pop_on_empty] at h
      | succ n =>
        have := ih n (by simpa [no_pop_on_empty] using h)
        simp only [pops, pushed]
        omega

theorem refsize_of_eq (maxreflen : Nat) (c : cache_t) (wm : List Nat) :
    ref_size maxreflen (write_onto_blob maxreflen c wm).2 = refsize_of maxreflen wm := by
  obtain ⟨-, -, h, -, -⟩ := write_onto_blob_spec maxreflen c wm
  rw [(ref_for_length h).2.1, (ref_for_length h).1]

/-- C1. Pops yield pushes in order: run any sequence of `push` and `pop` calls on a freshly
constructed queue, in which no `pop` meets an empty queue and every reference fits in an empty
block; then no check stops the run, there are at most as many pops as pushes, and the buffer
groups the viewers received are, in order, the records of the first pushes, one per pop. -/
theorem pops_yield_pushes_in_order (maxreflen : Nat) (c : cache_t) (ops : List op_t)
    (hfit : ∀ wm ∈ pushed ops,
      QUEUE_BLOCK_HEADER_SIZE + refsize_of maxreflen wm ≤ c.block_size)
    (hpop : no_pop_on_empty 0 ops = true) :
    (run maxreflen ops (internal_disk_backed_queue_t.init c)).fault = none ∧
    (run maxreflen ops (internal_disk_backed_queue_t.init c)).viewed =
      (pushed ops).take (pops ops) ∧
    pops ops ≤ (pushed ops).length := by
  obtain ⟨h1, h2, chain2, h3, h4⟩ :=
    run_rep maxreflen ops (internal_disk_backed_queue_t.init c) [] (rep_init maxreflen c) hfit hpop
  simp only [pending, List.flatMap_nil, List.map_nil, List.nil_append] at h2 h4
  refine ⟨h1, h2, ?_⟩
  simpa using pops_le_pushed 0 ops hpop

theorem pops_yield_pushes_in_order_witness :
    (∀ wm ∈ pushed [op_t.push [1, 2], op_t.push [3, 4, 5, 6, 7, 8, 9], op_t.pop, op_t.push [5],
        op_t.pop],
      QUEUE_BLOCK_HEADER_SIZE + refsize_of 6 wm ≤
        ({ block_size := 24, blocks := [] } : cache_t).block_size) ∧
    no_pop_on_empty 0 [op_t.push [1, 2], op_t.push [3, 4, 5, 6, 7, 8, 9], op_t.pop,
      op_t.push [5], op_t.pop] = true ∧
    (run 6 [op_t.push [1, 2], op_t.push [3, 4, 5, 6, 7, 8, 9], op_t.pop, op_t.push [5], op_t.pop]
        (internal_disk_backed_queue_t.init { block_size := 24, blocks := [] })).fault = none ∧
    (run 6 [op_t.push [1, 2], op_t.push [3, 4, 5, 6, 7, 8, 9], op_t.pop, op_t.push [5], op_t.pop]
        (internal_disk_backed_queue_t.init { block_size := 24, blocks := [] })).viewed =
      (pushed [op_t.push [1, 2], op_t.push [3, 4, 5, 6, 7, 8, 9], op_t.pop, op_t.push [5],
        op_t.pop]).take
        (pops [op_t.push [1, 2], op_t.push [3, 4, 5, 6, 7, 8, 9], op_t.pop, op_t.push [5],
          op_t.pop]) ∧
    pops [op_t.push [1, 2], op_t.push [3, 4, 5, 6, 7, 8, 9], op_t.pop, op_t.push [5],
        op_t.pop] ≤
      (pushed [op_t.push [1, 2], op_t.push [3, 4, 5, 6, 7, 8, 9], op_t.pop, op_t.push [5],
        op_t.pop]).length :=
  ⟨by decide, by decide,
   pops_yield_pushes_in_order 6 { block_size := 24, blocks := [] }
    [op_t.push [1, 2], op_t.push [3, 4, 5, 6, 7, 8, 9], op_t.pop, op_t.push [5], op_t.pop]
    (by decide) (by decide)⟩

/-- C2. The queue starts with `size()` 0, each `push` that returns adds one to `size()`, each
`pop` that returns takes one off, and so after a run of calls that all returned `size()` is the
number of pushes minus the number of pops. -/
theorem size_is_pushes_minus_pops (maxreflen : Nat) (c : cache_t) (ops : List op_t)
    (h : (run maxreflen ops (internal_disk_backed_queue_t.init c)).fault = none) :
    size (internal_disk_backed_queue_t.init c) = 0 ∧
    size (run maxreflen ops (internal_disk_backed_queue_t.init c)).q =
      ((pushed ops).length : Int) - (pops ops : Int) ∧
    (∀ q wm, (push maxreflen q wm).fault = none →
      size (push maxreflen q wm).q = size q + 1) ∧
    (∀ q, (pop maxreflen q).fault = none → size (pop maxreflen q).q = size q - 1) := by
  refine ⟨rfl, ?_, fun q wm hq => push_size maxreflen q wm hq,
    fun q hq => pop_size maxreflen q hq⟩
  rw [run_size maxreflen ops _ h]
  simp [size, internal_disk_backed_queue_t.init]

theorem size_is_pushes_minus_pops_witness :
    (run 6 [op_t.push [1, 2], op_t.push [3, 4, 5, 6, 7, 8, 9], op_t.pop, op_t.push [5]]
        (internal_disk_backed_queue_t.init { block_size := 24, blocks := [] })).fault = none ∧
    size (run 6 [op_t.push [1, 2], op_t.push [3, 4, 5, 6, 7, 8, 9], op_t.pop, op_t.push [5]]
        (internal_disk_backed_queue_t.init { block_size := 24, blocks := [] })).q = 2 :=
  ⟨by decide,
   (size_is_pushes_minus_pops 6 { block_size := 24, blocks := [] }
      [op_t.push [1, 2], op_t.push [3, 4, 5, 6, 7, 8, 9], op_t.pop, op_t.push [5]]
      (by decide)).2.1⟩

/-- C3. `pop` on an empty queue stops at `guarantee(size() != 0)` with the viewer not called
and the queue, its `queue_size`, `head_block_id`, `tail_block_id` and every block, as it was;
when `size()` is not 0 that check does not stop `pop`, and on a queue that is a chain of blocks
no other check stops it either. -/
theorem pop_guarantee (maxreflen : Nat) (q : internal_disk_backed_queue_t) :
    (size q = 0 →
      pop maxreflen q = { fault := some fault_t.guarantee_failed, viewed := [], q := q }) ∧
    (size q ≠ 0 → (pop maxreflen q).fault ≠ some fault_t.guarantee_failed) ∧
    (∀ chain, rep maxreflen q chain → size q ≠ 0 → (pop maxreflen q).fault = none) := by
  refine ⟨(pop_guarantee_only_when_empty maxreflen q).1,
    (pop_guarantee_only_when_empty maxreflen q).2, ?_⟩
  intro chain hrep hs
  cases chain with
  | nil =>
    exact absurd hrep.2.2.2 hs
  | cons g gs =>
    obtain ⟨wm, rest, chain2, -, hf, -⟩ := pop_rep maxreflen q g gs hrep
    exact hf

theorem pop_guarantee_witness :
    size (internal_disk_backed_queue_t.init { block_size := 24, blocks := [] }) = 0 ∧
    pop 6 (internal_disk_backed_queue_t.init { block_size := 24, blocks := [] }) =
      { fault := some fault_t.guarantee_failed, viewed := [],
        q := internal_disk_backed_queue_t.init { block_size := 24, blocks := [] } } :=
  ⟨rfl, (pop_guarantee 6 (internal_disk_backed_queue_t.init
    { block_size := 24, blocks := [] })).1 rfl⟩

/-- The result of `push` on a queue with a head block `h`, in both branches of the fit test of
line 67, with the copy of line 76 written as `memcpy_at`. -/
theorem push_eval (maxreflen : Nat) (q : internal_disk_backed_queue_t)
    (wm : List Nat) (h : Nat) (head : queue_block_t)
    (hhead : q.head_block_id = some h)
    (hload : load q.cache.blocks h = some (buf_t.queue_block head)) :
    ref_size maxreflen (write_onto_blob maxreflen q.cache wm).2 =
      (write_onto_blob maxreflen q.cache wm).2.length ∧
    (QUEUE_BLOCK_HEADER_SIZE + head.data_size + (write_onto_blob maxreflen q.cache wm).2.length
        > q.cache.block_size →
      head.next = NULL_BLOCK_ID →
      load (write_onto_blob maxreflen q.cache wm).1.blocks
        (first_free (write_onto_blob maxreflen q.cache wm).1.blocks) = none ∧
      load (add_block_to_head
          { q with cache := (write_onto_blob maxreflen q.cache wm).1 }).q.cache.blocks
        (first_free (write_onto_blob maxreflen q.cache wm).1.blocks) =
        some (buf_t.queue_block
          { next := NULL_BLOCK_ID, data_size := 0, live_data_offset := 0,
            data := List.replicate (q.cache.block_size - QUEUE_BLOCK_HEADER_SIZE) 0 }) ∧
      (push maxreflen q wm).fault = none ∧
      (push maxreflen q wm).q.head_block_id =
        some (first_free (write_onto_blob maxreflen q.cache wm).1.blocks) ∧
      (push maxreflen q wm).q.tail_block_id = q.tail_block_id ∧
      load (push maxreflen q wm).q.cache.blocks h =
        some (buf_t.queue_block
          { head with
            next := some (first_free (write_onto_blob maxreflen q.cache wm).1.blocks) }) ∧
      load (push maxreflen q wm).q.cache.blocks
          (first_free (write_onto_blob maxreflen q.cache wm).1.blocks) =
        some (buf_t.queue_block
          { next := NULL_BLOCK_ID,
            data_size := 0 + (write_onto_blob maxreflen q.cache wm).2.length,
            live_data_offset := 0,
            data := memcpy_at (List.replicate (q.cache.block_size - QUEUE_BLOCK_HEADER_SIZE) 0) 0
              (write_onto_blob maxreflen q.cache wm).2 })) ∧
    (¬ QUEUE_BLOCK_HEADER_SIZE + head.data_size + (write_onto_blob maxreflen q.cache wm).2.length
        > q.cache.block_size →
      (push maxreflen q wm).fault = none ∧
      (push maxreflen q wm).q.head_block_id = q.head_block_id ∧
      (push maxreflen q wm).q.tail_block_id = q.tail_block_id ∧
      load (push maxreflen q wm).q.cache.blocks h =
        some (buf_t.queue_block
          { head with
            data_size := head.data_size + (write_onto_blob maxreflen q.cache wm).2.length
            data := memcpy_at head.data head.data_size
              (write_onto_blob maxreflen q.cache wm).2 })) := by
  obtain ⟨wbs, wkeep, wref, wfresh, wnd⟩ := write_onto_blob_spec maxreflen q.cache wm
  set c1 := (write_onto_blob maxreflen q.cache wm).1 with hc1
  set ref := (write_onto_blob maxreflen q.cache wm).2 with href
  obtain ⟨hlen, hrs, hpos⟩ := ref_for_length wref
  have hacq : acquire q.cache (some h) = some (h, head) := by
    simp [acquire, hload]
  have hb1 : load c1.blocks h = some (buf_t.queue_block head) := by
    rw [wkeep h (by simp [hload]), hload]
  refine ⟨hrs, ?_, ?_⟩
  · intro hov hnext
    rw [← wbs] at hov
    set n := first_free c1.blocks with hn
    have hnfree : load c1.blocks n = none := load_first_free _
    have hgn : h ≠ n := by
      intro he
      rw [he, hnfree] at hb1
      exact absurd hb1 (by simp)
    have habh := add_block_to_head_some
      { queue_size := q.queue_size, head_block_id := some h,
        tail_block_id := q.tail_block_id, cache := c1 } h head rfl hb1 hnext
    simp only [← hn] at habh
    have hq1 : ({ q with cache := c1 } : internal_disk_backed_queue_t) =
        { queue_size := q.queue_size, head_block_id := some h,
          tail_block_id := q.tail_block_id, cache := c1 } := by
      rw [← hhead]
    rw [hq1]
    unfold push
    simp only [hhead, reduceCtorEq, if_false, hacq, ← hc1, ← href, hrs, List.take_length]
    rw [if_pos hov, habh]
    simp only [acquire, load_put, if_true, if_neg hgn, wbs]
    exact ⟨hnfree, trivial, trivial, trivial, trivial, trivial, trivial⟩
  · intro hov
    rw [← wbs] at hov
    unfold push
    simp only [hhead, reduceCtorEq, if_false, hacq, ← hc1, ← href, hrs, List.take_length]
    rw [if_neg hov]
    simp only [load_put, if_true]
    exact ⟨trivial, trivial, trivial, trivial⟩

/-- C12. `empty()` returns true exactly when `size()` is 0. -/
theorem empty_iff_size_zero (q : internal_disk_backed_queue_t) :
    empty q = true ↔ size q = 0 := by
  simp [empty, size]

/-- A run whose calls all returned, on a queue that is a chain of blocks, leaves a queue that is
a chain of blocks, on a cache of the same block size. -/
theorem run_returned_rep (maxreflen : Nat) (ops : List op_t) :
    ∀ (q : internal_disk_backed_queue_t) (chain : List gblock), rep maxreflen q chain →
      (∀ wm ∈ pushed ops,
        QUEUE_BLOCK_HEADER_SIZE + refsize_of maxreflen wm ≤ q.cache.block_size) →
      (run maxreflen ops q).fault = none →
      (∃ chain2, rep maxreflen (run maxreflen ops q).q chain2) ∧
      (run maxreflen ops q).q.cache.block_size = q.cache.block_size := by
  induction ops with
  | nil =>
    intro q chain hrep _ _
    exact ⟨⟨chain, hrep⟩, rfl⟩
  | cons op ops ih =>
    intro q chain hrep hfit hrun
    cases op with
    | push wm =>
      obtain ⟨hf, hbs, chain2, hrep2, -⟩ :=
        push_rep maxreflen q wm chain hrep (hfit wm (by simp [pushed]))
      have hfit2 : ∀ wm2 ∈ pushed ops, QUEUE_BLOCK_HEADER_SIZE + refsize_of maxreflen wm2 ≤
          (push maxreflen q wm).q.cache.block_size := by
        intro wm2 h2
        rw [hbs]
        exact hfit wm2 (by simp [pushed, h2])
      simp only [run, hf] at hrun ⊢
      obtain ⟨r1, r2⟩ := ih _ chain2 hrep2 hfit2 hrun
      exact ⟨r1, by rw [r2, hbs]⟩
    | pop =>
      cases chain with
      | nil =>
        exfalso
        have hs : size q = 0 := by
          simp only [size]
          rw [hrep.2.2.2]
          simp [pending]
        have := (pop_guarantee_only_when_empty maxreflen q).1 hs
        simp [run, this] at hrun
      | cons g gs =>
        obtain ⟨wm, rest, chain2, -, hf, -, hbs, hrep2, -⟩ := pop_rep maxreflen q g gs hrep
        have hfit2 : ∀ wm2 ∈ pushed ops, QUEUE_BLOCK_HEADER_SIZE + refsize_of maxreflen wm2 ≤
            (pop maxreflen q).q.cache.block_size := by
          intro wm2 h2
          rw [hbs]
          exact hfit wm2 (by simpa [pushed] using h2)
        simp only [run, hf] at hrun ⊢
        obtain ⟨r1, r2⟩ := ih _ chain2 hrep2 hfit2 hrun
        exact ⟨r1, by rw [r2, hbs]⟩

/-- Every described block of a chain is in the cache, as described. -/
theorem chain_seg_blocks {maxreflen : Nat} {c : cache_t} {chain : List gblock}
    {id last : block_id_t} (h : chain_seg maxreflen c id chain last) :
    ∀ g ∈ chain, ∃ b, load c.blocks g.id = some (buf_t.queue_block b) ∧
      block_ok maxreflen c g b := by
  induction chain generalizing id with
  | nil => intro g hg; simp at hg
  | cons g0 rest ih =>
    obtain ⟨-, b, h2, h3, h4⟩ := h
    intro g hg
    rcases List.mem_cons.mp hg with hg | hg
    · subst hg
      exact ⟨b, h2, h3⟩
    · exact ih h4 g hg

theorem last_id_cons_some (g : gblock) (gs : List gblock) :
    ∃ g2 : gblock, last_id (g :: gs) = some g2.id := by
  induction gs generalizing g with
  | nil => exact ⟨g, rfl⟩
  | cons g1 rest ih =>
    obtain ⟨g2, h⟩ := ih g1
    exact ⟨g2, by rw [last_id_cons_cons]; exact h⟩

theorem ref_bytes_length_pos (maxreflen : Nat) (c : cache_t)
    (live : List (List Nat × List Nat)) (hne : live ≠ [])
    (h : ∀ e ∈ live, ref_for maxreflen c e.1 e.2) : 1 ≤ (ref_bytes live).length := by
  cases live with
  | nil => exact absurd rfl hne
  | cons e l =>
    have := (ref_for_length (h e (by simp))).2.2
    simp only [ref_bytes, List.length_append]
    omega

/-- What the representation says about the ids, the size and the tail block of a queue. -/
theorem rep_ids (maxreflen : Nat) (q : internal_disk_backed_queue_t) (chain : List gblock)
    (hrep : rep maxreflen q chain) :
    (q.head_block_id = NULL_BLOCK_ID ↔ q.tail_block_id = NULL_BLOCK_ID) ∧
    (q.tail_block_id = NULL_BLOCK_ID ↔ q.queue_size = 0) ∧
    (q.queue_size ≠ 0 →
      ∃ t tail, q.tail_block_id = some t ∧
        load q.cache.blocks t = some (buf_t.queue_block tail) ∧
        tail.live_data_offset < tail.data_size ∧
        tail.live_data_offset +
          ref_size maxreflen (tail.data.drop tail.live_data_offset) ≤ tail.data_size) := by
  cases chain with
  | nil =>
    obtain ⟨h1, h2, -, h4⟩ := hrep
    have ht : q.tail_block_id = NULL_BLOCK_ID := h1
    have hh : q.head_block_id = NULL_BLOCK_ID := h2
    have hs : q.queue_size = 0 := by rw [h4]; simp [pending]
    exact ⟨⟨fun _ => ht, fun _ => hh⟩, ⟨fun _ => hs, fun _ => ht⟩, fun hne => absurd hs hne⟩
  | cons g gs =>
    obtain ⟨h1, h2, -, h4⟩ := hrep
    obtain ⟨ht, b, hb, hbok, -⟩ := h1
    obtain ⟨g2, hg2⟩ := last_id_cons_some g gs
    rw [hg2] at h2
    obtain ⟨b1, b2, ⟨rest0, b3⟩, b4, b5, b6, b7⟩ := hbok
    obtain ⟨⟨ref, wm⟩, l, hlive⟩ := List.exists_cons_of_ne_nil b6
    have href : ref_for maxreflen q.cache ref wm := b7 (ref, wm) (by rw [hlive]; simp)
    obtain ⟨-, r2, r3⟩ := ref_for_length href
    have hp : pending (g :: gs) = wm :: (l.map (fun e => e.2) ++ pending gs) := by
      simp [pending, hlive]
    have hs : q.queue_size ≠ 0 := by
      rw [h4, hp]
      simp only [List.length_cons]
      omega
    refine ⟨⟨fun h => by rw [h2] at h; simp [NULL_BLOCK_ID] at h,
      fun h => by rw [ht] at h; simp [NULL_BLOCK_ID] at h⟩,
      ⟨fun h => by rw [ht] at h; simp [NULL_BLOCK_ID] at h, fun h => absurd h hs⟩, ?_⟩
    intro _
    refine ⟨g.id, b, ht, hb, ?_, ?_⟩
    · rw [b1, b2, hlive]
      simp only [ref_bytes, List.length_append]
      omega
    · rw [b1, b3, hlive]
      simp only [ref_bytes, List.append_assoc]
      rw [ref_size_append href, b2, hlive]
      simp only [ref_bytes, List.length_append]
      omega

/-- The bounds the representation gives for every block of the chain. -/
theorem rep_bounds (maxreflen : Nat) (q : internal_disk_backed_queue_t) (chain : List gblock)
    (hrep : rep maxreflen q chain) :
    ∀ g ∈ chain, ∃ b, load q.cache.blocks g.id = some (buf_t.queue_block b) ∧
      b.live_data_offset ≤ b.data_size ∧
      QUEUE_BLOCK_HEADER_SIZE + b.data_size ≤ q.cache.block_size ∧
      b.data.length = q.cache.block_size - QUEUE_BLOCK_HEADER_SIZE := by
  intro g hg
  obtain ⟨b, h1, h2⟩ := chain_seg_blocks hrep.1 g hg
  obtain ⟨b1, b2, -, b4, b5, -, -⟩ := h2
  exact ⟨b, h1, by omega, b5, b4⟩

/-- C25. After any sequence of `push` and `pop` calls on a new queue that all returned, every
pushed reference fitting in an empty block (a reference is never empty): `head_block_id` is
`NULL_BLOCK_ID` if and only if `tail_block_id` is, if and only if `queue_size` is 0; and when
`queue_size` is not 0 the tail block is there with `live_data_offset` different from
`data_size`, so that the `rassert` of `pop` holds and `pop` returns. -/
theorem ids_null_iff_empty (maxreflen : Nat) (c : cache_t) (ops : List op_t)
    (hfit : ∀ wm ∈ pushed ops,
      QUEUE_BLOCK_HEADER_SIZE + refsize_of maxreflen wm ≤ c.block_size)
    (hrun : (run maxreflen ops (internal_disk_backed_queue_t.init c)).fault = none) :
    ((run maxreflen ops (internal_disk_backed_queue_t.init c)).q.head_block_id = NULL_BLOCK_ID ↔
      (run maxreflen ops (internal_disk_backed_queue_t.init c)).q.tail_block_id
        = NULL_BLOCK_ID) ∧
    ((run maxreflen ops (internal_disk_backed_queue_t.init c)).q.tail_block_id = NULL_BLOCK_ID ↔
      (run maxreflen ops (internal_disk_backed_queue_t.init c)).q.queue_size = 0) ∧
    ((run maxreflen ops (internal_disk_backed_queue_t.init c)).q.head_block_id = NULL_BLOCK_ID ↔
      (run maxreflen ops (internal_disk_backed_queue_t.init c)).q.queue_size = 0) ∧
    ((run maxreflen ops (internal_disk_backed_queue_t.init c)).q.queue_size ≠ 0 →
      (∃ t tail,
        (run maxreflen ops (internal_disk_backed_queue_t.init c)).q.tail_block_id = some t ∧
        load (run maxreflen ops (internal_disk_backed_queue_t.init c)).q.cache.blocks t =
          some (buf_t.queue_block tail) ∧
        tail.live_data_offset ≠ tail.data_size) ∧
      (pop maxreflen (run maxreflen ops (internal_disk_backed_queue_t.init c)).q).fault
        = none) := by
  obtain ⟨⟨chain, hrep⟩, -⟩ := run_returned_rep maxreflen ops
    (internal_disk_backed_queue_t.init c) [] (rep_init maxreflen c) hfit hrun
  obtain ⟨h1, h2, h3⟩ := rep_ids maxreflen _ chain hrep
  refine ⟨h1, h2, h1.trans h2, ?_⟩
  intro hne
  obtain ⟨t, tail, k1, k2, k3, -⟩ := h3 hne
  refine ⟨⟨t, tail, k1, k2, by omega⟩, ?_⟩
  cases chain with
  | nil => exact absurd (by rw [hrep.2.2.2]; simp [pending]) hne
  | cons g gs =>
    obtain ⟨wm, rest, chain2, -, hf, -⟩ := pop_rep maxreflen _ g gs hrep
    exact hf

theorem ids_null_iff_empty_witness :
    (run 6 [op_t.push [1, 2], op_t.push [3, 4, 5, 6, 7, 8, 9], op_t.pop, op_t.push [5]]
      (internal_disk_backed_queue_t.init { block_size := 24, blocks := [] })).fault = none ∧
    ((run 6 [op_t.push [1, 2], op_t.push [3, 4, 5, 6, 7, 8, 9], op_t.pop, op_t.push [5]]
      (internal_disk_backed_queue_t.init
        { block_size := 24, blocks := [] })).q.head_block_id = NULL_BLOCK_ID ↔
      (run 6 [op_t.push [1, 2], op_t.push [3, 4, 5, 6, 7, 8, 9], op_t.pop, op_t.push [5]]
        (internal_disk_backed_queue_t.init
          { block_size := 24, blocks := [] })).q.queue_size = 0) :=
  ⟨by decide,
   (ids_null_iff_empty 6 { block_size := 24, blocks := [] }
      [op_t.push [1, 2], op_t.push [3, 4, 5, 6, 7, 8, 9], op_t.pop, op_t.push [5]]
      (by decide) (by decide)).2.2.1⟩

/-- C26. After any sequence of `push` and `pop` calls on a new queue that all returned, every
pushed reference being at most `block size - 16` long: the queue is a chain of blocks from
`tail_block_id` to `head_block_id`, and every block of the chain has
`live_data_offset ≤ data_size`, `16 + data_size ≤ block size`, and a `data` array of
`block size - 16` bytes.  The reference `pop` reads on a non-empty queue starts before
`data_size` and ends at or before it.  A further `push` of a reference of at most
`block size - 16` bytes returns and leaves a chain with the same bounds: the reference it
copied ends at the `data_size` of the head block, inside its `data` array. -/
theorem chain_blocks_in_bounds (maxreflen : Nat) (c : cache_t) (ops : List op_t)
    (hfit : ∀ wm ∈ pushed ops,
      QUEUE_BLOCK_HEADER_SIZE + refsize_of maxreflen wm ≤ c.block_size)
    (hrun : (run maxreflen ops (internal_disk_backed_queue_t.init c)).fault = none) :
    (∃ chain, rep maxreflen (run maxreflen ops (internal_disk_backed_queue_t.init c)).q chain ∧
      ∀ g ∈ chain, ∃ b,
        load (run maxreflen ops (internal_disk_backed_queue_t.init c)).q.cache.blocks g.id =
          some (buf_t.queue_block b) ∧
        b.live_data_offset ≤ b.data_size ∧
        QUEUE_BLOCK_HEADER_SIZE + b.data_size ≤ c.block_size ∧
        b.data.length = c.block_size - QUEUE_BLOCK_HEADER_SIZE) ∧
    ((run maxreflen ops (internal_disk_backed_queue_t.init c)).q.queue_size ≠ 0 →
      ∃ t tail,
        (run maxreflen ops (internal_disk_backed_queue_t.init c)).q.tail_block_id = some t ∧
        load (run maxreflen ops (internal_disk_backed_queue_t.init c)).q.cache.blocks t =
          some (buf_t.queue_block tail) ∧
        tail.live_data_offset < tail.data_size ∧
        tail.live_data_offset +
          ref_size maxreflen (tail.data.drop tail.live_data_offset) ≤ tail.data_size) ∧
    (∀ wm, QUEUE_BLOCK_HEADER_SIZE + refsize_of maxreflen wm ≤ c.block_size →
      (push maxreflen (run maxreflen ops (internal_disk_backed_queue_t.init c)).q wm).fault
        = none ∧
      ∃ chain2,
        rep maxreflen
          (push maxreflen (run maxreflen ops (internal_disk_backed_queue_t.init c)).q wm).q
          chain2 ∧
        ∀ g ∈ chain2, ∃ b,
          load (push maxreflen (run maxreflen ops (internal_disk_backed_queue_t.init c)).q
            wm).q.cache.blocks g.id = some (buf_t.queue_block b) ∧
          b.live_data_offset ≤ b.data_size ∧
          QUEUE_BLOCK_HEADER_SIZE + b.data_size ≤ c.block_size ∧
          b.data.length = c.block_size - QUEUE_BLOCK_HEADER_SIZE) := by
  obtain ⟨⟨chain, hrep⟩, hbs⟩ := run_returned_rep maxreflen ops
    (internal_disk_backed_queue_t.init c) [] (rep_init maxreflen c) hfit hrun
  have hbs2 : (run maxreflen ops (internal_disk_backed_queue_t.init c)).q.cache.block_size =
      c.block_size := hbs
  refine ⟨⟨chain, hrep, ?_⟩, (rep_ids maxreflen _ chain hrep).2.2, ?_⟩
  · intro g hg
    obtain ⟨b, k1, k2, k3, k4⟩ := rep_bounds maxreflen _ chain hrep g hg
    rw [hbs2] at k3 k4
    exact ⟨b, k1, k2, k3, k4⟩
  · intro wm hwm
    obtain ⟨hf, hb, chain2, hrep2, -⟩ :=
      push_rep maxreflen _ wm chain hrep (by rw [hbs2]; exact hwm)
    refine ⟨hf, chain2, hrep2, ?_⟩
    intro g hg
    obtain ⟨b, k1, k2, k3, k4⟩ := rep_bounds maxreflen _ chain2 hrep2 g hg
    rw [hb, hbs2] at k3 k4
    exact ⟨b, k1, k2, k3, k4⟩

theorem chain_blocks_in_bounds_witness :
    (run 6 [op_t.push [1, 2], op_t.push [3, 4, 5, 6, 7, 8, 9], op_t.pop, op_t.push [5]]
      (internal_disk_backed_queue_t.init { block_size := 24, blocks := [] })).fault = none ∧
    (push 6 (run 6 [op_t.push [1, 2], op_t.push [3, 4, 5, 6, 7, 8, 9], op_t.pop, op_t.push [5]]
      (internal_disk_backed_queue_t.init { block_size := 24, blocks := [] })).q
      [1, 1, 1, 1]).fault = none :=
  ⟨by decide,
   ((chain_blocks_in_bounds 6 { block_size := 24, blocks := [] }
      [op_t.push [1, 2], op_t.push [3, 4, 5, 6, 7, 8, 9], op_t.pop, op_t.push [5]]
      (by decide) (by decide)).2.2 [1, 1, 1, 1] (by decide)).1⟩

theorem memcpy_at_take (dst : List Nat) (off : Nat) (src : List Nat)
    (h : off ≤ dst.length) : (memcpy_at dst off src).take off = dst.take off := by
  unfold memcpy_at
  rw [List.append_assoc, List.take_append_of_le_length (by simp [h])]
  simp

theorem memcpy_at_mid (dst : List Nat) (off : Nat) (src : List Nat)
    (h : off ≤ dst.length) :
    ((memcpy_at dst off src).drop off).take src.length = src := by
  unfold memcpy_at
  have hl : (dst.take off).length = off := by simp [h]
  have hd : (dst.take off).drop off = [] := List.drop_eq_nil_of_le (by omega)
  rw [List.append_assoc, List.drop_append_eq_append_drop, hl, hd]
  simp

theorem memcpy_at_rest (dst : List Nat) (off : Nat) (src : List Nat)
    (h : off ≤ dst.length) :
    (memcpy_at dst off src).drop (off + src.length) = dst.drop (off + src.length) := by
  unfold memcpy_at
  have hl : (dst.take off ++ src).length = off + src.length := by simp [h]
  rw [List.drop_append_eq_append_drop, hl]
  simp

/-- C10 fails as stated: on a cache with blocks of 18 bytes the head block 0 holds one
reference of 2 bytes, and the record `[1, 2]` is pushed, whose reference `[2, 1, 2]` has 3
bytes.  16 + 2 + 3 exceeds 18, so `push` makes block 1 the new head and copies the 3 bytes to
offset 0 of its `data`, which has 18 - 16 = 2 bytes: the third byte lies past the end of the
block, and `data_size` becomes 3. -/
theorem push_overruns_small_block :
    small_block_queue.head_block_id = some 0 ∧
    load small_block_queue.cache.blocks 0 =
      some (buf_t.queue_block
        { next := none, data_size := 2, live_data_offset := 0, data := [1, 7] }) ∧
    (write_onto_blob 6 small_block_queue.cache [1, 2]).2 = [2, 1, 2] ∧
    QUEUE_BLOCK_HEADER_SIZE + 2 + 3 > small_block_queue.cache.block_size ∧
    (fresh_block small_block_queue.cache.block_size).data.length = 2 ∧
    (push 6 small_block_queue [1, 2]).fault = none ∧
    (push 6 small_block_queue [1, 2]).q.head_block_id = some 1 ∧
    load (push 6 small_block_queue [1, 2]).q.cache.blocks 1 =
      some (buf_t.queue_block
        { next := none, data_size := 3, live_data_offset := 0, data := [2, 1, 2] }) := by
  decide

/-- C10, amended. On a queue reached by `push` and `pop` calls that all returned, with a head
block `h`, let a record be pushed whose reference fits in an empty block (16 plus the
reference size is at most the block size), as the references pushed before did.  `push`
returns and leaves `tail_block_id` unchanged.  If 16 plus the `data_size` of the head plus the
reference size exceeds the block size, `push` takes a block id `n` that was free, makes there
a block with `next = NULL_BLOCK_ID`, `data_size = 0` and `live_data_offset = 0`, sets `next` of
the old head to `n`, makes `n` the `head_block_id`, and stores the reference at offset 0 of
the new block: the first bytes of its `data` are the reference, the others are as allocated,
and its `data_size` is the reference size.  Otherwise `head_block_id` is unchanged and the
reference is stored at the old `data_size` of the head: the bytes before and after it are
unchanged, `next` and `live_data_offset` are unchanged, and `data_size` has grown by the
reference size. -/
theorem push_places_reference (maxreflen : Nat) (c : cache_t) (ops : List op_t)
    (hfit : ∀ w ∈ pushed ops, QUEUE_BLOCK_HEADER_SIZE + refsize_of maxreflen w ≤ c.block_size)
    (hrun : (run maxreflen ops (internal_disk_backed_queue_t.init c)).fault = none)
    (q : internal_disk_backed_queue_t)
    (hq : q = (run maxreflen ops (internal_disk_backed_queue_t.init c)).q)
    (h : Nat) (hhead : q.head_block_id = some h)
    (wm : List Nat)
    (hwm : QUEUE_BLOCK_HEADER_SIZE + refsize_of maxreflen wm ≤ c.block_size) :
    ∃ head ref,
      load q.cache.blocks h = some (buf_t.queue_block head) ∧
      ref = (write_onto_blob maxreflen q.cache wm).2 ∧
      ref.length = refsize_of maxreflen wm ∧
      ref_size maxreflen ref = ref.length ∧
      ref_for maxreflen (write_onto_blob maxreflen q.cache wm).1 ref wm ∧
      (push maxreflen q wm).fault = none ∧
      (push maxreflen q wm).q.tail_block_id = q.tail_block_id ∧
      (QUEUE_BLOCK_HEADER_SIZE + head.data_size + ref.length > c.block_size →
        ∃ n new_head,
          load q.cache.blocks n = none ∧
          load (add_block_to_head
              { q with cache := (write_onto_blob maxreflen q.cache wm).1 }).q.cache.blocks n =
            some (buf_t.queue_block
              { next := NULL_BLOCK_ID, data_size := 0, live_data_offset := 0,
                data := List.replicate (c.block_size - QUEUE_BLOCK_HEADER_SIZE) 0 }) ∧
          (push maxreflen q wm).q.head_block_id = some n ∧
          load (push maxreflen q wm).q.cache.blocks h =
            some (buf_t.queue_block { head with next := some n }) ∧
          load (push maxreflen q wm).q.cache.blocks n = some (buf_t.queue_block new_head) ∧
          new_head.next = NULL_BLOCK_ID ∧
          new_head.live_data_offset = 0 ∧
          new_head.data_size = 0 + ref.length ∧
          new_head.data.length = c.block_size - QUEUE_BLOCK_HEADER_SIZE ∧
          new_head.data.take ref.length = ref ∧
          new_head.data.drop ref.length =
            List.replicate (c.block_size - QUEUE_BLOCK_HEADER_SIZE - ref.length) 0) ∧
      (¬ QUEUE_BLOCK_HEADER_SIZE + head.data_size + ref.length > c.block_size →
        (push maxreflen q wm).q.head_block_id = q.head_block_id ∧
        ∃ new_head,
          load (push maxreflen q wm).q.cache.blocks h = some (buf_t.queue_block new_head) ∧
          new_head.next = head.next ∧
          new_head.live_data_offset = head.live_data_offset ∧
          new_head.data_size = head.data_size + ref.length ∧
          new_head.data.length = head.data.length ∧
          new_head.data.take head.data_size = head.data.take head.data_size ∧
          (new_head.data.drop head.data_size).take ref.length = ref ∧
          new_head.data.drop (head.data_size + ref.length) =
            head.data.drop (head.data_size + ref.length)) := by
  obtain ⟨⟨chain, hrep⟩, hbs⟩ := run_returned_rep maxreflen ops
    (internal_disk_backed_queue_t.init c) [] (rep_init maxreflen c) hfit hrun
  rw [← hq] at hrep hbs
  have hbs2 : q.cache.block_size = c.block_size := hbs
  rcases List.eq_nil_or_concat chain with hnil | ⟨init, g, hcons⟩
  · exfalso
    rw [hnil] at hrep
    have := hrep.2.1
    rw [hhead] at this
    simp [last_id, NULL_BLOCK_ID] at this
  rw [List.concat_eq_append] at hcons
  rw [hcons] at hrep
  obtain ⟨hseg, hh, -, -⟩ := hrep
  rw [chain_seg_append] at hseg
  obtain ⟨mid, hinit, hmid, head, hb, hbok, hnext⟩ := hseg
  rw [last_id_concat, hhead] at hh
  have hgh : g.id = h := (Option.some.inj hh).symm
  rw [hgh] at hb
  have hnx : head.next = NULL_BLOCK_ID := hnext
  obtain ⟨-, -, -, b4, b5, -, -⟩ := hbok
  rw [hbs2] at b4 b5
  obtain ⟨-, p2, p3⟩ := push_eval maxreflen q wm h head hhead hb
  rw [hbs2] at p2 p3
  obtain ⟨-, wkeep, wref, -, -⟩ := write_onto_blob_spec maxreflen q.cache wm
  obtain ⟨hlen, hrs, -⟩ := ref_for_length wref
  have hfault : (push maxreflen q wm).fault = none ∧
      (push maxreflen q wm).q.tail_block_id = q.tail_block_id := by
    by_cases hov : QUEUE_BLOCK_HEADER_SIZE + head.data_size +
        (write_onto_blob maxreflen q.cache wm).2.length > c.block_size
    · obtain ⟨-, -, k3, -, k5, -⟩ := p2 hov hnx
      exact ⟨k3, k5⟩
    · obtain ⟨k1, -, k3, -⟩ := p3 hov
      exact ⟨k1, k3⟩
  refine ⟨head, (write_onto_blob maxreflen q.cache wm).2, hb, rfl, hlen, hrs, wref,
    hfault.1, hfault.2, ?_, ?_⟩
  · intro hov
    obtain ⟨k1, k2, -, k4, -, k6, k7⟩ := p2 hov hnx
    have hfree : load q.cache.blocks
        (first_free (write_onto_blob maxreflen q.cache wm).1.blocks) = none := by
      by_contra hne
      rw [wkeep _ hne] at k1
      exact hne k1
    have hl : 0 + (write_onto_blob maxreflen q.cache wm).2.length ≤
        (List.replicate (c.block_size - QUEUE_BLOCK_HEADER_SIZE) 0).length := by
      rw [List.length_replicate, hlen]
      omega
    refine ⟨_, _, hfree, k2, k4, k6, k7, rfl, rfl, rfl, ?_, ?_, ?_⟩
    · show (memcpy_at _ 0 _).length = _
      rw [memcpy_at_length _ _ _ hl, List.length_replicate]
    · have := memcpy_at_mid (List.replicate (c.block_size - QUEUE_BLOCK_HEADER_SIZE) 0) 0
        (write_onto_blob maxreflen q.cache wm).2 (Nat.zero_le _)
      rw [List.drop_zero] at this
      exact this
    · have := memcpy_at_rest (List.replicate (c.block_size - QUEUE_BLOCK_HEADER_SIZE) 0) 0
        (write_onto_blob maxreflen q.cache wm).2 (Nat.zero_le _)
      rw [Nat.zero_add, List.drop_replicate] at this
      exact this
  · intro hov
    obtain ⟨-, k2, -, k4⟩ := p3 hov
    have hoff : head.data_size ≤ head.data.length := by
      rw [b4]
      omega
    have hl : head.data_size + (write_onto_blob maxreflen q.cache wm).2.length ≤
        head.data.length := by
      rw [b4]
      omega
    refine ⟨k2, _, k4, rfl, rfl, rfl, ?_, ?_, ?_, ?_⟩
    · exact memcpy_at_length _ _ _ hl
    · exact memcpy_at_take _ _ _ hoff
    · exact memcpy_at_mid _ _ _ hoff
    · exact memcpy_at_rest _ _ _ hoff

theorem push_places_reference_witness :
    (run 6 [op_t.push [1, 2]]
      (internal_disk_backed_queue_t.init { block_size := 24, blocks := [] })).fault = none ∧
    one_record_queue.head_block_id = some 0 ∧
    load one_record_queue.cache.blocks 0 =
      some (buf_t.queue_block
        { next := none, data_size := 3, live_data_offset := 0,
          data := [2, 1, 2, 0, 0, 0, 0, 0] }) ∧
    (∃ head ref,
      load one_record_queue.cache.blocks 0 = some (buf_t.queue_block head) ∧
      ref = (write_onto_blob 6 one_record_queue.cache [9]).2 ∧
      (push 6 one_record_queue [9]).fault = none ∧
      (¬ QUEUE_BLOCK_HEADER_SIZE + head.data_size + ref.length > 24 →
        ∃ new_head,
          load (push 6 one_record_queue [9]).q.cache.blocks 0 =
            some (buf_t.queue_block new_head) ∧
          (new_head.data.drop head.data_size).take ref.length = ref)) ∧
    load (push 6 one_record_queue [9]).q.cache.blocks 0 =
      some (buf_t.queue_block
        { next := none, data_size := 5, live_data_offset := 0,
          data := [2, 1, 2, 1, 9, 0, 0, 0] }) ∧
    load (push 6 one_record_queue [3, 4, 5, 6, 7]).q.cache.blocks 1 =
      some (buf_t.queue_block
        { next := none, data_size := 6, live_data_offset := 0,
          data := [5, 3, 4, 5, 6, 7, 0, 0] }) :=
  ⟨by decide, by decide, by decide,
   (push_places_reference 6 { block_size := 24, blocks := [] } [op_t.push [1, 2]]
      (by decide) (by decide) one_record_queue rfl 0 (by decide) [9] (by decide)).imp
     fun _ hx => hx.imp fun _ hy =>
       ⟨hy.1, hy.2.1, hy.2.2.2.2.2.1,
        fun hn => ((hy.2.2.2.2.2.2.2.2 hn).2).imp fun _ hz => ⟨hz.1, hz.2.2.2.2.2.2.1⟩⟩,
   by decide, by decide⟩

end disk_backed_queue

namespace page_repl_random

theorem is_full_iff (c : mc_cache_t) (space_needed : Nat) :
    is_full c space_needed = true ↔
      (c.page_repl.array.length + space_needed) % 2 ^ 64 > c.page_repl.unload_threshold := by
  simp [is_full]

theorem consider_spec (c : mc_cache_t) (acc : Option Nat) (block : Nat)
    (hacc : ∀ a, acc = some a → (c.heap a).safe_to_unload = true) :
    (∀ a, consider c acc block = some a → (c.heap a).safe_to_unload = true) ∧
    (∀ a, consider c acc block = some a → acc = some a ∨ a = block) ∧
    (∀ a, acc = some a → ∃ a2, consider c acc block = some a2 ∧
      (c.heap a).eviction_priority ≤ (c.heap a2).eviction_priority) ∧
    ((c.heap block).safe_to_unload = true → ∃ a2, consider c acc block = some a2 ∧
      (c.heap block).eviction_priority ≤ (c.heap a2).eviction_priority) ∧
    (consider c acc block = none → acc = none ∧ (c.heap block).safe_to_unload = false) := by
  unfold consider
  by_cases hs : (c.heap block).safe_to_unload = true
  · simp only [hs, Bool.not_true, Bool.false_eq_true, if_false]
    cases acc with
    | none => simp [hs]
    | some cur =>
      have hc := hacc cur rfl
      by_cases hp : (c.heap cur).eviction_priority < (c.heap block).eviction_priority
      · simp only [hp, if_true]
        simp [hs]
        omega
      · simp only [hp, if_false]
        simp [hc]
        omega
  · have hs2 : (c.heap block).safe_to_unload = false := by simpa using hs
    simp only [hs2, Bool.not_false, if_true]
    refine ⟨hacc, fun a h => Or.inl h, fun a h => ⟨a, h, le_refl _⟩, ?_,
      fun h => ⟨h, trivial⟩⟩
    intro h
    simp at h

theorem sample_round_spec (rng : Nat → Nat) (c : mc_cache_t) (tries pos : Nat)
    (acc : Option Nat) (hacc : ∀ a, acc = some a → (c.heap a).safe_to_unload = true) :
    (∀ b, sample_round rng c tries pos acc = some b →
      (acc = some b ∨ b ∈ sampled rng c tries pos) ∧
      (c.heap b).safe_to_unload = true ∧
      (∀ a, acc = some a → (c.heap a).eviction_priority ≤ (c.heap b).eviction_priority) ∧
      (∀ p ∈ sampled rng c tries pos, (c.heap p).safe_to_unload = true →
        (c.heap p).eviction_priority ≤ (c.heap b).eviction_priority)) ∧
    (sample_round rng c tries pos acc = none →
      acc = none ∧ ∀ p ∈ sampled rng c tries pos, (c.heap p).safe_to_unload = false) := by
  induction tries generalizing pos acc with
  | zero =>
    simp only [sample_round, sampled]
    refine ⟨fun b hb => ⟨Or.inl hb, hacc b hb, ?_, ?_⟩, fun h => ⟨h, ?_⟩⟩
    · intro a ha
      rw [hb] at ha
      cases ha
      exact le_refl _
    · intro p hp
      simp at hp
    · intro p hp
      simp at hp
  | succ tries ih =>
    simp only [sample_round, sampled]
    obtain ⟨c1, c2, c3, c4, c5⟩ :=
      consider_spec c acc (c.page_repl.array.getD (randsize rng pos c.page_repl.array.length) 0)
        hacc
    obtain ⟨i1, i2⟩ := ih (pos + 4) _ c1
    constructor
    · intro b hb
      obtain ⟨j1, j2, j3, j4⟩ := i1 b hb
      refine ⟨?_, j2, ?_, ?_⟩
      · rcases j1 with j1 | j1
        · rcases c2 b j1 with h | h
          · exact Or.inl h
          · exact Or.inr (by simp [h])
        · exact Or.inr (by simp [j1])
      · intro a ha
        obtain ⟨a2, h1, h2⟩ := c3 a ha
        exact le_trans h2 (j3 a2 h1)
      · intro p hp hs
        simp only [List.mem_cons] at hp
        rcases hp with hp | hp
        · subst hp
          obtain ⟨a2, h1, h2⟩ := c4 hs
          exact le_trans h2 (j3 a2 h1)
        · exact j4 p hp hs
    · intro hn
      obtain ⟨k1, k2⟩ := i2 hn
      obtain ⟨m1, m2⟩ := c5 k1
      refine ⟨m1, ?_⟩
      intro p hp
      simp only [List.mem_cons] at hp
      rcases hp with hp | hp
      · subst hp
        exact m2
      · exact k2 p hp

theorem sampled_length (rng : Nat → Nat) (c : mc_cache_t) (tries pos : Nat) :
    (sampled rng c tries pos).length = tries := by
  induction tries generalizing pos with
  | zero => rfl
  | succ tries ih => simp [sampled, ih]

theorem randsize_lt (rng : Nat → Nat) (pos n : Nat) (h : 0 < n) : randsize rng pos n < n := by
  unfold randsize
  exact Nat.mod_lt _ h

theorem sampled_mem (rng : Nat → Nat) (c : mc_cache_t) (tries pos : Nat)
    (h : 0 < c.page_repl.array.length) :
    ∀ p ∈ sampled rng c tries pos, p ∈ c.page_repl.array := by
  induction tries generalizing pos with
  | zero => intro p hp; simp [sampled] at hp
  | succ tries ih =>
    intro p hp
    simp only [sampled, List.mem_cons] at hp
    rcases hp with hp | hp
    · subst hp
      have hlt := randsize_lt rng pos _ h
      rw [List.getD_eq_getElem _ _ hlt]
      exact List.getElem_mem _
    · exact ih _ p hp

theorem safe_update_index (e : evictable_t) (i : Nat) :
    ({ e with page_repl_index := i } : evictable_t).safe_to_unload = e.safe_to_unload := rfl

theorem remove_safe (c : mc_cache_t) (this p : Nat) :
    ((remove_from_page_repl c this).cache.heap p).safe_to_unload =
      (c.heap p).safe_to_unload := by
  unfold remove_from_page_repl
  simp only
  split_ifs
  · split
    · rfl
    · simp only [Function.update_apply]
      split_ifs <;> simp_all [evictable_t.safe_to_unload]
  · rfl

theorem remove_threshold (c : mc_cache_t) (this : Nat) :
    (remove_from_page_repl c this).cache.page_repl.unload_threshold =
      c.page_repl.unload_threshold := by
  unfold remove_from_page_repl
  simp only
  split_ifs
  · split <;> rfl
  · rfl

theorem remove_length (c : mc_cache_t) (this : Nat)
    (h : (remove_from_page_repl c this).rassert_failed = false) :
    (remove_from_page_repl c this).cache.page_repl.array.length =
      c.page_repl.array.length - 1 := by
  revert h
  unfold remove_from_page_repl
  simp only
  split_ifs
  · split
    · simp
    · intro _
      simp
  · simp

theorem remove_subset (c : mc_cache_t) (this : Nat) :
    ∀ p ∈ (remove_from_page_repl c this).cache.page_repl.array, p ∈ c.page_repl.array := by
  unfold remove_from_page_repl
  simp only
  split_ifs with hlt
  · split
    · intro p hp; exact hp
    · rename_i replacement hlast
      intro p hp
      have hr : replacement ∈ c.page_repl.array := List.mem_of_getLast?_eq_some hlast
      have hp2 := List.mem_of_mem_dropLast hp
      rcases List.mem_or_eq_of_mem_set hp2 with h1 | h1
      · rcases List.mem_or_eq_of_mem_set h1 with h2 | h2
        · exact h2
        · rw [h2]; exact hr
      · rw [h1, List.getD_eq_getElem _ _ hlt]
        exact List.getElem_mem _
  · intro p hp; exact hp

theorem unload_safe (c : mc_cache_t) (this p : Nat)
    (h : (c.heap p).safe_to_unload = true) : ((unload c this).heap p).safe_to_unload = true := by
  unfold unload
  simp only [Function.update_apply]
  split_ifs with he
  · subst he
    simp only [evictable_t.safe_to_unload, Bool.and_eq_true] at h ⊢
    refine ⟨h.1, ?_⟩
    decide
  · exact h

/-- The cache after one eviction of `b` in the loop of `make_space`. -/
theorem loop_succ_evict (K : Nat) (rng : Nat → Nat) (target rounds : Nat) (c : mc_cache_t)
    (pos b : Nat) (hlen : c.page_repl.array.length > target)
    (hs : sample_round rng c K pos none = some b)
    (hr : (remove_from_page_repl c b).rassert_failed = false) :
    make_space_loop K rng target (rounds + 1) c pos =
      { make_space_loop K rng target rounds
          { unload (remove_from_page_repl c b).cache b with
            pm_n_blocks_evicted :=
              (unload (remove_from_page_repl c b).cache b).pm_n_blocks_evicted + 1 }
          (pos + 4 * K) with
        evicted := b :: (make_space_loop K rng target rounds
          { unload (remove_from_page_repl c b).cache b with
            pm_n_blocks_evicted :=
              (unload (remove_from_page_repl c b).cache b).pm_n_blocks_evicted + 1 }
          (pos + 4 * K)).evicted } := by
  simp [make_space_loop, hlen, hs, hr]

theorem loop_succ_rassert (K : Nat) (rng : Nat → Nat) (target rounds : Nat) (c : mc_cache_t)
    (pos b : Nat) (hlen : c.page_repl.array.length > target)
    (hs : sample_round rng c K pos none = some b)
    (hr : (remove_from_page_repl c b).rassert_failed = true) :
    make_space_loop K rng target (rounds + 1) c pos =
      { rassert_failed := true, gave_up := false, evicted := [], pos := pos + 4 * K,
        cache := (remove_from_page_repl c b).cache } := by
  simp [make_space_loop, hlen, hs, hr]

theorem loop_succ_give_up (K : Nat) (rng : Nat → Nat) (target rounds : Nat) (c : mc_cache_t)
    (pos : Nat) (hlen : c.page_repl.array.length > target)
    (hs : sample_round rng c K pos none = none) :
    make_space_loop K rng target (rounds + 1) c pos =
      { rassert_failed := false, gave_up := true, evicted := [], pos := pos + 4 * K,
        cache := c } := by
  simp [make_space_loop, hlen, hs]

theorem loop_succ_done (K : Nat) (rng : Nat → Nat) (target rounds : Nat) (c : mc_cache_t)
    (pos : Nat) (hlen : ¬ c.page_repl.array.length > target) :
    make_space_loop K rng target (rounds + 1) c pos =
      { rassert_failed := false, gave_up := false, evicted := [], pos := pos, cache := c } := by
  simp [make_space_loop, hlen]

theorem loop_cases (K : Nat) (rng : Nat → Nat) (target rounds : Nat) (c : mc_cache_t)
    (pos : Nat) (P : make_space_result_t → Prop)
    (hdone : ¬ c.page_repl.array.length > target →
      P { rassert_failed := false, gave_up := false, evicted := [], pos := pos, cache := c })
    (hgive : c.page_repl.array.length > target → sample_round rng c K pos none = none →
      P { rassert_failed := false, gave_up := true, evicted := [], pos := pos + 4 * K,
          cache := c })
    (hras : ∀ b, c.page_repl.array.length > target → sample_round rng c K pos none = some b →
      (remove_from_page_repl c b).rassert_failed = true →
      P { rassert_failed := true, gave_up := false, evicted := [], pos := pos + 4 * K,
          cache := (remove_from_page_repl c b).cache })
    (hev : ∀ b, c.page_repl.array.length > target → sample_round rng c K pos none = some b →
      (remove_from_page_repl c b).rassert_failed = false →
      P { make_space_loop K rng target rounds
          { unload (remove_from_page_repl c b).cache b with
            pm_n_blocks_evicted :=
              (unload (remove_from_page_repl c b).cache b).pm_n_blocks_evicted + 1 }
          (pos + 4 * K) with
        evicted := b :: (make_space_loop K rng target rounds
          { unload (remove_from_page_repl c b).cache b with
            pm_n_blocks_evicted :=
              (unload (remove_from_page_repl c b).cache b).pm_n_blocks_evicted + 1 }
          (pos + 4 * K)).evicted }) :
    P (make_space_loop K rng target (rounds + 1) c pos) := by
  by_cases hlen : c.page_repl.array.length > target
  · cases hs : sample_round rng c K pos none with
    | none =>
      rw [loop_succ_give_up K rng target rounds c pos hlen hs]
      exact hgive hlen hs
    | some b =>
      cases hr : (remove_from_page_repl c b).rassert_failed with
      | true =>
        rw [loop_succ_rassert K rng target rounds c pos b hlen hs hr]
        exact hras b hlen hs hr
      | false =>
        rw [loop_succ_evict K rng target rounds c pos b hlen hs hr]
        exact hev b hlen hs hr
  · rw [loop_succ_done K rng target rounds c pos hlen]
    exact hdone hlen

theorem loop_size (K : Nat) (rng : Nat → Nat) (target rounds : Nat) (c : mc_cache_t) (pos : Nat)
    (hfuel : c.page_repl.array.length ≤ rounds)
    (hr : (make_space_loop K rng target rounds c pos).rassert_failed = false)
    (hg : (make_space_loop K rng target rounds c pos).gave_up = false) :
    (make_space_loop K rng target rounds c pos).cache.page_repl.array.length ≤ target ∧
    (make_space_loop K rng target rounds c pos).cache.page_repl.unload_threshold =
      c.page_repl.unload_threshold := by
  induction rounds generalizing c pos with
  | zero =>
    refine ⟨?_, rfl⟩
    show c.page_repl.array.length ≤ target
    omega
  | succ rounds ih =>
    revert hr hg
    refine loop_cases K rng target rounds c pos
      (fun r => r.rassert_failed = false → r.gave_up = false →
        r.cache.page_repl.array.length ≤ target ∧
        r.cache.page_repl.unload_threshold = c.page_repl.unload_threshold) ?_ ?_ ?_ ?_
    · intro hlen _ _
      exact ⟨by simpa using hlen, rfl⟩
    · intro _ _ _ hg
      simp at hg
    · intro b _ _ _ hr
      simp at hr
    · intro b hlen hs hrm hr hg
      have hl := remove_length c b hrm
      have := ih _ (pos + 4 * K) (by
        show (remove_from_page_repl c b).cache.page_repl.array.length ≤ rounds
        omega) hr hg
      refine ⟨this.1, ?_⟩
      rw [this.2]
      exact remove_threshold c b

theorem loop_unchanged (K : Nat) (rng : Nat → Nat) (target rounds : Nat) (c : mc_cache_t)
    (pos : Nat) (h : ∀ p ∈ c.page_repl.array, (c.heap p).safe_to_unload = false) :
    (make_space_loop K rng target rounds c pos).cache = c ∧
    (make_space_loop K rng target rounds c pos).rassert_failed = false ∧
    (make_space_loop K rng target rounds c pos).evicted = [] := by
  cases rounds with
  | zero => exact ⟨rfl, rfl, rfl⟩
  | succ rounds =>
    refine loop_cases K rng target rounds c pos
      (fun r => r.cache = c ∧ r.rassert_failed = false ∧ r.evicted = []) ?_ ?_ ?_ ?_
    · intro _
      exact ⟨rfl, rfl, rfl⟩
    · intro _ _
      exact ⟨rfl, rfl, rfl⟩
    · intro b hlen hs _
      obtain ⟨h1, h2, -, -⟩ := (sample_round_spec rng c K pos none (by simp)).1 b hs
      rcases h1 with h1 | h1
      · simp at h1
      · have := h b (sampled_mem rng c K pos (by omega) b h1)
        rw [h2] at this
        simp at this
    · intro b hlen hs _
      obtain ⟨h1, h2, -, -⟩ := (sample_round_spec rng c K pos none (by simp)).1 b hs
      rcases h1 with h1 | h1
      · simp at h1
      · have := h b (sampled_mem rng c K pos (by omega) b h1)
        rw [h2] at this
        simp at this

theorem loop_all_safe (K : Nat) (rng : Nat → Nat) (target rounds : Nat) (c : mc_cache_t)
    (pos : Nat) (h : all_safe c) :
    all_safe (make_space_loop K rng target rounds c pos).cache := by
  induction rounds generalizing c pos with
  | zero => exact h
  | succ rounds ih =>
    refine loop_cases K rng target rounds c pos (fun r => all_safe r.cache) ?_ ?_ ?_ ?_
    · intro _; exact h
    · intro _ _; exact h
    · intro b _ _ _ p hp
      rw [remove_safe]
      exact h p (remove_subset c b p hp)
    · intro b _ _ _
      refine ih _ (pos + 4 * K) ?_
      intro p hp
      refine unload_safe _ b p ?_
      rw [remove_safe]
      exact h p (remove_subset c b p hp)

theorem swap_pop_getD (A : List Nat) (i r x j : Nat) (hj : j < A.length - 1) :
    (((A.set i r).set (A.length - 1) x).dropLast).getD j 0 =
      if i = j then r else A.getD j 0 := by
  have hj2 : j < A.length := by omega
  have hne : A.length - 1 ≠ j := by omega
  simp only [List.getD_eq_getElem?_getD, List.dropLast_eq_take, List.length_set,
    List.getElem?_take, hj, if_true, List.getElem?_set, hne, if_false]
  by_cases h : i = j
  · have hi : i < A.length := by omega
    simp [h, hj2]
  · simp [h]

theorem swap_pop_length (A : List Nat) (i r x : Nat) :
    (((A.set i r).set (A.length - 1) x).dropLast).length = A.length - 1 := by
  simp

theorem mem_iff_getD (A : List Nat) (p : Nat) :
    p ∈ A ↔ ∃ k, k < A.length ∧ A.getD k 0 = p := by
  rw [List.mem_iff_getElem]
  constructor
  · rintro ⟨k, hk, h⟩
    exact ⟨k, hk, by rw [List.getD_eq_getElem _ _ hk]; exact h⟩
  · rintro ⟨k, hk, h⟩
    exact ⟨k, hk, by rw [List.getD_eq_getElem _ _ hk] at h; exact h⟩

theorem getLast?_getD (A : List Nat) (h : 0 < A.length) :
    A.getLast? = some (A.getD (A.length - 1) 0) := by
  rw [List.getLast?_eq_getElem?, List.getD_eq_getElem?_getD]
  have : A.length - 1 < A.length := by omega
  simp [this]

theorem remove_eval (c : mc_cache_t) (b : Nat)
    (hlt : (c.heap b).page_repl_index < c.page_repl.array.length) :
    remove_from_page_repl c b =
      { rassert_failed := false,
        cache := { c with
          heap := Function.update
            (Function.update c.heap (c.page_repl.array.getD (c.page_repl.array.length - 1) 0)
              { c.heap (c.page_repl.array.getD (c.page_repl.array.length - 1) 0) with
                page_repl_index := (c.heap b).page_repl_index }) b
            { (Function.update c.heap
                (c.page_repl.array.getD (c.page_repl.array.length - 1) 0)
                { c.heap (c.page_repl.array.getD (c.page_repl.array.length - 1) 0) with
                  page_repl_index := (c.heap b).page_repl_index }) b with
              page_repl_index := SIZE_MAX }
          page_repl := { c.page_repl with
            array := ((c.page_repl.array.set (c.heap b).page_repl_index
                (c.page_repl.array.getD (c.page_repl.array.length - 1) 0)).set
              (c.page_repl.array.length - 1)
              (c.page_repl.array.getD (c.heap b).page_repl_index
                (c.page_repl.array.getD (c.page_repl.array.length - 1) 0))).dropLast } } } := by
  unfold remove_from_page_repl
  simp only [hlt, if_true, getLast?_getD _ (Nat.lt_of_le_of_lt (Nat.zero_le _) hlt)]

theorem remove_coherent (c : mc_cache_t) (b : Nat) (hco : index_coherent c)
    (hb : b ∈ c.page_repl.array) :
    (remove_from_page_repl c b).rassert_failed = false ∧
    index_coherent (remove_from_page_repl c b).cache ∧
    b ∉ (remove_from_page_repl c b).cache.page_repl.array ∧
    (∀ p ∈ c.page_repl.array, p ≠ b →
      p ∈ (remove_from_page_repl c b).cache.page_repl.array) := by
  obtain ⟨i, hi, hib⟩ := (mem_iff_getD _ b).mp hb
  have hidx : (c.heap b).page_repl_index = i := by
    have := hco i hi
    rw [hib] at this
    exact this
  have hlt : (c.heap b).page_repl_index < c.page_repl.array.length := by
    rw [hidx]; exact hi
  rw [remove_eval c b hlt]
  simp only [hidx]
  have hco2 : ∀ j, j < c.page_repl.array.length →
      (c.heap (c.page_repl.array.getD j 0)).page_repl_index = j := hco
  generalize hA : c.page_repl.array = A at hi hib hco2 hb ⊢
  generalize hr : A.getD (A.length - 1) 0 = r
  have hrb : r = b → i = A.length - 1 := by
    intro he
    have := hco2 (A.length - 1) (by omega)
    rw [hr, he, hidx] at this
    exact this
  -- a position of the old array other than `i` does not hold `b`
  have hnb : ∀ j, j < A.length → j ≠ i → A.getD j 0 ≠ b := by
    intro j hj hne he
    have := hco2 j hj
    rw [he, hidx] at this
    exact hne this.symm
  have hnr : ∀ j, j < A.length - 1 → A.getD j 0 ≠ r := by
    intro j hj he
    have h1 := hco2 j (by omega)
    have h2 := hco2 (A.length - 1) (by omega)
    rw [he] at h1
    rw [hr, h1] at h2
    omega
  refine ⟨trivial, ?_, ?_, ?_⟩
  · intro j hj
    dsimp only at hj ⊢
    simp only [swap_pop_length] at hj
    rw [swap_pop_getD A i r _ j hj]
    by_cases hij : i = j
    · rw [if_pos hij]
      have hrb2 : r ≠ b := fun he => by have := hrb he; omega
      simp [Function.update_apply, hrb2, hij]
    · rw [if_neg hij]
      have h1 := hnb j (by omega) (fun h => hij h.symm)
      have h2 := hnr j hj
      simp only [Function.update_apply, h1, h2, if_false]
      exact hco2 j (by omega)
  · rw [mem_iff_getD]
    rintro ⟨j, hj, he⟩
    simp only [swap_pop_length] at hj
    simp only [swap_pop_getD A i r _ j hj] at he
    by_cases hij : i = j
    · simp only [hij, if_true] at he
      have := hrb he
      omega
    · simp only [hij, if_false] at he
      exact hnb j (by omega) (fun h => hij h.symm) he
  · intro p hp hpb
    obtain ⟨k, hk, hkp⟩ := (mem_iff_getD _ p).mp hp
    have hki : k ≠ i := by
      intro he
      rw [he, hib] at hkp
      exact hpb hkp.symm
    rw [mem_iff_getD]
    by_cases hk2 : k < A.length - 1
    · refine ⟨k, by simp only [swap_pop_length]; exact hk2, ?_⟩
      dsimp only
      rw [swap_pop_getD A i r _ k hk2, if_neg (fun h => hki h.symm)]
      exact hkp
    · have hkl : k = A.length - 1 := by omega
      have hil : i < A.length - 1 := by omega
      refine ⟨i, by simp only [swap_pop_length]; exact hil, ?_⟩
      rw [swap_pop_getD A i r _ i hil, if_pos rfl, ← hr, ← hkl]
      exact hkp

theorem unload_coherent (c : mc_cache_t) (b : Nat) (h : index_coherent c) :
    index_coherent
      { unload c b with pm_n_blocks_evicted := (unload c b).pm_n_blocks_evicted + 1 } := by
  intro j hj
  have := h j hj
  show ((unload c b).heap (c.page_repl.array.getD j 0)).page_repl_index = j
  unfold unload
  simp only [Function.update_apply]
  split_ifs with he
  · rw [he] at this
    exact this
  · exact this

/-- C4. When `make_space` returns and no sampling round failed to find a candidate, the array
holds at most `max(0, unload_threshold - space_needed)` pages, hence at most `unload_threshold`,
whatever the evictor state, `space_needed` and the random draws. -/
theorem make_space_reaches_target (PAGE_REPL_NUM_TRIES : Nat) (rng : Nat → Nat) (pos : Nat)
    (c : mc_cache_t) (space_needed : Nat)
    (hr : (make_space PAGE_REPL_NUM_TRIES rng pos c space_needed).rassert_failed = false)
    (hg : (make_space PAGE_REPL_NUM_TRIES rng pos c space_needed).gave_up = false) :
    (((make_space PAGE_REPL_NUM_TRIES rng pos c space_needed).cache.page_repl.array.length :
        Nat) : Int) ≤ max 0 ((c.page_repl.unload_threshold : Int) - (space_needed : Int)) ∧
    (make_space PAGE_REPL_NUM_TRIES rng pos c space_needed).cache.page_repl.array.length ≤
      c.page_repl.unload_threshold := by
  unfold make_space at hr hg ⊢
  simp only at hr hg ⊢
  have h := (loop_size PAGE_REPL_NUM_TRIES rng _ _ c pos (le_refl _) hr hg).1
  split_ifs at h ⊢ with hs
  · omega
  · omega

theorem make_space_reaches_target_witness :
    (make_space 10 (fun n => n * 7919 + n * n) 0 (three_clean_pages 2) 1).rassert_failed
      = false ∧
    (make_space 10 (fun n => n * 7919 + n * n) 0 (three_clean_pages 2) 1).gave_up = false ∧
    (make_space 10 (fun n => n * 7919 + n * n) 0
      (three_clean_pages 2) 1).cache.page_repl.array.length ≤ 2 :=
  ⟨by decide, by decide,
   (make_space_reaches_target 10 (fun n => n * 7919 + n * n) 0 (three_clean_pages 2) 1
      (by decide) (by decide)).2⟩

/-- C6. One sampling round of `make_space` looks at `PAGE_REPL_NUM_TRIES` pages; the page it
chooses is one of them, is safe to unload and has an eviction priority at least that of every
sampled page that is safe to unload; it chooses no page exactly when no sampled page is safe to
unload; and the round of `make_space` evicts the chosen page, or leaves the loop when there is
none. -/
theorem sample_round_picks_best (PAGE_REPL_NUM_TRIES : Nat) (rng : Nat → Nat) (c : mc_cache_t)
    (pos : Nat) :
    (sampled rng c PAGE_REPL_NUM_TRIES pos).length = PAGE_REPL_NUM_TRIES ∧
    (∀ b, sample_round rng c PAGE_REPL_NUM_TRIES pos none = some b →
      b ∈ sampled rng c PAGE_REPL_NUM_TRIES pos ∧
      (c.heap b).safe_to_unload = true ∧
      ∀ p ∈ sampled rng c PAGE_REPL_NUM_TRIES pos, (c.heap p).safe_to_unload = true →
        (c.heap p).eviction_priority ≤ (c.heap b).eviction_priority) ∧
    (sample_round rng c PAGE_REPL_NUM_TRIES pos none = none ↔
      ∀ p ∈ sampled rng c PAGE_REPL_NUM_TRIES pos, (c.heap p).safe_to_unload = false) ∧
    (∀ target rounds, c.page_repl.array.length > target →
      (sample_round rng c PAGE_REPL_NUM_TRIES pos none = none →
        (make_space_loop PAGE_REPL_NUM_TRIES rng target (rounds + 1) c pos).gave_up = true ∧
        (make_space_loop PAGE_REPL_NUM_TRIES rng target (rounds + 1) c pos).evicted = [] ∧
        (make_space_loop PAGE_REPL_NUM_TRIES rng target (rounds + 1) c pos).cache = c) ∧
      (∀ b, sample_round rng c PAGE_REPL_NUM_TRIES pos none = some b →
        (remove_from_page_repl c b).rassert_failed = false →
        (make_space_loop PAGE_REPL_NUM_TRIES rng target (rounds + 1) c pos).evicted.head?
          = some b)) := by
  obtain ⟨h1, h2⟩ := sample_round_spec rng c PAGE_REPL_NUM_TRIES pos none (by simp)
  refine ⟨sampled_length _ _ _ _, ?_, ⟨fun h => (h2 h).2, ?_⟩, ?_⟩
  · intro b hb
    obtain ⟨k1, k2, -, k4⟩ := h1 b hb
    rcases k1 with k1 | k1
    · simp at k1
    · exact ⟨k1, k2, k4⟩
  · intro h
    cases hs : sample_round rng c PAGE_REPL_NUM_TRIES pos none with
    | none => rfl
    | some b =>
      obtain ⟨k1, k2, -, -⟩ := h1 b hs
      rcases k1 with k1 | k1
      · simp at k1
      · rw [h b k1] at k2
        simp at k2
  · intro target rounds hlen
    constructor
    · intro hs
      rw [loop_succ_give_up _ _ _ _ _ _ hlen hs]
      exact ⟨rfl, rfl, rfl⟩
    · intro b hs hrm
      rw [loop_succ_evict _ _ _ _ _ _ _ hlen hs hrm]
      rfl

/-- C7 fails as stated: with one page in the array, `space_needed = 2 ^ 64 - 1` and a
threshold of 0 the sum wraps to 0 and `is_full` answers false, though the array size plus
`space_needed` is greater than the threshold. -/
theorem is_full_wraps :
    ¬ (is_full (evictable_t.construct 0 (empty_cache 0) 0 0 false loader_t.resident true)
          (2 ^ 64 - 1) = true ↔
        (evictable_t.construct 0 (empty_cache 0) 0 0 false
            loader_t.resident true).page_repl.array.length + (2 ^ 64 - 1) >
          (evictable_t.construct 0 (empty_cache 0) 0 0 false
            loader_t.resident true).page_repl.unload_threshold) := by
  decide

/-- C7, amended. `is_full(space_needed)` compares the `size_t` sum, that is the array size plus
`space_needed` modulo `2 ^ 64`, with `unload_threshold`; so whenever the sum does not wrap it
returns true exactly when the array size plus `space_needed` is greater than
`unload_threshold`. -/
theorem is_full_iff_no_wrap (c : mc_cache_t) (space_needed : Nat)
    (h : c.page_repl.array.length + space_needed < 2 ^ 64) :
    (is_full c space_needed = true ↔
      c.page_repl.array.length + space_needed > c.page_repl.unload_threshold) ∧
    (∀ s, is_full c s = true ↔
      (c.page_repl.array.length + s) % 2 ^ 64 > c.page_repl.unload_threshold) := by
  refine ⟨?_, fun s => is_full_iff c s⟩
  rw [is_full_iff, Nat.mod_eq_of_lt h]

theorem is_full_iff_no_wrap_witness :
    (three_clean_pages 3).page_repl.array.length + 1 < 2 ^ 64 ∧
    (is_full (three_clean_pages 3) 1 = true ↔
      (three_clean_pages 3).page_repl.array.length + 1 >
        (three_clean_pages 3).page_repl.unload_threshold) :=
  ⟨by decide, (is_full_iff_no_wrap (three_clean_pages 3) 1 (by decide)).1⟩

theorem insert_all_safe (c : mc_cache_t) (this : Nat) (h : all_safe c) :
    all_safe (insert_into_page_repl c this) ↔ (c.heap this).safe_to_unload = true := by
  unfold all_safe insert_into_page_repl
  simp only [List.mem_append, List.mem_singleton, Function.update_apply]
  constructor
  · intro hs
    simpa [evictable_t.safe_to_unload] using hs this (Or.inr rfl)
  · intro hs p hp
    by_cases he : p = this
    · rw [if_pos he]
      simpa [evictable_t.safe_to_unload] using hs
    · rw [if_neg he]
      rcases hp with hp | hp
      · exact h p hp
      · exact absurd hp he

theorem construct_all_safe (D : Int) (c : mc_cache_t) (this pin_count : Nat) (dirty : Bool)
    (loader : loader_t) (h : all_safe c) (hn : this ∉ c.page_repl.array) :
    (all_safe (evictable_t.construct D c this pin_count dirty loader true) ↔
      (pin_count = 0 ∧ dirty = false ∧ loader ≠ loader_t.in_flight)) ∧
    all_safe (evictable_t.construct D c this pin_count dirty loader false) := by
  have hold : all_safe
      { c with
        heap := Function.update c.heap this
          { eviction_priority := D, page_repl_index := SIZE_MAX,
            pin_count := pin_count, dirty := dirty, loader := loader } } := by
    intro p hp
    have hne : p ≠ this := fun he => hn (he ▸ hp)
    simp only [Function.update_apply, if_neg hne]
    exact h p hp
  constructor
  · unfold evictable_t.construct
    simp only [if_true]
    rw [insert_all_safe _ _ hold]
    simp [evictable_t.safe_to_unload, Function.update_apply]
    tauto
  · unfold evictable_t.construct
    simpa using hold

/-- C8 fails as stated: constructing a pinned evictable with `loaded = true` puts it in the
array, so a reachable state has a page in the array that is not safe to unload. -/
theorem array_holds_pinned_page : ¬ ∀ c, reachable 0 10 c → all_safe c := by
  intro h
  have hr : reachable 0 10
      (evictable_t.construct 0 (empty_cache 0) 0 1 false loader_t.resident true) :=
    reachable.construct _ 0 1 false loader_t.resident true
      (reachable.init _ 0 (fun _ => rfl)) rfl (fun _ => by decide)
  have := h _ hr 0 (by decide)
  revert this
  decide

/-- C8, amended. The array may hold pages that are not safe to unload, because the constructor
(with `loaded = true`) and `insert_into_page_repl` append a page without looking at
`safe_to_unload()`.  What the operations keep: when every page in the array is safe to unload,
this is still so after `remove_from_page_repl`, after `make_space`, after constructing an
evictable with `loaded = false`, and after `insert_into_page_repl` or a construction with
`loaded = true` exactly when the page put in is safe to unload. -/
theorem all_safe_preserved (PAGE_REPL_NUM_TRIES : Nat) (rng : Nat → Nat) (pos : Nat)
    (c : mc_cache_t) (space_needed : Nat) (h : all_safe c) :
    (∀ this, all_safe (remove_from_page_repl c this).cache) ∧
    all_safe (make_space PAGE_REPL_NUM_TRIES rng pos c space_needed).cache ∧
    (∀ this, all_safe (insert_into_page_repl c this) ↔ (c.heap this).safe_to_unload = true) ∧
    (∀ (D : Int) (this pin_count : Nat) (dirty : Bool) (loader : loader_t),
      this ∉ c.page_repl.array →
      (all_safe (evictable_t.construct D c this pin_count dirty loader true) ↔
        (pin_count = 0 ∧ dirty = false ∧ loader ≠ loader_t.in_flight)) ∧
      all_safe (evictable_t.construct D c this pin_count dirty loader false)) := by
  refine ⟨?_, loop_all_safe _ _ _ _ _ _ h, fun this => insert_all_safe c this h,
    fun D this pin_count dirty loader hn =>
      construct_all_safe D c this pin_count dirty loader h hn⟩
  intro this p hp
  rw [remove_safe]
  exact h p (remove_subset c this p hp)

theorem all_safe_preserved_witness :
    all_safe (three_clean_pages 2) ∧
    all_safe (make_space 10 (fun n => n * 7919 + n * n) 0 (three_clean_pages 2) 1).cache :=
  ⟨by unfold all_safe; decide,
   (all_safe_preserved 10 (fun n => n * 7919 + n * n) 0 (three_clean_pages 2) 1
      (by unfold all_safe; decide)).2.1⟩

/-- C9. Memory pressure is soft: when no page of the array is safe to unload, `make_space`
returns normally for every `space_needed` and all draws, evicts nothing and leaves the cache,
so the array and every page's `page_repl_index`, as it was, also when the array is larger than
the target. -/
theorem make_space_soft (PAGE_REPL_NUM_TRIES : Nat) (rng : Nat → Nat) (pos : Nat)
    (c : mc_cache_t) (space_needed : Nat)
    (h : ∀ p ∈ c.page_repl.array, (c.heap p).safe_to_unload = false) :
    (make_space PAGE_REPL_NUM_TRIES rng pos c space_needed).rassert_failed = false ∧
    (make_space PAGE_REPL_NUM_TRIES rng pos c space_needed).evicted = [] ∧
    (make_space PAGE_REPL_NUM_TRIES rng pos c space_needed).cache = c ∧
    (make_space PAGE_REPL_NUM_TRIES rng pos c space_needed).cache.page_repl.array =
      c.page_repl.array ∧
    ∀ p, ((make_space PAGE_REPL_NUM_TRIES rng pos c space_needed).cache.heap p).page_repl_index =
      (c.heap p).page_repl_index := by
  unfold make_space
  obtain ⟨h1, h2, h3⟩ := loop_unchanged PAGE_REPL_NUM_TRIES rng
    (if space_needed > c.page_repl.unload_threshold then 0
      else c.page_repl.unload_threshold - space_needed)
    c.page_repl.array.length c pos h
  refine ⟨h2, h3, h1, by rw [h1], fun p => by rw [h1]⟩

theorem make_space_soft_witness :
    (∀ p ∈ (two_pinned_pages 0).page_repl.array,
      ((two_pinned_pages 0).heap p).safe_to_unload = false) ∧
    (make_space 10 (fun n => n * 7919 + n * n) 0 (two_pinned_pages 0) 1).cache.page_repl.array =
      [0, 1] :=
  ⟨by decide,
   (make_space_soft 10 (fun n => n * 7919 + n * n) 0 (two_pinned_pages 0) 1
      (by decide)).2.2.2.1⟩

theorem coherent_nodup (c : mc_cache_t) (h : index_coherent c) : c.page_repl.array.Nodup := by
  rw [List.nodup_iff_getElem?_ne_getElem?]
  intro i j hij hj he
  have hi : i < c.page_repl.array.length := by omega
  have h1 := h i hi
  have h2 := h j hj
  rw [List.getD_eq_getElem?_getD] at h1 h2
  rw [he, h2] at h1
  omega

theorem inv_mem_iff (c : mc_cache_t) (h : evictor_inv c) (p : Nat) :
    (c.heap p).in_page_repl = true ↔ p ∈ c.page_repl.array := by
  obtain ⟨hco, hs, hl⟩ := h
  constructor
  · intro hp
    by_contra hn
    have := hs p hn
    simp [evictable_t.in_page_repl, this] at hp
  · intro hp
    obtain ⟨i, hi, hip⟩ := (mem_iff_getD _ p).mp hp
    have := hco i hi
    rw [hip] at this
    simp only [evictable_t.in_page_repl, this, bne_iff_ne, ne_eq]
    omega

theorem insert_inv (c : mc_cache_t) (this : Nat) (h : evictor_inv c)
    (hn : (c.heap this).in_page_repl = false) (hb : c.page_repl.array.length < SIZE_MAX) :
    evictor_inv (insert_into_page_repl c this) := by
  have hmem : this ∉ c.page_repl.array := by
    intro hm
    rw [(inv_mem_iff c h this).mpr hm] at hn
    exact absurd hn (by simp)
  obtain ⟨hco, hs, hl⟩ := h
  refine ⟨?_, ?_, ?_⟩
  · intro i hi
    simp only [insert_into_page_repl, List.length_append, List.length_singleton] at hi ⊢
    by_cases hlt : i < c.page_repl.array.length
    · have e : (c.page_repl.array ++ [this]).getD i 0 = c.page_repl.array.getD i 0 := by
        simp [List.getD_eq_getElem?_getD, List.getElem?_append_left hlt]
      rw [e]
      have hne : c.page_repl.array.getD i 0 ≠ this := by
        intro he
        apply hmem
        rw [← he, List.getD_eq_getElem _ _ hlt]
        exact List.getElem_mem _
      rw [Function.update_apply, if_neg hne]
      exact hco i hlt
    · have hi2 : i = c.page_repl.array.length := by omega
      have e : (c.page_repl.array ++ [this]).getD i 0 = this := by
        simp [List.getD_eq_getElem?_getD, hi2]
      rw [e, Function.update_apply, if_pos rfl, hi2]
  · intro p hp
    simp only [insert_into_page_repl, List.mem_append, List.mem_singleton, not_or] at hp ⊢
    rw [Function.update_apply, if_neg hp.2]
    exact hs p hp.1
  · simp only [insert_into_page_repl, List.length_append, List.length_singleton]
    omega

theorem construct_inv (D : Int) (c : mc_cache_t) (this pin_count : Nat) (dirty : Bool)
    (loader : loader_t) (loaded : Bool) (h : evictor_inv c)
    (hn : (c.heap this).in_page_repl = false)
    (hb : loaded = true → c.page_repl.array.length < SIZE_MAX) :
    evictor_inv (evictable_t.construct D c this pin_count dirty loader loaded) := by
  have hmem : this ∉ c.page_repl.array := by
    intro hm
    rw [(inv_mem_iff c h this).mpr hm] at hn
    exact absurd hn (by simp)
  have h1 : evictor_inv
      { c with
        heap := Function.update c.heap this
          { eviction_priority := D, page_repl_index := SIZE_MAX,
            pin_count := pin_count, dirty := dirty, loader := loader } } := by
    obtain ⟨hco, hs, hl⟩ := h
    refine ⟨?_, ?_, hl⟩
    · intro i hi
      dsimp only at hi ⊢
      have hne : c.page_repl.array.getD i 0 ≠ this := by
        intro he
        apply hmem
        rw [← he, List.getD_eq_getElem _ _ hi]
        exact List.getElem_mem _
      rw [Function.update_apply, if_neg hne]
      exact hco i hi
    · intro p hp
      dsimp only at hp ⊢
      rw [Function.update_apply]
      split_ifs with he
      · rfl
      · exact hs p hp
  unfold evictable_t.construct
  cases loaded with
  | false => simpa using h1
  | true =>
    simp only [if_true]
    exact insert_inv _ this h1 (by simp [evictable_t.in_page_repl]) (hb rfl)

theorem remove_inv (c : mc_cache_t) (b : Nat) (h : evictor_inv c)
    (hb : b ∈ c.page_repl.array) :
    evictor_inv (remove_from_page_repl c b).cache := by
  obtain ⟨hco, hs, hl⟩ := h
  obtain ⟨r1, r2, r3, r4⟩ := remove_coherent c b hco hb
  refine ⟨r2, ?_, ?_⟩
  · intro p hp
    obtain ⟨i, hi, hib⟩ := (mem_iff_getD _ b).mp hb
    have hidx : (c.heap b).page_repl_index = i := by
      have := hco i hi
      rw [hib] at this
      exact this
    have hlt : (c.heap b).page_repl_index < c.page_repl.array.length := by
      rw [hidx]; exact hi
    rw [remove_eval c b hlt] at hp ⊢
    dsimp only at hp ⊢
    by_cases hpb : p = b
    · rw [hpb, Function.update_apply, if_pos rfl]
    · have hpn : p ∉ c.page_repl.array := by
        intro hm
        have := r4 p hm hpb
        rw [remove_eval c b hlt] at this
        exact hp this
      have hpr : p ≠ c.page_repl.array.getD (c.page_repl.array.length - 1) 0 := by
        intro he
        apply hpn
        rw [he, List.getD_eq_getElem _ _ (by omega)]
        exact List.getElem_mem _
      rw [Function.update_apply, if_neg hpb, Function.update_apply, if_neg hpr]
      exact hs p hpn
  · rw [remove_length c b r1]
    omega

theorem unload_inv (c : mc_cache_t) (b : Nat) (h : evictor_inv c) :
    evictor_inv
      { unload c b with pm_n_blocks_evicted := (unload c b).pm_n_blocks_evicted + 1 } := by
  obtain ⟨hco, hs, hl⟩ := h
  refine ⟨unload_coherent c b hco, ?_, hl⟩
  intro p hp
  have := hs p hp
  show ((unload c b).heap p).page_repl_index = SIZE_MAX
  unfold unload
  simp only [Function.update_apply]
  split_ifs with he
  · rw [he] at this
    exact this
  · exact this

theorem loop_inv (K : Nat) (rng : Nat → Nat) (target rounds : Nat) (c : mc_cache_t)
    (pos : Nat) (h : evictor_inv c) :
    evictor_inv (make_space_loop K rng target rounds c pos).cache := by
  induction rounds generalizing c pos with
  | zero => exact h
  | succ rounds ih =>
    refine loop_cases K rng target rounds c pos (fun r => evictor_inv r.cache) ?_ ?_ ?_ ?_
    · intro _; exact h
    · intro _ _; exact h
    · intro b hlen hs hrm
      obtain ⟨h1, -, -, -⟩ := (sample_round_spec rng c K pos none (by simp)).1 b hs
      rcases h1 with h1 | h1
      · simp at h1
      · have hb := sampled_mem rng c K pos (by omega) b h1
        exact remove_inv c b h hb
    · intro b hlen hs hrm
      obtain ⟨h1, -, -, -⟩ := (sample_round_spec rng c K pos none (by simp)).1 b hs
      rcases h1 with h1 | h1
      · simp at h1
      · have hb := sampled_mem rng c K pos (by omega) b h1
        exact ih _ (pos + 4 * K) (unload_inv _ b (remove_inv c b h hb))

/-- On a page that is not in the array the `rassert` of `remove_from_page_repl` stops the
call, and nothing is changed. -/
theorem remove_not_in_array (c : mc_cache_t) (this : Nat) (h : evictor_inv c)
    (hm : this ∉ c.page_repl.array) : (remove_from_page_repl c this).cache = c := by
  have hidx := h.2.1 this hm
  have hl := h.2.2
  unfold remove_from_page_repl
  simp only
  rw [if_neg (by rw [hidx]; omega)]

theorem reachable_inv (D : Int) (K : Nat) (c : mc_cache_t) (h : reachable D K c) :
    evictor_inv c := by
  induction h with
  | init heap threshold h0 =>
    refine ⟨?_, ?_, ?_⟩
    · intro i hi
      simp at hi
    · intro p _
      have := h0 p
      simpa [evictable_t.in_page_repl] using this
    · simp
  | construct c this pin dirty loader loaded _ hn hb ih =>
    exact construct_inv D c this pin dirty loader loaded ih hn hb
  | insert c this _ hn hb ih => exact insert_inv c this ih hn hb
  | remove c this _ ih =>
    by_cases hm : this ∈ c.page_repl.array
    · exact remove_inv c this ih hm
    · rw [remove_not_in_array c this ih hm]
      exact ih
  | make_space c rng pos sn _ ih =>
    exact loop_inv K rng _ _ c pos ih

/-- C19 fails as stated: `insert_into_page_repl` has no guard, and two calls on the same page
reach, from the empty array, the array `[0, 0]` with `page_repl_index = 1` for page 0: the page
at position 0 does not have index 0, and page 0 is at two positions. -/
theorem double_insert_breaks_coherence :
    (insert_into_page_repl (insert_into_page_repl (empty_cache 1) 0) 0).page_repl.array
      = [0, 0] ∧
    ((insert_into_page_repl (insert_into_page_repl (empty_cache 1) 0) 0).heap 0).page_repl_index
      = 1 ∧
    ¬ index_coherent (insert_into_page_repl (insert_into_page_repl (empty_cache 1) 0) 0) ∧
    ¬ (insert_into_page_repl (insert_into_page_repl (empty_cache 1) 0)
      0).page_repl.array.Nodup := by
  refine ⟨by decide, by decide, ?_, by decide⟩
  unfold index_coherent
  decide

/-- C19, amended. Index coherence of the evictor array.  In every state reached from an empty
array by constructing evictables, `insert_into_page_repl` of a page that is not in the array
(with fewer than `(size_t)-1` pointers in the array), `remove_from_page_repl` and `make_space`:
the page stored at a position `i` below the array size has `page_repl_index = i`, no page is at
two positions, every page that is not in the array has the sentinel `(size_t)-1` as its
`page_repl_index`, and so `in_page_repl()` is true exactly for the pages in the array. -/
theorem index_coherence_reachable (DEFAULT_EVICTION_PRIORITY : Int) (PAGE_REPL_NUM_TRIES : Nat)
    (c : mc_cache_t) (h : reachable DEFAULT_EVICTION_PRIORITY PAGE_REPL_NUM_TRIES c) :
    (∀ i, i < c.page_repl.array.length →
      (c.heap (c.page_repl.array.getD i 0)).page_repl_index = i) ∧
    c.page_repl.array.Nodup ∧
    (∀ p, p ∉ c.page_repl.array → (c.heap p).page_repl_index = SIZE_MAX) ∧
    (∀ p, (c.heap p).in_page_repl = true ↔ p ∈ c.page_repl.array) :=
  have hinv := reachable_inv DEFAULT_EVICTION_PRIORITY PAGE_REPL_NUM_TRIES c h
  ⟨hinv.1, coherent_nodup c hinv.1, hinv.2.1, inv_mem_iff c hinv⟩

theorem index_coherence_reachable_witness :
    reachable 0 10
      (make_space 10 (fun n => n) 0 (remove_from_page_repl (three_clean_pages 1) 0).cache
        0).cache ∧
    ∀ p, ((make_space 10 (fun n => n) 0 (remove_from_page_repl (three_clean_pages 1) 0).cache
        0).cache.heap p).in_page_repl = true ↔
      p ∈ (make_space 10 (fun n => n) 0 (remove_from_page_repl (three_clean_pages 1) 0).cache
        0).cache.page_repl.array :=
  have h : reachable 0 10
      (make_space 10 (fun n => n) 0 (remove_from_page_repl (three_clean_pages 1) 0).cache
        0).cache :=
    reachable.make_space _ _ 0 0
      (reachable.remove (three_clean_pages 1) 0
        (reachable.construct _ 2 0 false loader_t.resident true
          (reachable.construct _ 1 0 false loader_t.resident true
            (reachable.construct _ 0 0 false loader_t.resident true
              (reachable.init _ 1 (fun _ => rfl)) rfl (fun _ => by decide))
            (by decide) (fun _ => by decide))
          (by decide) (fun _ => by decide))
)
  ⟨h, (index_coherence_reachable 0 10 _ h).2.2.2⟩

/-- C20 fails as stated when `p` is the last page of the array: the array `[0, 1, 2]` is
index coherent and page 2 is its last entry, at position 2; after `remove_from_page_repl` on
page 2 the array is `[0, 1]`, which has no position 2, so the former last page does not occupy
the old position of `p`. -/
theorem remove_last_page_frees_its_position :
    index_coherent (three_clean_pages 1) ∧
    (three_clean_pages 1).page_repl.array = [0, 1, 2] ∧
    (three_clean_pages 1).page_repl.array.getLast? = some 2 ∧
    ((three_clean_pages 1).heap 2).page_repl_index = 2 ∧
    (remove_from_page_repl (three_clean_pages 1) 2).cache.page_repl.array = [0, 1] ∧
    (remove_from_page_repl (three_clean_pages 1) 2).cache.page_repl.array[2]? ≠ some 2 := by
  refine ⟨?_, by decide, by decide, by decide, by decide, by decide⟩
  unfold index_coherent
  decide

/-- C20, amended. For every index-coherent array and every page `p` in it,
`remove_from_page_repl` on `p` passes its `rassert` and leaves an array that is one element
shorter, does not contain `p`, contains every other page of the old array exactly once and no
page that was not in the old array.  If `p` was not the last page, the former last page is now
at the old position of `p`; if `p` was the last page, that position is gone and the array is
the old one without its last entry.  Every other position below the new size holds the page it
held before, and `p.in_page_repl()` is false afterwards. -/
theorem remove_swaps_with_last (c : mc_cache_t) (p : Nat) (hco : index_coherent c)
    (hp : p ∈ c.page_repl.array) :
    (remove_from_page_repl c p).rassert_failed = false ∧
    (remove_from_page_repl c p).cache.page_repl.array.length + 1 = c.page_repl.array.length ∧
    p ∉ (remove_from_page_repl c p).cache.page_repl.array ∧
    (∀ x ∈ c.page_repl.array, x ≠ p →
      (remove_from_page_repl c p).cache.page_repl.array.count x = 1) ∧
    (∀ x ∈ (remove_from_page_repl c p).cache.page_repl.array, x ∈ c.page_repl.array) ∧
    (c.page_repl.array.getD (c.heap p).page_repl_index 0 = p) ∧
    ((c.heap p).page_repl_index < c.page_repl.array.length - 1 →
      (remove_from_page_repl c p).cache.page_repl.array[(c.heap p).page_repl_index]? =
        c.page_repl.array.getLast?) ∧
    ((c.heap p).page_repl_index = c.page_repl.array.length - 1 →
      (remove_from_page_repl c p).cache.page_repl.array = c.page_repl.array.dropLast) ∧
    (∀ j, j < c.page_repl.array.length - 1 → j ≠ (c.heap p).page_repl_index →
      (remove_from_page_repl c p).cache.page_repl.array[j]? = c.page_repl.array[j]?) ∧
    ((remove_from_page_repl c p).cache.heap p).in_page_repl = false := by
  obtain ⟨r1, r2, r3, r4⟩ := remove_coherent c p hco hp
  obtain ⟨i, hi, hip⟩ := (mem_iff_getD _ p).mp hp
  have hidx : (c.heap p).page_repl_index = i := by
    have := hco i hi
    rw [hip] at this
    exact this
  have hlt : (c.heap p).page_repl_index < c.page_repl.array.length := by
    rw [hidx]; exact hi
  have hlen := remove_length c p r1
  have hget : ∀ j, j < c.page_repl.array.length - 1 →
      (remove_from_page_repl c p).cache.page_repl.array[j]? =
        some (if i = j then c.page_repl.array.getD (c.page_repl.array.length - 1) 0
          else c.page_repl.array.getD j 0) := by
    intro j hj
    have hj2 : j < (remove_from_page_repl c p).cache.page_repl.array.length := by
      rw [hlen]; exact hj
    have e := swap_pop_getD c.page_repl.array i
      (c.page_repl.array.getD (c.page_repl.array.length - 1) 0)
      (c.page_repl.array.getD i (c.page_repl.array.getD (c.page_repl.array.length - 1) 0))
      j hj
    rw [← e]
    rw [remove_eval c p hlt] at hj2 ⊢
    dsimp only at hj2 ⊢
    rw [hidx] at hj2 ⊢
    rw [List.getD_eq_getElem _ _ hj2, List.getElem?_eq_getElem hj2]
  refine ⟨r1, by rw [hlen]; omega, r3, ?_, remove_subset c p, by rw [hidx]; exact hip, ?_, ?_,
    ?_, ?_⟩
  · intro x hx hxp
    exact List.count_eq_one_of_mem (coherent_nodup _ r2) (r4 x hx hxp)
  · intro hlast
    rw [hidx] at hlast ⊢
    rw [hget i hlast, if_pos rfl, getLast?_getD _ (by omega)]
  · intro hlast
    rw [hidx] at hlast
    apply List.ext_getElem?
    intro j
    by_cases hj : j < c.page_repl.array.length - 1
    · rw [hget j hj, if_neg (by omega), List.dropLast_eq_take, List.getElem?_take, if_pos hj,
        List.getD_eq_getElem _ _ (by omega), List.getElem?_eq_getElem (by omega)]
    · rw [List.getElem?_eq_none (by rw [hlen]; omega),
        List.getElem?_eq_none (by rw [List.length_dropLast]; omega)]
  · intro j hj hne
    rw [hidx] at hne
    rw [hget j hj, if_neg (fun h => hne h.symm), List.getD_eq_getElem _ _ (by omega),
      List.getElem?_eq_getElem (by omega)]
  · rw [remove_eval c p hlt]
    simp [evictable_t.in_page_repl]

theorem remove_swaps_with_last_witness :
    index_coherent (three_clean_pages 1) ∧ 0 ∈ (three_clean_pages 1).page_repl.array ∧
    (remove_from_page_repl (three_clean_pages 1) 0).cache.page_repl.array[
        ((three_clean_pages 1).heap 0).page_repl_index]? =
      (three_clean_pages 1).page_repl.array.getLast? :=
  ⟨by unfold index_coherent; decide, by decide,
   (remove_swaps_with_last (three_clean_pages 1) 0 (by unfold index_coherent; decide)
      (by decide)).2.2.2.2.2.2.1 (by decide)⟩

theorem remove_failed_cache (c : mc_cache_t) (this : Nat)
    (h : (remove_from_page_repl c this).rassert_failed = true) :
    (remove_from_page_repl c this).cache = c := by
  revert h
  unfold remove_from_page_repl
  simp only
  split_ifs
  · split
    · intro _; rfl
    · intro h; simp at h
  · intro _; rfl

theorem remove_counter (c : mc_cache_t) (this : Nat) :
    (remove_from_page_repl c this).cache.pm_n_blocks_evicted = c.pm_n_blocks_evicted := by
  unfold remove_from_page_repl
  simp only
  split_ifs
  · split <;> rfl
  · rfl

/-- The loop does not need more rounds than the array has pages: more rounds give the same
result. -/
theorem loop_fuel (K : Nat) (rng : Nat → Nat) (target : Nat) :
    ∀ (rounds : Nat) (c : mc_cache_t) (pos : Nat), c.page_repl.array.length ≤ rounds →
      ∀ extra, make_space_loop K rng target (rounds + extra) c pos =
        make_space_loop K rng target rounds c pos := by
  intro rounds
  induction rounds with
  | zero =>
    intro c pos hlen extra
    cases extra with
    | zero => rfl
    | succ e =>
      have h0 : ¬ c.page_repl.array.length > target := by omega
      rw [Nat.zero_add, loop_succ_done K rng target e c pos h0]
      rfl
  | succ rounds ih =>
    intro c pos hlen extra
    have e1 : rounds + 1 + extra = (rounds + extra) + 1 := by omega
    rw [e1]
    refine loop_cases K rng target (rounds + extra) c pos
      (fun r => r = make_space_loop K rng target (rounds + 1) c pos) ?_ ?_ ?_ ?_
    · intro h
      rw [loop_succ_done K rng target rounds c pos h]
    · intro h hs
      rw [loop_succ_give_up K rng target rounds c pos h hs]
    · intro b h hs hr
      rw [loop_succ_rassert K rng target rounds c pos b h hs hr]
    · intro b h hs hr
      rw [loop_succ_evict K rng target rounds c pos b h hs hr]
      have hl := remove_length c b hr
      rw [ih _ (pos + 4 * K) (by
        show (remove_from_page_repl c b).cache.page_repl.array.length ≤ rounds
        omega) extra]

/-- What the loop does to the array and to the eviction counter. -/
theorem loop_counts (K : Nat) (rng : Nat → Nat) (target : Nat) :
    ∀ (rounds : Nat) (c : mc_cache_t) (pos : Nat),
      (make_space_loop K rng target rounds c pos).cache.page_repl.array.length +
          (make_space_loop K rng target rounds c pos).evicted.length =
        c.page_repl.array.length ∧
      (make_space_loop K rng target rounds c pos).cache.pm_n_blocks_evicted =
        c.pm_n_blocks_evicted + (make_space_loop K rng target rounds c pos).evicted.length ∧
      (make_space_loop K rng target rounds c pos).evicted.length ≤
        c.page_repl.array.length - target ∧
      (c.page_repl.array.length ≤ target →
        (make_space_loop K rng target rounds c pos).evicted = [] ∧
        (make_space_loop K rng target rounds c pos).cache = c) := by
  intro rounds
  induction rounds with
  | zero =>
    intro c pos
    exact ⟨rfl, rfl, Nat.zero_le _, fun _ => ⟨rfl, rfl⟩⟩
  | succ rounds ih =>
    intro c pos
    refine loop_cases K rng target rounds c pos
      (fun r => r.cache.page_repl.array.length + r.evicted.length = c.page_repl.array.length ∧
        r.cache.pm_n_blocks_evicted = c.pm_n_blocks_evicted + r.evicted.length ∧
        r.evicted.length ≤ c.page_repl.array.length - target ∧
        (c.page_repl.array.length ≤ target → r.evicted = [] ∧ r.cache = c)) ?_ ?_ ?_ ?_
    · intro _
      exact ⟨rfl, rfl, Nat.zero_le _, fun _ => ⟨rfl, rfl⟩⟩
    · intro _ _
      exact ⟨rfl, rfl, Nat.zero_le _, fun _ => ⟨rfl, rfl⟩⟩
    · intro b h hs hr
      have hc := remove_failed_cache c b hr
      dsimp only
      rw [hc]
      exact ⟨rfl, rfl, Nat.zero_le _, fun _ => ⟨rfl, rfl⟩⟩
    · intro b h hs hr
      have hl := remove_length c b hr
      have hcnt := remove_counter c b
      have key : ∀ c3 : mc_cache_t,
          c3.page_repl.array.length = c.page_repl.array.length - 1 →
          c3.pm_n_blocks_evicted = c.pm_n_blocks_evicted + 1 →
          (make_space_loop K rng target rounds c3 (pos + 4 * K)).cache.page_repl.array.length +
              (b :: (make_space_loop K rng target rounds c3 (pos + 4 * K)).evicted).length =
            c.page_repl.array.length ∧
          (make_space_loop K rng target rounds c3 (pos + 4 * K)).cache.pm_n_blocks_evicted =
            c.pm_n_blocks_evicted +
              (b :: (make_space_loop K rng target rounds c3 (pos + 4 * K)).evicted).length ∧
          (b :: (make_space_loop K rng target rounds c3 (pos + 4 * K)).evicted).length ≤
            c.page_repl.array.length - target ∧
          (c.page_repl.array.length ≤ target →
            b :: (make_space_loop K rng target rounds c3 (pos + 4 * K)).evicted = [] ∧
            (make_space_loop K rng target rounds c3 (pos + 4 * K)).cache = c) := by
        intro c3 h1 h2
        obtain ⟨i1, i2, i3, -⟩ := ih c3 (pos + 4 * K)
        rw [h1] at i1 i3
        rw [h2] at i2
        simp only [List.length_cons]
        refine ⟨by omega, by omega, by omega, ?_⟩
        intro hle
        omega
      exact key _ hl (by
        show (remove_from_page_repl c b).cache.pm_n_blocks_evicted + 1 = _
        rw [hcnt])

/-- C21. `insert_into_page_repl` on a page `p` appends `p` at the end of the array: the array
grows by exactly one, the `page_repl_index` of `p` is the previous array size,
`p.in_page_repl()` is true afterwards (the array size being a `size_t` below the sentinel
`(size_t)-1`), and every position of the old array holds the page it held and every other page
is as it was.  A newly constructed evictable has `eviction_priority`
`DEFAULT_EVICTION_PRIORITY`, and it is in the array (and `in_page_repl()` is true) if and only
if it was constructed with `loaded = true`. -/
theorem insert_appends (c : mc_cache_t) (p : Nat)
    (hlen : c.page_repl.array.length < SIZE_MAX) :
    (insert_into_page_repl c p).page_repl.array = c.page_repl.array ++ [p] ∧
    (insert_into_page_repl c p).page_repl.array.length = c.page_repl.array.length + 1 ∧
    ((insert_into_page_repl c p).heap p).page_repl_index = c.page_repl.array.length ∧
    ((insert_into_page_repl c p).heap p).in_page_repl = true ∧
    (∀ i, i < c.page_repl.array.length →
      (insert_into_page_repl c p).page_repl.array[i]? = c.page_repl.array[i]?) ∧
    (∀ x, x ≠ p → (insert_into_page_repl c p).heap x = c.heap x) ∧
    (∀ (D : Int) (this pin_count : Nat) (dirty : Bool) (loader : loader_t) (loaded : Bool),
      ((evictable_t.construct D c this pin_count dirty loader loaded).heap
        this).eviction_priority = D ∧
      (((evictable_t.construct D c this pin_count dirty loader loaded).heap
        this).in_page_repl = true ↔ loaded = true) ∧
      (this ∉ c.page_repl.array →
        (this ∈ (evictable_t.construct D c this pin_count dirty loader loaded).page_repl.array ↔
          loaded = true)) ∧
      ∀ x, x ≠ this →
        (evictable_t.construct D c this pin_count dirty loader loaded).heap x = c.heap x) := by
  have hne : c.page_repl.array.length ≠ SIZE_MAX := by omega
  refine ⟨rfl, by simp [insert_into_page_repl], by simp [insert_into_page_repl], ?_, ?_, ?_, ?_⟩
  · simp [insert_into_page_repl, evictable_t.in_page_repl, hne]
  · intro i hi
    simp only [insert_into_page_repl]
    rw [List.getElem?_append_left hi]
  · intro x hx
    simp [insert_into_page_repl, Function.update_apply, hx]
  · intro D this pin_count dirty loader loaded
    cases loaded with
    | false =>
      refine ⟨by simp [evictable_t.construct], ?_, ?_, ?_⟩
      · simp [evictable_t.construct, evictable_t.in_page_repl]
      · intro hn
        simp [evictable_t.construct, hn]
      · intro x hx
        simp [evictable_t.construct, Function.update_apply, hx]
    | true =>
      refine ⟨by simp [evictable_t.construct, insert_into_page_repl], ?_, ?_, ?_⟩
      · simp [evictable_t.construct, insert_into_page_repl, evictable_t.in_page_repl, hne]
      · intro _
        simp [evictable_t.construct, insert_into_page_repl]
      · intro x hx
        simp [evictable_t.construct, insert_into_page_repl, Function.update_apply, hx]

theorem insert_appends_witness :
    (three_clean_pages 1).page_repl.array.length < SIZE_MAX ∧
    (insert_into_page_repl (three_clean_pages 1) 7).page_repl.array = [0, 1, 2, 7] ∧
    ((insert_into_page_repl (three_clean_pages 1) 7).heap 7).page_repl_index = 3 :=
  ⟨by decide, (insert_appends (three_clean_pages 1) 7 (by decide)).1,
   (insert_appends (three_clean_pages 1) 7 (by decide)).2.2.1⟩

/-- C27. `make_space` terminates: the loop, run with as many rounds as the array has pages,
gives the same result with any number of further rounds, for every evictor state, every
`space_needed` and every random stream.  Each round either stops the loop, leaving the cache
of that round, or takes exactly one page off the array, adds one to the eviction counter and
goes on.  So `make_space` evicts at most `size - target` pages, where `target` is
`max(0, unload_threshold - space_needed)`, evicts nothing and changes nothing when the size is
at most `target`, leaves an array that is shorter by one page per evicted page, and an
eviction counter that is higher by one per evicted page. -/
theorem make_space_terminates (PAGE_REPL_NUM_TRIES : Nat) (rng : Nat → Nat) (pos : Nat)
    (c : mc_cache_t) (space_needed : Nat) :
    (∀ extra, make_space_loop PAGE_REPL_NUM_TRIES rng
        (if space_needed > c.page_repl.unload_threshold then 0
          else c.page_repl.unload_threshold - space_needed)
        (c.page_repl.array.length + extra) c pos =
      make_space PAGE_REPL_NUM_TRIES rng pos c space_needed) ∧
    (∀ (target rounds : Nat) (c1 : mc_cache_t) (pos1 : Nat),
      ((make_space_loop PAGE_REPL_NUM_TRIES rng target (rounds + 1) c1 pos1).evicted = [] ∧
        (make_space_loop PAGE_REPL_NUM_TRIES rng target (rounds + 1) c1 pos1).cache = c1) ∨
      ∃ b c3, c3.page_repl.array.length + 1 = c1.page_repl.array.length ∧
        c3.pm_n_blocks_evicted = c1.pm_n_blocks_evicted + 1 ∧
        make_space_loop PAGE_REPL_NUM_TRIES rng target (rounds + 1) c1 pos1 =
          { make_space_loop PAGE_REPL_NUM_TRIES rng target rounds c3
              (pos1 + 4 * PAGE_REPL_NUM_TRIES) with
            evicted := b :: (make_space_loop PAGE_REPL_NUM_TRIES rng target rounds c3
              (pos1 + 4 * PAGE_REPL_NUM_TRIES)).evicted }) ∧
    (make_space PAGE_REPL_NUM_TRIES rng pos c space_needed).evicted.length ≤
      c.page_repl.array.length -
        (if space_needed > c.page_repl.unload_threshold then 0
          else c.page_repl.unload_threshold - space_needed) ∧
    (c.page_repl.array.length ≤
        (if space_needed > c.page_repl.unload_threshold then 0
          else c.page_repl.unload_threshold - space_needed) →
      (make_space PAGE_REPL_NUM_TRIES rng pos c space_needed).evicted = [] ∧
      (make_space PAGE_REPL_NUM_TRIES rng pos c space_needed).cache = c) ∧
    (make_space PAGE_REPL_NUM_TRIES rng pos c space_needed).cache.page_repl.array.length +
        (make_space PAGE_REPL_NUM_TRIES rng pos c space_needed).evicted.length =
      c.page_repl.array.length ∧
    (make_space PAGE_REPL_NUM_TRIES rng pos c space_needed).cache.page_repl.array.length ≤
      c.page_repl.array.length ∧
    (make_space PAGE_REPL_NUM_TRIES rng pos c space_needed).cache.pm_n_blocks_evicted =
      c.pm_n_blocks_evicted +
        (make_space PAGE_REPL_NUM_TRIES rng pos c space_needed).evicted.length := by
  obtain ⟨k1, k2, k3, k4⟩ := loop_counts PAGE_REPL_NUM_TRIES rng
    (if space_needed > c.page_repl.unload_threshold then 0
      else c.page_repl.unload_threshold - space_needed) c.page_repl.array.length c pos
  refine ⟨?_, ?_, k3, k4, k1, ?_, k2⟩
  · intro extra
    exact loop_fuel PAGE_REPL_NUM_TRIES rng _ c.page_repl.array.length c pos (Nat.le_refl _) extra
  · intro target rounds c1 pos1
    refine loop_cases PAGE_REPL_NUM_TRIES rng target rounds c1 pos1
      (fun r => (r.evicted = [] ∧ r.cache = c1) ∨
        ∃ b c3, c3.page_repl.array.length + 1 = c1.page_repl.array.length ∧
          c3.pm_n_blocks_evicted = c1.pm_n_blocks_evicted + 1 ∧
          r = { make_space_loop PAGE_REPL_NUM_TRIES rng target rounds c3
                (pos1 + 4 * PAGE_REPL_NUM_TRIES) with
              evicted := b :: (make_space_loop PAGE_REPL_NUM_TRIES rng target rounds c3
                (pos1 + 4 * PAGE_REPL_NUM_TRIES)).evicted }) ?_ ?_ ?_ ?_
    · intro _; exact Or.inl ⟨rfl, rfl⟩
    · intro _ _; exact Or.inl ⟨rfl, rfl⟩
    · intro b _ _ hr
      exact Or.inl ⟨rfl, remove_failed_cache c1 b hr⟩
    · intro b hlen _ hr
      refine Or.inr ⟨b, _, ?_, ?_, rfl⟩
      · show (remove_from_page_repl c1 b).cache.page_repl.array.length + 1 = _
        rw [remove_length c1 b hr]
        omega
      · show (remove_from_page_repl c1 b).cache.pm_n_blocks_evicted + 1 = _
        rw [remove_counter]
  · have : (make_space PAGE_REPL_NUM_TRIES rng pos c space_needed).cache.page_repl.array.length +
        (make_space PAGE_REPL_NUM_TRIES rng pos c space_needed).evicted.length =
        c.page_repl.array.length := k1
    omega

/-- C28. For `n ≥ 1`, with the four draws of `randint(0x10000)`, each in `[0, 0x10000)`: none of
the three steps of `randsize(n)` overflows the 64-bit accumulator, so the result is the number
the four draws spell in base `0x10000`, modulo `n`, and it is below `n`.  `make_space` draws
only while the array size is above `target`, hence at least 1: then every index `randsize`
returns names an entry of the array, and otherwise the loop ends without a draw. -/
theorem randsize_in_bounds (rng : Nat → Nat) (pos n : Nat) (hn : 1 ≤ n) :
    randint rng pos 0x10000 < 0x10000 ∧ randint rng (pos + 1) 0x10000 < 0x10000 ∧
    randint rng (pos + 2) 0x10000 < 0x10000 ∧ randint rng (pos + 3) 0x10000 < 0x10000 ∧
    randint rng pos 0x10000 * 0x10000 + randint rng (pos + 1) 0x10000 < 2 ^ 64 ∧
    (randint rng pos 0x10000 * 0x10000 + randint rng (pos + 1) 0x10000) * 0x10000 +
      randint rng (pos + 2) 0x10000 < 2 ^ 64 ∧
    ((randint rng pos 0x10000 * 0x10000 + randint rng (pos + 1) 0x10000) * 0x10000 +
      randint rng (pos + 2) 0x10000) * 0x10000 + randint rng (pos + 3) 0x10000 < 2 ^ 64 ∧
    randsize rng pos n =
      (((randint rng pos 0x10000 * 0x10000 + randint rng (pos + 1) 0x10000) * 0x10000 +
        randint rng (pos + 2) 0x10000) * 0x10000 + randint rng (pos + 3) 0x10000) % n ∧
    randsize rng pos n < n ∧
    (∀ (K target rounds : Nat) (c : mc_cache_t) (p : Nat),
      (c.page_repl.array.length > target →
        1 ≤ c.page_repl.array.length ∧
        ∀ q, ∃ x, c.page_repl.array[randsize rng q c.page_repl.array.length]? = some x) ∧
      (¬ c.page_repl.array.length > target →
        (make_space_loop K rng target (rounds + 1) c p).pos = p ∧
        (make_space_loop K rng target (rounds + 1) c p).evicted = [])) := by
  have d0 : randint rng pos 0x10000 < 0x10000 := Nat.mod_lt _ (by norm_num)
  have d1 : randint rng (pos + 1) 0x10000 < 0x10000 := Nat.mod_lt _ (by norm_num)
  have d2 : randint rng (pos + 2) 0x10000 < 0x10000 := Nat.mod_lt _ (by norm_num)
  have d3 : randint rng (pos + 3) 0x10000 < 0x10000 := Nat.mod_lt _ (by norm_num)
  have s1 : randint rng pos 0x10000 * 0x10000 + randint rng (pos + 1) 0x10000 < 2 ^ 64 := by
    omega
  have s2 : (randint rng pos 0x10000 * 0x10000 + randint rng (pos + 1) 0x10000) * 0x10000 +
      randint rng (pos + 2) 0x10000 < 2 ^ 64 := by omega
  have s3 : ((randint rng pos 0x10000 * 0x10000 + randint rng (pos + 1) 0x10000) * 0x10000 +
      randint rng (pos + 2) 0x10000) * 0x10000 + randint rng (pos + 3) 0x10000 < 2 ^ 64 := by
    omega
  refine ⟨d0, d1, d2, d3, s1, s2, s3, ?_, randsize_lt rng pos n (by omega), ?_⟩
  · unfold randsize
    simp only
    rw [Nat.mod_eq_of_lt s1, Nat.mod_eq_of_lt s2, Nat.mod_eq_of_lt s3]
  · intro K target rounds c p
    refine ⟨?_, ?_⟩
    · intro hlen
      refine ⟨by omega, ?_⟩
      intro q
      have := randsize_lt rng q c.page_repl.array.length (by omega)
      exact ⟨_, List.getElem?_eq_getElem this⟩
    · intro hlen
      rw [loop_succ_done K rng target rounds c p hlen]
      exact ⟨rfl, rfl⟩

theorem randsize_in_bounds_witness :
    1 ≤ 3 ∧ randsize (fun k => 65535 + k) 0 3 < 3 :=
  ⟨by decide, (randsize_in_bounds (fun k => 65535 + k) 0 3 (by decide)).2.2.2.2.2.2.2.2.1⟩

end page_repl_random

namespace page_cache

/-! ### Advancement of a queue -/

theorem advance_acq_id (p : Option (List Nat)) (r w : Bool) (a : current_page_acq_t) :
    (advance_acq p r w a).acq_id = a.acq_id := rfl

theorem advance_acq_access (p : Option (List Nat)) (r w : Bool) (a : current_page_acq_t) :
    (advance_acq p r w a).access = a.access := rfl

theorem advance_acq_txn (p : Option (List Nat)) (r w : Bool) (a : current_page_acq_t) :
    (advance_acq p r w a).txn = a.txn := rfl

theorem advance_nil (p : Option (List Nat)) (r w : Bool) : advance p r w [] = [] := by
  cases r <;> cases w <;> rfl

theorem advance_cons_some (p : Option (List Nat)) (r w : Bool) (a : current_page_acq_t)
    (rest : List current_page_acq_t) (h : a.snapshotted_page.isSome = true) :
    advance p r w (a :: rest) = a :: advance p r w rest := by
  cases hs : a.snapshotted_page with
  | none => simp [hs] at h
  | some s => simp [advance, hs]

theorem advance_cons_none (p : Option (List Nat)) (r w : Bool) (a : current_page_acq_t)
    (rest : List current_page_acq_t) (h : a.snapshotted_page = none) :
    advance p r w (a :: rest) =
      advance_acq p r w a ::
        advance p
          (r && ((advance_acq p r w a).snapshotted_page.isSome ||
            decide (a.access = alt_access_t.read)))
          (w && (advance_acq p r w a).snapshotted_page.isSome) rest := by
  simp [advance, h]

/-- What advancement does to the entries of a queue. -/
theorem advance_mem (p : Option (List Nat)) (q : List current_page_acq_t) :
    ∀ (r w : Bool), ∀ a1 ∈ advance p r w q, ∃ a ∈ q,
      a1.acq_id = a.acq_id ∧ a1.txn = a.txn ∧ a1.access = a.access ∧
      (a.snapshotted_page.isSome = true → a1 = a) ∧
      (a1.write_acq_signal = true → a.write_acq_signal = true ∨ w = true) ∧
      (a1.read_acq_signal = true → a.read_acq_signal = true ∨ r = true) ∧
      (a1.snapshotted_page = none → a.snapshotted_page = none) := by
  induction q with
  | nil =>
    intro r w a1 h
    rw [advance_nil] at h
    simp at h
  | cons a rest ih =>
    intro r w a1 h
    cases hs : a.snapshotted_page with
    | some s =>
      rw [advance_cons_some p r w a rest (by simp [hs])] at h
      rcases List.mem_cons.mp h with h | h
      · refine ⟨a, by simp, ?_⟩
        subst h
        exact ⟨rfl, rfl, rfl, fun _ => rfl, fun h => Or.inl h, fun h => Or.inl h,
          fun h => h⟩
      · obtain ⟨x, hx, hh⟩ := ih r w a1 h
        exact ⟨x, List.mem_cons_of_mem _ hx, hh⟩
    | none =>
      rw [advance_cons_none p r w a rest hs] at h
      rcases List.mem_cons.mp h with h | h
      · refine ⟨a, by simp, ?_⟩
        subst h
        refine ⟨rfl, rfl, rfl, ?_, ?_, ?_, ?_⟩
        · intro h2; simp [hs] at h2
        · intro h2
          simp only [advance_acq, Bool.or_eq_true, Bool.and_eq_true] at h2
          rcases h2 with h2 | h2
          · exact Or.inl h2
          · exact Or.inr h2.1
        · intro h2
          simpa [advance_acq] using h2
        · intro _; exact hs
      · obtain ⟨x, hx, h1, h2, h3, h4, h5, h6, h7⟩ := ih _ _ a1 h
        refine ⟨x, List.mem_cons_of_mem _ hx, h1, h2, h3, h4, ?_, ?_, h7⟩
        · intro hw
          rcases h5 hw with h | h
          · exact Or.inl h
          · simp only [Bool.and_eq_true] at h
            exact Or.inr h.1
        · intro hr
          rcases h6 hr with h | h
          · exact Or.inl h
          · simp only [Bool.and_eq_true] at h
            exact Or.inr h.1

theorem advance_map_id (p : Option (List Nat)) (q : List current_page_acq_t) :
    ∀ (r w : Bool), (advance p r w q).map (fun e => e.acq_id) = q.map (fun e => e.acq_id) := by
  induction q with
  | nil => intro r w; rw [advance_nil]
  | cons a rest ih =>
    intro r w
    cases hs : a.snapshotted_page with
    | some s =>
      rw [advance_cons_some p r w a rest (by simp [hs])]
      simp [ih]
    | none =>
      rw [advance_cons_none p r w a rest hs]
      simp [ih, advance_acq_id]

theorem advance_pairwise (p : Option (List Nat)) (q : List current_page_acq_t) :
    ∀ (r w : Bool), q.Pairwise waits_behind → (advance p r w q).Pairwise waits_behind := by
  induction q with
  | nil => intro r w _; rw [advance_nil]; exact List.Pairwise.nil
  | cons a rest ih =>
    intro r w h
    obtain ⟨h1, h2⟩ := List.pairwise_cons.mp h
    cases hs : a.snapshotted_page with
    | some s =>
      rw [advance_cons_some p r w a rest (by simp [hs])]
      refine List.pairwise_cons.mpr ⟨?_, ih r w h2⟩
      intro x _
      exact ⟨fun h => by simp [hs] at h, fun h => by simp [hs] at h⟩
    | none =>
      rw [advance_cons_none p r w a rest hs]
      refine List.pairwise_cons.mpr ⟨?_, ih _ _ h2⟩
      intro x1 hx1
      obtain ⟨x, hx, -, -, -, -, h5, h6, -⟩ := advance_mem p rest _ _ x1 hx1
      obtain ⟨r1, r2⟩ := h1 x hx
      constructor
      · intro hn
        by_contra hc
        have hc2 : x1.write_acq_signal = true := by simpa using hc
        rcases h5 hc2 with h | h
        · rw [r1 hs] at h; exact absurd h (by simp)
        · simp only [Bool.and_eq_true] at h
          rw [hn] at h
          simp at h
      · intro hn ha
        by_contra hc
        have hc2 : x1.read_acq_signal = true := by simpa using hc
        rcases h6 hc2 with h | h
        · rw [r2 hs ha] at h; exact absurd h (by simp)
        · simp only [Bool.and_eq_true, Bool.or_eq_true, decide_eq_true_eq] at h
          rw [hn] at h
          rw [advance_acq_access] at ha
          rw [ha] at h
          simp at h

theorem advance_all_snapshots (p : Option (List Nat)) (q : List current_page_acq_t) :
    ∀ (r w : Bool), (∀ e ∈ q, e.snapshotted_page.isSome = true) → advance p r w q = q := by
  induction q with
  | nil => intro r w _; rw [advance_nil]
  | cons a rest ih =>
    intro r w h
    rw [advance_cons_some p r w a rest (h a (by simp)), ih r w]
    intro e he
    exact h e (List.mem_cons_of_mem _ he)

theorem advance_append_snapshots (p : Option (List Nat)) (pre q : List current_page_acq_t) :
    ∀ (r w : Bool), (∀ e ∈ pre, e.snapshotted_page.isSome = true) →
      advance p r w (pre ++ q) = pre ++ advance p r w q := by
  induction pre with
  | nil => intro r w _; rfl
  | cons a rest ih =>
    intro r w h
    rw [List.cons_append, advance_cons_some p r w a _ (h a (by simp)), ih r w, List.cons_append]
    intro e he
    exact h e (List.mem_cons_of_mem _ he)

/-- The entry of an acquisition after advancement: unchanged when it holds a snapshot, else
advanced with some values of the two conditions. -/
theorem advance_find (p : Option (List Nat)) (acq : Nat) (q : List current_page_acq_t) :
    ∀ (r w : Bool) (e : current_page_acq_t),
      q.find? (fun e => e.acq_id == acq) = some e →
      ∃ r1 w1, (advance p r w q).find? (fun e => e.acq_id == acq) =
        some (if e.snapshotted_page.isSome then e else advance_acq p r1 w1 e) := by
  induction q with
  | nil => intro r w e h; simp at h
  | cons a rest ih =>
    intro r w e h
    cases hs : a.snapshotted_page with
    | some s =>
      rw [advance_cons_some p r w a rest (by simp [hs])]
      by_cases ha : a.acq_id = acq
      · simp only [List.find?_cons, ha, beq_self_eq_true] at h ⊢
        cases h
        exact ⟨true, true, by simp [hs]⟩
      · have hb : (a.acq_id == acq) = false := by simpa using ha
        simp only [List.find?_cons, hb] at h ⊢
        exact ih r w e h
    | none =>
      rw [advance_cons_none p r w a rest hs]
      by_cases ha : a.acq_id = acq
      · simp only [List.find?_cons, ha, beq_self_eq_true, advance_acq_id] at h ⊢
        cases h
        exact ⟨r, w, by simp [hs]⟩
      · have hb : (a.acq_id == acq) = false := by simpa using ha
        simp only [List.find?_cons, hb, advance_acq_id] at h ⊢
        exact ih _ _ e h

theorem advance_find_none (p : Option (List Nat)) (acq : Nat) (q : List current_page_acq_t)
    (r w : Bool) (h : q.find? (fun e => e.acq_id == acq) = none) :
    (advance p r w q).find? (fun e => e.acq_id == acq) = none := by
  rw [List.find?_eq_none] at h ⊢
  intro x hx
  obtain ⟨y, hy, h1, -⟩ := advance_mem p q r w x hx
  have := h y hy
  rw [h1]
  exact this

theorem find_acq_none_iff (c : page_cache_t) (b acq : Nat) :
    (find_acq c b acq).isNone = true ↔
      acq ∉ (c.current_pages b).acqs.map (fun e => e.acq_id) := by
  unfold find_acq
  rw [Option.isNone_iff_eq_none, List.find?_eq_none]
  simp

theorem find_acq_some (c : page_cache_t) (b acq : Nat) (e : current_page_acq_t)
    (h : find_acq c b acq = some e) : e ∈ (c.current_pages b).acqs ∧ e.acq_id = acq := by
  unfold find_acq at h
  have h1 := List.mem_of_find?_eq_some h
  have h2 := List.find?_some h
  exact ⟨h1, by simpa using h2⟩

/-- A block that has a page is allocated. -/
theorem page_allocated (c : page_cache_t) (h : cache_inv c) (b : Nat)
    (hp : (c.current_pages b).page.isSome = true) : allocated c b = true := by
  by_contra hn
  have hn2 : allocated c b = false := by simpa using hn
  rw [h.2.2.1 b hn2] at hp
  simp at hp

theorem append_new_pairwise (q : List current_page_acq_t) (txn acq : Nat)
    (access : alt_access_t) (h : q.Pairwise waits_behind) :
    (q ++ [new_acq txn acq access]).Pairwise waits_behind := by
  rw [List.pairwise_append]
  refine ⟨h, List.pairwise_singleton _ _, ?_⟩
  intro e _ a ha
  rw [List.mem_singleton] at ha
  subst ha
  exact ⟨fun _ => rfl, fun _ _ => rfl⟩

theorem append_new_nodup (q : List current_page_acq_t) (txn acq : Nat)
    (access : alt_access_t) (h : (q.map (fun e => e.acq_id)).Nodup)
    (hn : acq ∉ q.map (fun e => e.acq_id)) :
    ((q ++ [new_acq txn acq access]).map (fun e => e.acq_id)).Nodup := by
  rw [List.map_append, List.nodup_append]
  refine ⟨h, by simp, ?_⟩
  intro x hx hx2
  simp only [List.map_cons, List.map_nil, List.mem_singleton, new_acq] at hx2
  rw [hx2] at hx
  exact hn hx

theorem begin_txn_inv (c : page_cache_t) (h : cache_inv c) (txn : Nat) (c1 : page_cache_t)
    (hs : step c (op_t.begin_txn txn) = some c1) : cache_inv c1 := by
  simp only [step] at hs
  split_ifs at hs
  cases hs
  exact h

theorem acquire_inv (c : page_cache_t) (h : cache_inv c) (txn b acq : Nat)
    (access : alt_access_t) (c1 : page_cache_t)
    (hs : step c (op_t.acquire txn b acq access) = some c1) : cache_inv c1 := by
  simp only [step] at hs
  split_ifs at hs with hg
  cases hs
  simp only [Bool.and_eq_true] at hg
  obtain ⟨⟨-, hfr⟩, -⟩ := hg
  rw [find_acq_none_iff] at hfr
  obtain ⟨i1, i2, i3, i4, i5, i6, i7⟩ := h
  refine ⟨i1, i2, ?_, ?_, ?_, ?_, i7⟩
  · intro b1 hb1
    have hb1c : allocated c b1 = false := hb1
    simp only [set_acqs, Function.update_apply]
    split_ifs with he
    · subst he
      exact i3 b1 hb1c
    · exact i3 b1 hb1c
  · intro b1
    simp only [set_acqs, Function.update_apply]
    split_ifs with he
    · subst he
      simp only [advance_map_id]
      exact append_new_nodup _ txn acq access (i4 b1) hfr
    · exact i4 b1
  · intro b1
    simp only [set_acqs, Function.update_apply]
    split_ifs with he
    · subst he
      exact advance_pairwise _ _ _ _ (append_new_pairwise _ txn acq access (i5 b1))
    · exact i5 b1
  · intro t b1 hb1
    obtain ⟨h1, h2⟩ := i6 t b1 hb1
    refine ⟨h1, ?_⟩
    simp only [set_acqs, Function.update_apply]
    split_ifs with he
    · subst he
      exact h2
    · exact h2

/-- An id the free list can hand out is not allocated. -/
theorem free_id_not_allocated (c : page_cache_t) (b : Nat) (h : free_id c b = true) :
    allocated c b = false := by
  unfold free_id at h
  unfold allocated
  split_ifs at h with hfl
  · have hb : b = c.next_block_id := by simpa using h
    simp [hb]
  · have hb : b ∈ c.free_list := by simpa using h
    simp [hb]

/-- The allocated ids after a `Create` that received the id `block`. -/
theorem create_allocated (c : page_cache_t) (h : cache_inv c) (block : Nat)
    (hf : free_id c block = true) (b : Nat) :
    (decide (b < (if c.free_list = [] then c.next_block_id + 1 else c.next_block_id)) &&
      decide (b ∉ c.free_list.erase block)) = true ↔
    (b = block ∨ allocated c b = true) := by
  obtain ⟨i1, i2, -⟩ := h
  unfold free_id at hf
  unfold allocated
  by_cases hfl : c.free_list = []
  · rw [if_pos hfl] at hf
    have hb : block = c.next_block_id := by simpa using hf
    simp only [hfl, if_true, List.erase_nil, List.not_mem_nil, not_false_eq_true, decide_True,
      Bool.and_true, decide_eq_true_eq]
    omega
  · rw [if_neg hfl] at hf
    have hb : block ∈ c.free_list := by simpa using hf
    have hlt := i2 block hb
    simp only [if_neg hfl, Bool.and_eq_true, decide_eq_true_eq, List.Nodup.mem_erase_iff i1,
      not_and]
    constructor
    · rintro ⟨h1, h2⟩
      by_cases hbb : b = block
      · exact Or.inl hbb
      · exact Or.inr ⟨h1, h2 hbb⟩
    · rintro (h1 | ⟨h1, h2⟩)
      · rw [h1]
        exact ⟨hlt, fun hne => absurd rfl hne⟩
      · exact ⟨h1, fun _ => h2⟩

theorem create_inv (c : page_cache_t) (h : cache_inv c) (txn acq block : Nat)
    (c1 : page_cache_t) (hs : step c (op_t.create txn acq block) = some c1) : cache_inv c1 := by
  simp only [step] at hs
  by_cases hg : (c.txn_live txn && free_id c block && (find_acq c block acq).isNone) = true
  swap
  · rw [if_neg hg] at hs
    exact absurd hs (by simp)
  rw [if_pos hg] at hs
  cases hs
  simp only [Bool.and_eq_true] at hg
  obtain ⟨⟨-, hfree⟩, hfr⟩ := hg
  rw [find_acq_none_iff] at hfr
  have hal := create_allocated c h block hfree
  have hna := free_id_not_allocated c block hfree
  obtain ⟨i1, i2, i3, i4, i5, i6, i7⟩ := h
  have hslot : ∀ b1, b1 ≠ block →
      (Function.update (set_page c block (some [])).current_pages block
        { page := ((set_page c block (some [])).current_pages block).page,
          acqs := advance ((set_page c block (some [])).current_pages block).page true true
            ((c.current_pages block).acqs ++
              [new_acq txn acq alt_access_t.write]) }) b1 = c.current_pages b1 := by
    intro b1 hne
    simp only [set_page, Function.update_apply, if_neg hne]
  refine ⟨?_, ?_, ?_, ?_, ?_, ?_, i7⟩
  · exact List.Nodup.erase _ i1
  · intro b1 hb1
    have hb2 : b1 ∈ c.free_list.erase block := hb1
    have := i2 b1 (List.mem_of_mem_erase hb2)
    show b1 < (if c.free_list = [] then c.next_block_id + 1 else c.next_block_id)
    split_ifs <;> omega
  · intro b1 hb1
    have hb2 : ¬ (b1 = block ∨ allocated c b1 = true) := by
      rw [← hal b1]
      intro hc
      have hb3 : (decide (b1 < (if c.free_list = [] then c.next_block_id + 1
          else c.next_block_id)) && decide (b1 ∉ c.free_list.erase block)) = false := hb1
      rw [hc] at hb3
      exact absurd hb3 (by simp)
    rw [not_or] at hb2
    simp only [set_acqs]
    rw [hslot b1 hb2.1]
    exact i3 b1 (by simpa using hb2.2)
  · intro b1
    by_cases he : b1 = block
    · subst he
      simp only [set_acqs, Function.update_apply, if_true, advance_map_id]
      exact append_new_nodup _ txn acq _ (i4 _) hfr
    · simp only [set_acqs]
      rw [hslot b1 he]
      exact i4 b1
  · intro b1
    by_cases he : b1 = block
    · subst he
      simp only [set_acqs, Function.update_apply, if_true]
      exact advance_pairwise _ _ _ _ (append_new_pairwise _ txn acq _ (i5 _))
    · simp only [set_acqs]
      rw [hslot b1 he]
      exact i5 b1
  · intro t b1 hb1
    obtain ⟨h1, h2⟩ := i6 t b1 hb1
    have hne : b1 ≠ block := by
      intro he
      rw [he, hna] at h1
      exact absurd h1 (by simp)
    refine ⟨(hal b1).mpr (Or.inr h1), ?_⟩
    simp only [set_acqs]
    rw [hslot b1 hne]
    exact h2

theorem advance_keeps_snapshots (p : Option (List Nat)) (q : List current_page_acq_t)
    (r w : Bool) (h : ∀ e ∈ q, e.snapshotted_page.isSome = true) :
    ∀ e ∈ advance p r w q, e.snapshotted_page.isSome = true := by
  rw [advance_all_snapshots p q r w h]
  exact h

theorem declare_snapshotted_inv (c : page_cache_t) (h : cache_inv c) (b acq : Nat)
    (c1 : page_cache_t) (hs : step c (op_t.declare_snapshotted b acq) = some c1) :
    cache_inv c1 := by
  simp only [step] at hs
  split_ifs at hs with hg
  cases hs
  obtain ⟨i1, i2, i3, i4, i5, i6, i7⟩ := h
  refine ⟨i1, i2, ?_, ?_, ?_, ?_, i7⟩
  · intro b1 hb1
    have hb1c : allocated c b1 = false := hb1
    simp only [set_acqs, Function.update_apply]
    split_ifs with he
    · subst he
      exact i3 b1 hb1c
    · exact i3 b1 hb1c
  · intro b1
    simp only [set_acqs, Function.update_apply]
    split_ifs with he
    · subst he
      simp only [advance_map_id, List.map_map]
      have : ((fun e : current_page_acq_t => e.acq_id) ∘
          fun e => if e.acq_id = acq then { e with declared_snapshotted := true } else e) =
          fun e => e.acq_id := by
        funext e
        simp only [Function.comp]
        split_ifs <;> rfl
      rw [this]
      exact i4 b1
    · exact i4 b1
  · intro b1
    simp only [set_acqs, Function.update_apply]
    split_ifs with he
    · subst he
      apply advance_pairwise
      apply List.Pairwise.map _ _ (i5 b1)
      intro x y hxy
      unfold waits_behind at hxy ⊢
      split_ifs <;> exact hxy
    · exact i5 b1
  · intro t b1 hb1
    obtain ⟨h1, h2⟩ := i6 t b1 hb1
    refine ⟨h1, ?_⟩
    simp only [set_acqs, Function.update_apply]
    split_ifs with he
    · subst he
      exact h2
    · exact h2

theorem write_inv (c : page_cache_t) (h : cache_inv c) (b acq : Nat) (content : List Nat)
    (c1 : page_cache_t) (hs : step c (op_t.write b acq content) = some c1) :
    cache_inv c1 := by
  simp only [step] at hs
  cases hf : find_acq c b acq with
  | none => simp [hf] at hs
  | some e =>
    simp only [hf] at hs
    split_ifs at hs with hg
    cases hs
    simp only [Bool.and_eq_true, decide_eq_true_eq] at hg
    obtain ⟨-, hpg⟩ := hg
    have hal := page_allocated c h b hpg
    obtain ⟨i1, i2, i3, i4, i5, i6, i7⟩ := h
    refine ⟨i1, i2, ?_, ?_, ?_, ?_, i7⟩
    · intro b1 hb1
      have hb1c : allocated c b1 = false := hb1
      have hne : b1 ≠ b := by
        intro he
        rw [he, hal] at hb1c
        exact absurd hb1c (by simp)
      simp only [set_page, Function.update_apply, if_neg hne]
      exact i3 b1 hb1c
    · intro b1
      simp only [set_page, Function.update_apply]
      split_ifs with he
      · subst he; exact i4 b1
      · exact i4 b1
    · intro b1
      simp only [set_page, Function.update_apply]
      split_ifs with he
      · subst he; exact i5 b1
      · exact i5 b1
    · intro t b1 hb1
      obtain ⟨h1, h2⟩ := i6 t b1 hb1
      have hne : b1 ≠ b := by
        intro he
        rw [he] at h2
        rw [h2] at hpg
        simp at hpg
      refine ⟨h1, ?_⟩
      simp only [set_page, Function.update_apply, if_neg hne]
      exact h2

theorem mark_deleted_inv (c : page_cache_t) (h : cache_inv c) (b acq : Nat)
    (c1 : page_cache_t) (hs : step c (op_t.mark_deleted b acq) = some c1) :
    cache_inv c1 := by
  simp only [step] at hs
  cases hf : find_acq c b acq with
  | none => simp [hf] at hs
  | some e =>
    simp only [hf] at hs
    split_ifs at hs with hg
    cases hs
    simp only [Bool.and_eq_true, decide_eq_true_eq] at hg
    obtain ⟨-, hpg⟩ := hg
    have hal := page_allocated c h b hpg
    obtain ⟨i1, i2, i3, i4, i5, i6, i7⟩ := h
    have hnd : ∀ t, b ∉ c.deleted t := by
      intro t hb
      have := (i6 t b hb).2
      rw [this] at hpg
      simp at hpg
    refine ⟨i1, i2, ?_, ?_, ?_, ?_, ?_⟩
    · intro b1 hb1
      have hb1c : allocated c b1 = false := hb1
      have hne : b1 ≠ b := by
        intro he
        rw [he, hal] at hb1c
        exact absurd hb1c (by simp)
      simp only [set_page, Function.update_apply, if_neg hne]
      exact i3 b1 hb1c
    · intro b1
      simp only [set_page, Function.update_apply]
      split_ifs with he
      · subst he; exact i4 b1
      · exact i4 b1
    · intro b1
      simp only [set_page, Function.update_apply]
      split_ifs with he
      · subst he; exact i5 b1
      · exact i5 b1
    · intro t b1 hb1
      simp only [Function.update_apply] at hb1
      by_cases hb : b1 = b
      · subst hb
        refine ⟨hal, ?_⟩
        simp only [set_page, Function.update_apply, if_true]
      · have hm : b1 ∈ c.deleted t := by
          split_ifs at hb1 with ht
          · rcases List.mem_cons.mp hb1 with h1 | h1
            · exact absurd h1 hb
            · rw [ht]; exact h1
          · exact hb1
        obtain ⟨h1, h2⟩ := i6 t b1 hm
        refine ⟨h1, ?_⟩
        simp only [set_page, Function.update_apply, if_neg hb]
        exact h2
    refine ⟨?_, ?_⟩
    · intro t1 t2 b1 h1 h2
      simp only [Function.update_apply] at h1 h2
      by_cases hb : b1 = b
      · subst hb
        have e1 : t1 = e.txn := by
          by_contra hne
          rw [if_neg hne] at h1
          exact hnd t1 h1
        have e2 : t2 = e.txn := by
          by_contra hne
          rw [if_neg hne] at h2
          exact hnd t2 h2
        rw [e1, e2]
      · have m1 : b1 ∈ c.deleted t1 := by
          split_ifs at h1 with ht
          · rcases List.mem_cons.mp h1 with h | h
            · exact absurd h hb
            · rw [ht]; exact h
          · exact h1
        have m2 : b1 ∈ c.deleted t2 := by
          split_ifs at h2 with ht
          · rcases List.mem_cons.mp h2 with h | h
            · exact absurd h hb
            · rw [ht]; exact h
          · exact h2
        exact i7.1 t1 t2 b1 m1 m2
    · intro t
      dsimp only
      simp only [Function.update_apply]
      split_ifs with ht
      · exact List.nodup_cons.mpr ⟨hnd _, i7.2 _⟩
      · exact i7.2 t

theorem release_inv (c : page_cache_t) (h : cache_inv c) (b acq : Nat)
    (c1 : page_cache_t) (hs : step c (op_t.release b acq) = some c1) :
    cache_inv c1 := by
  simp only [step] at hs
  cases hf : find_acq c b acq with
  | none => simp [hf] at hs
  | some e =>
    simp only [hf] at hs
    cases hs
    obtain ⟨i1, i2, i3, i4, i5, i6, i7⟩ := h
    refine ⟨i1, i2, ?_, ?_, ?_, ?_, i7⟩
    · intro b1 hb1
      have hb1c : allocated c b1 = false := hb1
      simp only [set_acqs, Function.update_apply]
      split_ifs with he
      · subst he
        exact i3 b1 hb1c
      · exact i3 b1 hb1c
    · intro b1
      simp only [set_acqs, Function.update_apply]
      split_ifs with he
      · subst he
        simp only [advance_map_id]
        exact List.Nodup.sublist (List.Sublist.map _ (List.filter_sublist _)) (i4 b1)
      · exact i4 b1
    · intro b1
      simp only [set_acqs, Function.update_apply]
      split_ifs with he
      · subst he
        apply advance_pairwise
        exact List.Pairwise.sublist (List.filter_sublist _) (i5 b1)
      · exact i5 b1
    · intro t b1 hb1
      obtain ⟨h1, h2⟩ := i6 t b1 hb1
      refine ⟨h1, ?_⟩
      simp only [set_acqs, Function.update_apply]
      split_ifs with he
      · subst he
        exact h2
      · exact h2

theorem destroy_txn_inv (c : page_cache_t) (h : cache_inv c) (txn : Nat)
    (c1 : page_cache_t) (hs : step c (op_t.destroy_txn txn) = some c1) :
    cache_inv c1 := by
  simp only [step] at hs
  split_ifs at hs with hg
  cases hs
  obtain ⟨i1, i2, i3, i4, i5, i6, i7, i8⟩ := h
  have hal : ∀ b, (decide (b < c.next_block_id) &&
      decide (b ∉ c.deleted txn ++ c.free_list)) = false →
      allocated c b = false ∨ b ∈ c.deleted txn := by
    intro b hb
    by_cases hm : b ∈ c.deleted txn
    · exact Or.inr hm
    · left
      simp only [allocated]
      simpa [List.mem_append, hm] using hb
  refine ⟨?_, ?_, ?_, i4, i5, ?_, ?_, ?_⟩
  · show (c.deleted txn ++ c.free_list).Nodup
    rw [List.nodup_append]
    refine ⟨i8 txn, i1, ?_⟩
    intro b hb hf
    have := (i6 txn b hb).1
    simp only [allocated, Bool.and_eq_true, decide_eq_true_eq] at this
    exact this.2 hf
  · intro b hb
    have hb2 : b ∈ c.deleted txn ++ c.free_list := hb
    rcases List.mem_append.mp hb2 with h | h
    · have := (i6 txn b h).1
      simp only [allocated, Bool.and_eq_true, decide_eq_true_eq] at this
      exact this.1
    · exact i2 b h
  · intro b hb
    rcases hal b hb with h | h
    · exact i3 b h
    · exact (i6 txn b h).2
  · intro t b hb
    dsimp only at hb ⊢
    simp only [Function.update_apply] at hb
    split_ifs at hb with ht
    · simp at hb
    · obtain ⟨h1, h2⟩ := i6 t b hb
      refine ⟨?_, h2⟩
      simp only [allocated, Bool.and_eq_true, decide_eq_true_eq] at h1 ⊢
      refine ⟨h1.1, ?_⟩
      intro hm
      rcases List.mem_append.mp hm with h | h
      · exact ht (i7 t txn b hb h)
      · exact h1.2 h
  · intro t1 t2 b h1 h2
    dsimp only at h1 h2
    simp only [Function.update_apply] at h1 h2
    split_ifs at h1 with ht1
    · simp at h1
    · split_ifs at h2 with ht2
      · simp at h2
      · exact i7 t1 t2 b h1 h2
  · intro t
    dsimp only
    simp only [Function.update_apply]
    split_ifs
    · exact List.nodup_nil
    · exact i8 t

theorem step_inv (c : page_cache_t) (h : cache_inv c) (op : op_t) (c1 : page_cache_t)
    (hs : step c op = some c1) : cache_inv c1 := by
  cases op with
  | begin_txn txn => exact begin_txn_inv c h txn c1 hs
  | acquire txn b acq access => exact acquire_inv c h txn b acq access c1 hs
  | create txn acq block => exact create_inv c h txn acq block c1 hs
  | declare_snapshotted b acq => exact declare_snapshotted_inv c h b acq c1 hs
  | write b acq content => exact write_inv c h b acq content c1 hs
  | mark_deleted b acq => exact mark_deleted_inv c h b acq c1 hs
  | release b acq => exact release_inv c h b acq c1 hs
  | destroy_txn txn => exact destroy_txn_inv c h txn c1 hs

theorem init_inv : cache_inv page_cache_t.init := by
  refine ⟨List.nodup_nil, ?_, ?_, ?_, ?_, ?_, ?_, ?_⟩
  · intro b hb; simp [page_cache_t.init] at hb
  · intro b _
    rfl
  · intro b; simp [page_cache_t.init]
  · intro b; simp [page_cache_t.init]
  · intro t b hb; simp [page_cache_t.init] at hb
  · intro t1 t2 b hb; simp [page_cache_t.init] at hb
  · intro t; simp [page_cache_t.init]

theorem reachable_cache_inv (c : page_cache_t) (h : reachable_cache c) : cache_inv c := by
  induction h with
  | init => exact init_inv
  | step c op c1 _ hs ih => exact step_inv c ih op c1 hs

/-- An entry of an advanced queue is an entry of the queue, as it was or advanced. -/
theorem advance_mem_cases (p : Option (List Nat)) (q : List current_page_acq_t) :
    ∀ (r w : Bool), ∀ a1 ∈ advance p r w q, ∃ a ∈ q,
      a1 = a ∨ (a.snapshotted_page = none ∧ ∃ r1 w1, a1 = advance_acq p r1 w1 a) := by
  induction q with
  | nil =>
    intro r w a1 h
    rw [advance_nil] at h
    simp at h
  | cons a rest ih =>
    intro r w a1 h
    cases hs : a.snapshotted_page with
    | some s =>
      rw [advance_cons_some p r w a rest (by simp [hs])] at h
      rcases List.mem_cons.mp h with h | h
      · exact ⟨a, by simp, Or.inl h⟩
      · obtain ⟨x, hx, hh⟩ := ih r w a1 h
        exact ⟨x, List.mem_cons_of_mem _ hx, hh⟩
    | none =>
      rw [advance_cons_none p r w a rest hs] at h
      rcases List.mem_cons.mp h with h | h
      · exact ⟨a, by simp, Or.inr ⟨hs, r, w, h⟩⟩
      · obtain ⟨x, hx, hh⟩ := ih _ _ a1 h
        exact ⟨x, List.mem_cons_of_mem _ hx, hh⟩

/-- Every entry that holds a snapshot has declared itself snapshotted and is read-ready. -/
theorem advance_snapshot_declared (p : Option (List Nat)) (q : List current_page_acq_t)
    (r w : Bool)
    (h : ∀ e ∈ q, e.snapshotted_page.isSome = true →
      e.declared_snapshotted = true ∧ e.read_acq_signal = true) :
    ∀ e ∈ advance p r w q, e.snapshotted_page.isSome = true →
      e.declared_snapshotted = true ∧ e.read_acq_signal = true := by
  intro e he hs
  obtain ⟨a, ha, hc⟩ := advance_mem_cases p q r w e he
  rcases hc with hc | ⟨hn, r1, w1, hc⟩
  · rw [hc] at hs ⊢
    exact h a ha hs
  · rw [hc] at hs ⊢
    simp only [advance_acq] at hs ⊢
    split_ifs at hs with hg
    · simp only [Bool.and_eq_true] at hg
      exact ⟨hg.2, hg.1⟩
    · simp at hs

theorem step_snapshot_declared (c : page_cache_t) (op : op_t) (c1 : page_cache_t)
    (hs : step c op = some c1)
    (h : ∀ b, ∀ e ∈ (c.current_pages b).acqs, e.snapshotted_page.isSome = true →
      e.declared_snapshotted = true ∧ e.read_acq_signal = true) :
    ∀ b, ∀ e ∈ (c1.current_pages b).acqs, e.snapshotted_page.isSome = true →
      e.declared_snapshotted = true ∧ e.read_acq_signal = true := by
  cases op with
  | begin_txn txn =>
    simp only [step] at hs
    split_ifs at hs
    cases hs
    exact h
  | acquire txn b0 acq access =>
    simp only [step] at hs
    split_ifs at hs
    cases hs
    intro b
    simp only [set_acqs, Function.update_apply]
    split_ifs with he
    · apply advance_snapshot_declared
      intro e hm
      rcases List.mem_append.mp hm with hm | hm
      · exact h b0 e hm
      · rw [List.mem_singleton] at hm
        rw [hm]
        intro hc
        simp [new_acq] at hc
    · exact h b
  | create txn acq block =>
    simp only [step] at hs
    by_cases hg : (c.txn_live txn && free_id c block && (find_acq c block acq).isNone) = true
    swap
    · rw [if_neg hg] at hs
      exact absurd hs (by simp)
    rw [if_pos hg] at hs
    cases hs
    intro b
    simp only [set_acqs, set_page, Function.update_apply]
    split_ifs with he
    · apply advance_snapshot_declared
      intro e hm
      rcases List.mem_append.mp hm with hm | hm
      · exact h _ e hm
      · rw [List.mem_singleton] at hm
        rw [hm]
        intro hc
        simp [new_acq] at hc
    · exact h b
  | declare_snapshotted b0 acq =>
    simp only [step] at hs
    split_ifs at hs
    cases hs
    intro b
    simp only [set_acqs, Function.update_apply]
    split_ifs with he
    · apply advance_snapshot_declared
      intro e hm
      rw [List.mem_map] at hm
      obtain ⟨x, hx, hxe⟩ := hm
      rw [← hxe]
      split_ifs
      · intro hc
        exact ⟨rfl, (h b0 x hx hc).2⟩
      · exact h b0 x hx
    · exact h b
  | write b0 acq content =>
    simp only [step] at hs
    cases hf : find_acq c b0 acq with
    | none => simp [hf] at hs
    | some e0 =>
      simp only [hf] at hs
      split_ifs at hs
      cases hs
      intro b
      simp only [set_page, Function.update_apply]
      split_ifs with he
      · exact h b0
      · exact h b
  | mark_deleted b0 acq =>
    simp only [step] at hs
    cases hf : find_acq c b0 acq with
    | none => simp [hf] at hs
    | some e0 =>
      simp only [hf] at hs
      split_ifs at hs
      cases hs
      intro b
      simp only [set_page, Function.update_apply]
      split_ifs with he
      · exact h b0
      · exact h b
  | release b0 acq =>
    simp only [step] at hs
    cases hf : find_acq c b0 acq with
    | none => simp [hf] at hs
    | some e0 =>
      simp only [hf] at hs
      cases hs
      intro b
      simp only [set_acqs, Function.update_apply]
      split_ifs with he
      · apply advance_snapshot_declared
        intro e hm
        exact h b0 e (List.mem_of_mem_filter hm)
      · exact h b
  | destroy_txn txn =>
    simp only [step] at hs
    split_ifs at hs
    cases hs
    exact h

theorem reachable_snapshot_declared (c : page_cache_t) (h : reachable_cache c) :
    ∀ b, ∀ e ∈ (c.current_pages b).acqs, e.snapshotted_page.isSome = true →
      e.declared_snapshotted = true ∧ e.read_acq_signal = true := by
  induction h with
  | init =>
    intro b e he
    simp [page_cache_t.init] at he
  | step c op c1 _ hs ih => exact step_snapshot_declared c op c1 hs ih

theorem run_reachable (ops : List op_t) :
    ∀ (c c1 : page_cache_t), reachable_cache c → run ops c = some c1 → reachable_cache c1 := by
  induction ops with
  | nil =>
    intro c c1 h hr
    simp only [run] at hr
    cases hr
    exact h
  | cons op ops ih =>
    intro c c1 h hr
    simp only [run] at hr
    cases hs : step c op with
    | none => simp [hs] at hr
    | some c2 =>
      simp only [hs] at hr
      exact ih c2 c1 (reachable_cache.step c op c2 h hs) hr

/-- The contract violation of §7: in `block_deleted` transaction 1 has marked block 0 deleted;
a write acquisition of that transaction on the block is refused, a read acquisition and a write
acquisition of another live transaction are not. -/
theorem write_acquire_on_deleted_block_refused :
    block_deleted.deleted 1 = [0] ∧
    (step block_deleted (op_t.acquire 1 0 9 alt_access_t.write)).isNone = true ∧
    (step block_deleted (op_t.acquire 1 0 9 alt_access_t.read)).isSome = true ∧
    ((step block_deleted (op_t.begin_txn 2)).bind
      (fun c => step c (op_t.acquire 2 0 9 alt_access_t.write))).isSome = true := by
  decide

/-- C13 fails as stated: transaction 1 holds a write acquisition on block 0 (its `Create`
acquisition 1) and has called `declare_snapshotted()` on it, as any holder may; transaction 2
then acquires the block for write (acquisition 2).  The first acquisition is still held, in
the queue before the second, and the second has its `read_acq_signal` and its
`write_acq_signal` pulsed, and writes to the block. -/
theorem held_snapshotted_writer_does_not_block :
    reachable_cache writer_snapshotted ∧
    (writer_snapshotted.current_pages 0).acqs.map
      (fun e => (e.acq_id, e.txn, e.access)) =
      [(1, 1, alt_access_t.write), (2, 2, alt_access_t.write)] ∧
    (writer_snapshotted.current_pages 0).acqs.map
      (fun e => (e.acq_id, e.declared_snapshotted, e.read_acq_signal, e.write_acq_signal)) =
      [(1, true, true, true), (2, false, true, true)] ∧
    (step writer_snapshotted (op_t.write 0 2 [42])).map
      (fun c => (c.current_pages 0).page) = some (some [42]) :=
  ⟨run_reachable writer_snapshotted_ops _ _ reachable_cache.init rfl, by decide, by decide,
    by decide⟩

/-- C13, amended. In every state of the cache, for an acquisition `e` queued on a block and an
acquisition `a` queued behind it on the same block (the released ones are gone from the
queue): the `write_acq_signal` of `a` is pulsed only if `e` has declared itself snapshotted and
been converted to a snapshot; while `e` is a write acquisition that is still held and has not
been converted to a snapshot, the read and the write signal of `a` are both unpulsed; and
while `e` is a read acquisition that is still held un-snapshotted, the write signal of `a` is
unpulsed. -/
theorem write_signal_waits_for_earlier (c : page_cache_t) (h : reachable_cache c) (b : Nat)
    (pre post : List current_page_acq_t) (e a : current_page_acq_t)
    (hq : (c.current_pages b).acqs = pre ++ e :: post) (ha : a ∈ post) :
    (a.write_acq_signal = true →
      e.declared_snapshotted = true ∧ e.snapshotted_page.isSome = true) ∧
    (e.access = alt_access_t.write → e.snapshotted_page = none →
      a.read_acq_signal = false ∧ a.write_acq_signal = false) ∧
    (e.access = alt_access_t.read → e.snapshotted_page = none →
      a.write_acq_signal = false) := by
  have hinv := reachable_cache_inv c h
  have hp := hinv.2.2.2.2.1 b
  rw [hq, List.pairwise_append, List.pairwise_cons] at hp
  obtain ⟨h1, h2⟩ := hp.2.1.1 a ha
  have hmem : e ∈ (c.current_pages b).acqs := by rw [hq]; simp
  refine ⟨?_, ?_, ?_⟩
  · intro hw
    have hs : e.snapshotted_page.isSome = true := by
      cases hsn : e.snapshotted_page with
      | none =>
        rw [h1 hsn] at hw
        exact absurd hw (by simp)
      | some s => rfl
    exact ⟨(reachable_snapshot_declared c h b e hmem hs).1, hs⟩
  · intro hacc hsn
    exact ⟨h2 hsn hacc, h1 hsn⟩
  · intro _ hsn
    exact h1 hsn

/-- The state a `Create` acquisition leaves. -/
theorem create_eval (c : page_cache_t) (txn acq block : Nat) (c1 : page_cache_t)
    (hs : step c (op_t.create txn acq block) = some c1) :
    c.txn_live txn = true ∧ free_id c block = true ∧
    acq ∉ (c.current_pages block).acqs.map (fun e => e.acq_id) ∧
    c1.current_pages = Function.update c.current_pages block
      { page := some [],
        acqs := advance (some []) true true
          ((c.current_pages block).acqs ++ [new_acq txn acq alt_access_t.write]) } ∧
    c1.free_list = c.free_list.erase block ∧ c1.deleted = c.deleted := by
  simp only [step] at hs
  by_cases hg : (c.txn_live txn && free_id c block && (find_acq c block acq).isNone) = true
  swap
  · rw [if_neg hg] at hs
    exact absurd hs (by simp)
  rw [if_pos hg] at hs
  cases hs
  simp only [Bool.and_eq_true] at hg
  refine ⟨hg.1.1, hg.1.2, (find_acq_none_iff _ _ _).mp hg.2, ?_, rfl, rfl⟩
  simp only [set_acqs, set_page]
  funext b
  simp only [Function.update_apply]
  split_ifs <;> rfl

/-- The free list always has an id to hand out. -/
theorem free_id_exists (c : page_cache_t) : ∃ block, free_id c block = true := by
  unfold free_id
  cases hfl : c.free_list with
  | nil => exact ⟨c.next_block_id, by simp⟩
  | cons x rest => exact ⟨x, by simp⟩

theorem find_append_new (q : List current_page_acq_t) (acq : Nat) (n : current_page_acq_t)
    (hq : acq ∉ q.map (fun e => e.acq_id)) (hn : n.acq_id = acq) :
    (q ++ [n]).find? (fun e => e.acq_id == acq) = some n := by
  have h1 : q.find? (fun e => e.acq_id == acq) = none := by
    rw [List.find?_eq_none]
    intro x hx
    simp only [beq_iff_eq]
    intro he
    exact hq (List.mem_map.mpr ⟨x, hx, he⟩)
  rw [List.find?_append, h1]
  simp [hn]

/-- A read-ready acquisition that declares itself snapshotted holds, from then on, a snapshot
of what it read before the declaration. -/
theorem declare_takes_snapshot (c : page_cache_t) (b acq : Nat) (e : current_page_acq_t)
    (hf : find_acq c b acq = some e) (hr : e.read_acq_signal = true) (c1 : page_cache_t)
    (hd : step c (op_t.declare_snapshotted b acq) = some c1) :
    ∃ e1 p, find_acq c1 b acq = some e1 ∧ e1.snapshotted_page = some p ∧
      current_page_for_read c b acq = some p := by
  simp only [step] at hd
  split_ifs at hd with hg
  cases hd
  have hfm : ((c.current_pages b).acqs.map
      (fun e => if e.acq_id = acq then { e with declared_snapshotted := true } else e)).find?
      (fun e => e.acq_id == acq) = some { e with declared_snapshotted := true } := by
    unfold find_acq at hf
    generalize (c.current_pages b).acqs = q at hf
    induction q with
    | nil => simp at hf
    | cons a rest ih =>
      by_cases ha : a.acq_id = acq
      · simp only [List.find?_cons, ha, beq_self_eq_true] at hf
        cases hf
        simp [ha]
      · have hb : (a.acq_id == acq) = false := by simpa using ha
        simp only [List.find?_cons, hb] at hf
        simp only [List.map_cons, if_neg ha, List.find?_cons, hb]
        exact ih hf
  obtain ⟨r1, w1, hadv⟩ := advance_find (c.current_pages b).page acq _ true true _ hfm
  have hfind : find_acq (set_acqs c b ((c.current_pages b).acqs.map
      (fun e => if e.acq_id = acq then { e with declared_snapshotted := true } else e))) b acq =
      some (if e.snapshotted_page.isSome then { e with declared_snapshotted := true }
        else advance_acq (c.current_pages b).page r1 w1
          { e with declared_snapshotted := true }) := by
    unfold find_acq
    simp only [set_acqs, Function.update_apply, if_true]
    exact hadv
  cases hsn : e.snapshotted_page with
  | some s =>
    refine ⟨_, s, hfind, ?_, ?_⟩
    · simp [hsn]
    · simp [current_page_for_read, hf, hsn]
  | none =>
    refine ⟨_, (c.current_pages b).page, hfind, ?_, ?_⟩
    · simp [hsn, advance_acq, hr]
    · simp [current_page_for_read, hf, hsn, hr]

theorem find_filter_ne (q : List current_page_acq_t) (acq other : Nat) (h : other ≠ acq) :
    (q.filter (fun x => x.acq_id != other)).find? (fun e => e.acq_id == acq) =
      q.find? (fun e => e.acq_id == acq) := by
  induction q with
  | nil => rfl
  | cons a rest ih =>
    by_cases ha : a.acq_id = acq
    · have h1 : (a.acq_id != other) = true := by
        simp only [bne_iff_ne, ne_eq, ha]
        exact fun he => h he.symm
      rw [List.filter_cons, if_pos h1, List.find?_cons, List.find?_cons]
      simp [ha]
    · have hb : (a.acq_id == acq) = false := by simpa using ha
      by_cases h1 : (a.acq_id != other) = true
      · simp only [List.filter_cons, h1, if_true, List.find?_cons, hb]
        exact ih
      · simp only [List.filter_cons, h1, List.find?_cons, hb]
        exact ih

theorem find_map_declare (q : List current_page_acq_t) (acq other : Nat)
    (e : current_page_acq_t) (hf : q.find? (fun e => e.acq_id == acq) = some e) :
    ∃ e1, (q.map (fun e => if e.acq_id = other then { e with declared_snapshotted := true }
        else e)).find? (fun e => e.acq_id == acq) = some e1 ∧
      e1.snapshotted_page = e.snapshotted_page := by
  induction q with
  | nil => simp at hf
  | cons a rest ih =>
    by_cases ha : a.acq_id = acq
    · have hae : a = e := by
        simp only [List.find?_cons, ha, beq_self_eq_true] at hf
        exact Option.some.inj hf
      rw [← hae]
      by_cases ho : a.acq_id = other
      · refine ⟨{ a with declared_snapshotted := true }, ?_, rfl⟩
        rw [List.map_cons, if_pos ho, List.find?_cons]
        simp [ha]
      · refine ⟨a, ?_, rfl⟩
        rw [List.map_cons, if_neg ho, List.find?_cons]
        simp [ha]
    · have hb : (a.acq_id == acq) = false := by simpa using ha
      simp only [List.find?_cons, hb] at hf
      obtain ⟨e1, h1, h2⟩ := ih hf
      refine ⟨e1, ?_, h2⟩
      by_cases ho : a.acq_id = other
      · simp only [List.map_cons, if_pos ho, List.find?_cons, hb]
        exact h1
      · simp only [List.map_cons, if_neg ho, List.find?_cons, hb]
        exact h1

/-- A snapshot stays: a call other than the release of the acquisition leaves the acquisition
in its queue, with the snapshot it holds. -/
theorem step_keeps_snapshot (c : page_cache_t) (b acq : Nat) (s : Option (List Nat))
    (h : ∃ e, find_acq c b acq = some e ∧ e.snapshotted_page = some s)
    (op : op_t) (hop : op ≠ op_t.release b acq) (c1 : page_cache_t)
    (hs : step c op = some c1) :
    ∃ e, find_acq c1 b acq = some e ∧ e.snapshotted_page = some s := by
  obtain ⟨e, hf, hsn⟩ := h
  have hadv : ∀ (p : Option (List Nat)) (q : List current_page_acq_t) (e0 : current_page_acq_t),
      q.find? (fun e => e.acq_id == acq) = some e0 → e0.snapshotted_page = some s →
      ∃ e1, (advance p true true q).find? (fun e => e.acq_id == acq) = some e1 ∧
        e1.snapshotted_page = some s := by
    intro p q e0 h1 h2
    obtain ⟨r1, w1, h3⟩ := advance_find p acq q true true e0 h1
    rw [h2] at h3
    exact ⟨e0, h3, h2⟩
  cases op with
  | begin_txn txn =>
    simp only [step] at hs
    split_ifs at hs
    cases hs
    exact ⟨e, hf, hsn⟩
  | acquire txn b0 acq0 access =>
    simp only [step] at hs
    split_ifs at hs
    cases hs
    unfold find_acq at hf ⊢
    simp only [set_acqs, Function.update_apply]
    split_ifs with he
    · subst he
      apply hadv _ _ e _ hsn
      rw [List.find?_append, hf]
      rfl
    · exact ⟨e, hf, hsn⟩
  | create txn acq0 block =>
    obtain ⟨-, -, -, hcp, -, -⟩ := create_eval c txn acq0 block c1 hs
    unfold find_acq at hf ⊢
    rw [hcp]
    simp only [Function.update_apply]
    split_ifs with he
    · subst he
      apply hadv _ _ e _ hsn
      rw [List.find?_append, hf]
      rfl
    · exact ⟨e, hf, hsn⟩
  | declare_snapshotted b0 acq0 =>
    simp only [step] at hs
    split_ifs at hs
    cases hs
    unfold find_acq at hf ⊢
    simp only [set_acqs, Function.update_apply]
    split_ifs with he
    · subst he
      obtain ⟨e1, h1, h2⟩ := find_map_declare _ acq acq0 e hf
      exact hadv _ _ e1 h1 (by rw [h2]; exact hsn)
    · exact ⟨e, hf, hsn⟩
  | write b0 acq0 content =>
    simp only [step] at hs
    cases hf0 : find_acq c b0 acq0 with
    | none => simp [hf0] at hs
    | some e0 =>
      simp only [hf0] at hs
      split_ifs at hs
      cases hs
      unfold find_acq at hf ⊢
      simp only [set_page, Function.update_apply]
      split_ifs with he
      · subst he
        exact ⟨e, hf, hsn⟩
      · exact ⟨e, hf, hsn⟩
  | mark_deleted b0 acq0 =>
    simp only [step] at hs
    cases hf0 : find_acq c b0 acq0 with
    | none => simp [hf0] at hs
    | some e0 =>
      simp only [hf0] at hs
      split_ifs at hs
      cases hs
      unfold find_acq at hf ⊢
      simp only [set_page, Function.update_apply]
      split_ifs with he
      · subst he
        exact ⟨e, hf, hsn⟩
      · exact ⟨e, hf, hsn⟩
  | release b0 acq0 =>
    simp only [step] at hs
    cases hf0 : find_acq c b0 acq0 with
    | none => simp [hf0] at hs
    | some e0 =>
      simp only [hf0] at hs
      cases hs
      unfold find_acq at hf ⊢
      simp only [set_acqs, Function.update_apply]
      split_ifs with he
      · subst he
        have hne : acq0 ≠ acq := by
          intro h2
          apply hop
          rw [h2]
        apply hadv _ _ e _ hsn
        rw [find_filter_ne _ acq acq0 hne]
        exact hf
      · exact ⟨e, hf, hsn⟩
  | destroy_txn txn =>
    simp only [step] at hs
    split_ifs at hs
    cases hs
    exact ⟨e, hf, hsn⟩

theorem run_keeps_snapshot (b acq : Nat) (s : Option (List Nat)) (ops : List op_t) :
    ∀ (c c1 : page_cache_t),
      (∃ e, find_acq c b acq = some e ∧ e.snapshotted_page = some s) →
      op_t.release b acq ∉ ops → run ops c = some c1 →
      ∃ e, find_acq c1 b acq = some e ∧ e.snapshotted_page = some s := by
  induction ops with
  | nil =>
    intro c c1 h _ hr
    simp only [run] at hr
    cases hr
    exact h
  | cons op ops ih =>
    intro c c1 h hn hr
    simp only [run] at hr
    cases hs : step c op with
    | none => simp [hs] at hr
    | some c2 =>
      simp only [hs] at hr
      simp only [List.mem_cons, not_or] at hn
      exact ih c2 c1 (step_keeps_snapshot c b acq s h op (fun he => hn.1 he.symm) c2 hs)
        hn.2 hr

/-- C14. Let a read-ready acquisition call `declare_snapshotted()`, and let any calls follow
that do not release it: writes, deletions and re-creations of the block among them.  What the
acquisition reads through `current_page_for_read()` right after the declaration and after all
those calls is the content it read at the time of the declaration. -/
theorem snapshot_content_stays (c : page_cache_t) (b acq : Nat) (e : current_page_acq_t)
    (hf : find_acq c b acq = some e) (hr : e.read_acq_signal = true) (c1 : page_cache_t)
    (hd : step c (op_t.declare_snapshotted b acq) = some c1)
    (ops : List op_t) (hops : op_t.release b acq ∉ ops) (c2 : page_cache_t)
    (hrun : run ops c1 = some c2) :
    ∃ p, current_page_for_read c b acq = some p ∧
      current_page_for_read c1 b acq = some p ∧
      current_page_for_read c2 b acq = some p := by
  obtain ⟨e1, p, h1, h2, h3⟩ := declare_takes_snapshot c b acq e hf hr c1 hd
  obtain ⟨e2, h4, h5⟩ := run_keeps_snapshot b acq p ops c1 c2 ⟨e1, h1, h2⟩ hops hrun
  refine ⟨p, h3, ?_, ?_⟩
  · simp [current_page_for_read, h1, h2]
  · simp [current_page_for_read, h4, h5]

theorem filter_release (pre rest : List current_page_acq_t) (e1 : current_page_acq_t)
    (hnd : ((pre ++ e1 :: rest).map (fun e => e.acq_id)).Nodup) :
    (pre ++ e1 :: rest).filter (fun x => x.acq_id != e1.acq_id) = pre ++ rest := by
  rw [List.map_append, List.map_cons, List.nodup_append] at hnd
  obtain ⟨-, h2, h3⟩ := hnd
  have h4 := (List.nodup_cons.mp h2).1
  rw [List.filter_append, List.filter_cons]
  have e0 : (e1.acq_id != e1.acq_id) = false := by simp
  rw [e0]
  simp only [Bool.false_eq_true, if_false]
  congr 1
  · rw [List.filter_eq_self]
    intro x hx
    simp only [bne_iff_ne, ne_eq]
    intro he
    exact h3 (List.mem_map.mpr ⟨x, hx, rfl⟩) (by rw [he]; simp)
  · rw [List.filter_eq_self]
    intro x hx
    simp only [bne_iff_ne, ne_eq]
    intro he
    exact h4 (List.mem_map.mpr ⟨x, hx, he⟩)

theorem find_after_pre (pre rest : List current_page_acq_t) (e2 : current_page_acq_t)
    (h : ∀ x ∈ pre, x.acq_id ≠ e2.acq_id) :
    (pre ++ e2 :: rest).find? (fun e => e.acq_id == e2.acq_id) = some e2 := by
  have h1 : pre.find? (fun e => e.acq_id == e2.acq_id) = none := by
    rw [List.find?_eq_none]
    intro x hx
    simpa using h x hx
  rw [List.find?_append, h1]
  simp

theorem advance_map_key (p : Option (List Nat)) (q : List current_page_acq_t) :
    ∀ (r w : Bool), (advance p r w q).map (fun e => (e.acq_id, e.access)) =
      q.map (fun e => (e.acq_id, e.access)) := by
  induction q with
  | nil => intro r w; rw [advance_nil]
  | cons a rest ih =>
    intro r w
    cases hs : a.snapshotted_page with
    | some s =>
      rw [advance_cons_some p r w a rest (by simp [hs])]
      simp [ih]
    | none =>
      rw [advance_cons_none p r w a rest hs]
      simp [ih, advance_acq_id, advance_acq_access]

/-- What a new acquisition does to the queue of its block. -/
theorem acquire_eval (c : page_cache_t) (txn b acq : Nat) (access : alt_access_t)
    (c1 : page_cache_t) (hs : step c (op_t.acquire txn b acq access) = some c1) :
    c.txn_live txn = true ∧
    acq ∉ (c.current_pages b).acqs.map (fun e => e.acq_id) ∧
    c1.current_pages = Function.update c.current_pages b
      { page := (c.current_pages b).page,
        acqs := advance (c.current_pages b).page true true
          ((c.current_pages b).acqs ++ [new_acq txn acq access]) } := by
  simp only [step] at hs
  split_ifs at hs with hg
  cases hs
  simp only [Bool.and_eq_true] at hg
  exact ⟨hg.1.1, (find_acq_none_iff _ _ _).mp hg.1.2, rfl⟩

/-- While the write acquisition `acq1` is not released it stays in the queue of its block, and
no acquisition named `acq2` comes to stand before it. -/
theorem step_keeps_behind (c : page_cache_t) (b acq1 acq2 : Nat)
    (hb : ∃ pre post, (c.current_pages b).acqs.map (fun e => (e.acq_id, e.access)) =
      pre ++ (acq1, alt_access_t.write) :: post ∧ ∀ y ∈ pre, y.1 ≠ acq2)
    (op : op_t) (hop : op ≠ op_t.release b acq1) (c1 : page_cache_t)
    (hs : step c op = some c1) :
    ∃ pre post, (c1.current_pages b).acqs.map (fun e => (e.acq_id, e.access)) =
      pre ++ (acq1, alt_access_t.write) :: post ∧ ∀ y ∈ pre, y.1 ≠ acq2 := by
  obtain ⟨pre, post, hq, hpre⟩ := hb
  cases op with
  | begin_txn txn =>
    simp only [step] at hs
    split_ifs at hs
    cases hs
    exact ⟨pre, post, hq, hpre⟩
  | acquire txn b0 acq0 access =>
    obtain ⟨-, -, hcp⟩ := acquire_eval c txn b0 acq0 access c1 hs
    rw [hcp]
    simp only [Function.update_apply]
    split_ifs with he
    · rw [← he]
      refine ⟨pre, post ++ [(acq0, access)], ?_, hpre⟩
      simp only [advance_map_key, List.map_append, hq, List.map_cons, List.map_nil, new_acq,
        List.append_assoc, List.cons_append]
    · exact ⟨pre, post, hq, hpre⟩
  | create txn acq0 block =>
    obtain ⟨-, -, -, hcp, -, -⟩ := create_eval c txn acq0 block c1 hs
    rw [hcp]
    simp only [Function.update_apply]
    split_ifs with he
    · rw [← he]
      refine ⟨pre, post ++ [(acq0, alt_access_t.write)], ?_, hpre⟩
      simp only [advance_map_key, List.map_append, hq, List.map_cons, List.map_nil, new_acq,
        List.append_assoc, List.cons_append]
    · exact ⟨pre, post, hq, hpre⟩
  | declare_snapshotted b0 acq0 =>
    simp only [step] at hs
    split_ifs at hs
    cases hs
    simp only [set_acqs, Function.update_apply]
    split_ifs with he
    · rw [← he]
      refine ⟨pre, post, ?_, hpre⟩
      rw [advance_map_key, List.map_map]
      have : ((fun e : current_page_acq_t => (e.acq_id, e.access)) ∘
          fun e => if e.acq_id = acq0 then { e with declared_snapshotted := true } else e) =
          fun e => (e.acq_id, e.access) := by
        funext e
        simp only [Function.comp]
        split_ifs <;> rfl
      rw [this]
      exact hq
    · exact ⟨pre, post, hq, hpre⟩
  | write b0 acq0 content =>
    simp only [step] at hs
    cases hf0 : find_acq c b0 acq0 with
    | none => simp [hf0] at hs
    | some e0 =>
      simp only [hf0] at hs
      split_ifs at hs
      cases hs
      simp only [set_page, Function.update_apply]
      split_ifs with he
      · rw [← he]
        exact ⟨pre, post, hq, hpre⟩
      · exact ⟨pre, post, hq, hpre⟩
  | mark_deleted b0 acq0 =>
    simp only [step] at hs
    cases hf0 : find_acq c b0 acq0 with
    | none => simp [hf0] at hs
    | some e0 =>
      simp only [hf0] at hs
      split_ifs at hs
      cases hs
      simp only [set_page, Function.update_apply]
      split_ifs with he
      · rw [← he]
        exact ⟨pre, post, hq, hpre⟩
      · exact ⟨pre, post, hq, hpre⟩
  | release b0 acq0 =>
    simp only [step] at hs
    cases hf0 : find_acq c b0 acq0 with
    | none => simp [hf0] at hs
    | some e0 =>
      simp only [hf0] at hs
      cases hs
      simp only [set_acqs, Function.update_apply]
      split_ifs with he
      · rw [← he]
        have hne : acq1 ≠ acq0 := by
          intro h2
          apply hop
          rw [h2, he]
        refine ⟨pre.filter (fun y => y.1 != acq0), post.filter (fun y => y.1 != acq0), ?_, ?_⟩
        · rw [advance_map_key]
          have hfm : (List.filter (fun x => x.acq_id != acq0) (c.current_pages b).acqs).map
              (fun e => (e.acq_id, e.access)) =
              ((c.current_pages b).acqs.map (fun e => (e.acq_id, e.access))).filter
                (fun y => y.1 != acq0) := by
            rw [List.filter_map]
            rfl
          rw [hfm, hq, List.filter_append, List.filter_cons]
          simp [hne]
        · intro y hy
          exact hpre y (List.mem_of_mem_filter hy)
      · exact ⟨pre, post, hq, hpre⟩
  | destroy_txn txn =>
    simp only [step] at hs
    split_ifs at hs
    cases hs
    exact ⟨pre, post, hq, hpre⟩

theorem run_keeps_behind (b acq1 acq2 : Nat) (ops : List op_t) :
    ∀ (c c1 : page_cache_t),
      (∃ pre post, (c.current_pages b).acqs.map (fun e => (e.acq_id, e.access)) =
        pre ++ (acq1, alt_access_t.write) :: post ∧ ∀ y ∈ pre, y.1 ≠ acq2) →
      op_t.release b acq1 ∉ ops → run ops c = some c1 →
      ∃ pre post, (c1.current_pages b).acqs.map (fun e => (e.acq_id, e.access)) =
        pre ++ (acq1, alt_access_t.write) :: post ∧ ∀ y ∈ pre, y.1 ≠ acq2 := by
  induction ops with
  | nil =>
    intro c c1 h _ hr
    simp only [run] at hr
    cases hr
    exact h
  | cons op ops ih =>
    intro c c1 h hn hr
    simp only [run] at hr
    cases hs : step c op with
    | none => simp [hs] at hr
    | some c2 =>
      simp only [hs] at hr
      simp only [List.mem_cons, not_or] at hn
      exact ih c2 c1 (step_keeps_behind c b acq1 acq2 h op (fun he => hn.1 he.symm) c2 hs)
        hn.2 hr

/-- An acquisition named `acq2` that is queued behind the write acquisition `acq1` has neither
signal pulsed while `acq1` holds no snapshot. -/
theorem behind_waits (c : page_cache_t) (hinv : cache_inv c) (b acq1 acq2 : Nat)
    (hne : acq1 ≠ acq2)
    (hb : ∃ pre post, (c.current_pages b).acqs.map (fun e => (e.acq_id, e.access)) =
      pre ++ (acq1, alt_access_t.write) :: post ∧ ∀ y ∈ pre, y.1 ≠ acq2) :
    ∃ x1, find_acq c b acq1 = some x1 ∧
      (x1.snapshotted_page = none → ∀ x2, find_acq c b acq2 = some x2 →
        x2.read_acq_signal = false ∧ x2.write_acq_signal = false) := by
  obtain ⟨pre, post, hq, hpre⟩ := hb
  obtain ⟨P, R, hPR, hP, hR⟩ := List.map_eq_append_iff.mp hq
  obtain ⟨x, Q, hxQ, hx, hQ⟩ := List.map_eq_cons_iff.mp hR
  rw [hxQ] at hPR
  have hxid : x.acq_id = acq1 := congrArg Prod.fst hx
  have hxacc : x.access = alt_access_t.write := congrArg Prod.snd hx
  have hnd := hinv.2.2.2.1 b
  have hpw := hinv.2.2.2.2.1 b
  rw [hPR] at hnd hpw
  have hPne : ∀ y ∈ P, y.acq_id ≠ x.acq_id := by
    intro y hy he
    rw [List.map_append, List.map_cons, List.nodup_append] at hnd
    exact hnd.2.2 (List.mem_map.mpr ⟨y, hy, rfl⟩) (by rw [he]; simp)
  have hfind : find_acq c b acq1 = some x := by
    unfold find_acq
    rw [hPR, ← hxid]
    exact find_after_pre P Q x hPne
  refine ⟨x, hfind, ?_⟩
  intro hsn x2 hf2
  obtain ⟨hm, hid⟩ := find_acq_some c b acq2 x2 hf2
  rw [hPR] at hm
  rcases List.mem_append.mp hm with hm | hm
  · exfalso
    have hk : (x2.acq_id, x2.access) ∈ pre := by
      rw [← hP]
      exact List.mem_map.mpr ⟨x2, hm, rfl⟩
    exact hpre _ hk hid
  · rcases List.mem_cons.mp hm with hm | hm
    · exfalso
      rw [hm, hxid] at hid
      exact hne hid
    · rw [List.pairwise_append, List.pairwise_cons] at hpw
      obtain ⟨w1, w2⟩ := hpw.2.1.1 x2 hm
      exact ⟨w2 hsn hxacc, w1 hsn⟩

/-- C18 fails as stated: transaction 0 holds a write acquisition (the `Create` acquisition 0)
on block 0, transaction 1 queues a write acquisition behind it, and then transaction 0
acquires the block for write again (acquisition 2).  When the first acquisition is released
the second acquisition of transaction 0 is not write-ready: the acquisition of transaction 1
is queued before it. -/
theorem second_acquisition_waits_for_others :
    (run [op_t.begin_txn 0, op_t.begin_txn 1, op_t.create 0 0 0,
        op_t.acquire 1 0 1 alt_access_t.write, op_t.acquire 0 0 2 alt_access_t.write,
        op_t.release 0 0] page_cache_t.init).map
      (fun c => (c.current_pages 0).acqs.map
        (fun e => (e.acq_id, e.txn, e.write_acq_signal))) =
      some [(1, 1, true), (2, 0, false)] := by
  decide

/-- When a write-ready write acquisition is released, a write acquisition queued directly
behind it becomes write-ready and read-ready, and what it observes is the page of the slot. -/
theorem release_first_of_two (c : page_cache_t) (h : reachable_cache c) (b : Nat)
    (pre post : List current_page_acq_t) (e1 e2 : current_page_acq_t)
    (hq : (c.current_pages b).acqs = pre ++ e1 :: e2 :: post)
    (hw1 : e1.write_acq_signal = true) (hs1 : e1.snapshotted_page = none)
    (ha1 : e1.access = alt_access_t.write) (ha2 : e2.access = alt_access_t.write) :
    ∃ c1, step c (op_t.release b e1.acq_id) = some c1 ∧
      (c1.current_pages b).page = (c.current_pages b).page ∧
      (∃ e, find_acq c1 b e2.acq_id = some e ∧ e.txn = e2.txn ∧
        e.access = alt_access_t.write ∧
        e.write_acq_signal = true ∧ e.read_acq_signal = true) ∧
      current_page_for_read c1 b e2.acq_id = some (c.current_pages b).page ∧
      (e2.declared_snapshotted = false →
        current_page_for_write c1 b e2.acq_id = (c.current_pages b).page) := by
  have hinv := reachable_cache_inv c h
  have hnd := hinv.2.2.2.1 b
  have hp := hinv.2.2.2.2.1 b
  rw [hq] at hnd hp
  -- the entries before the first hold snapshots
  have hpre : ∀ x ∈ pre, x.snapshotted_page.isSome = true := by
    intro x hx
    rw [List.pairwise_append] at hp
    have := (hp.2.2 x hx e1 (by simp)).1
    cases hsn : x.snapshotted_page with
    | none =>
      rw [this hsn] at hw1
      exact absurd hw1 (by simp)
    | some s => rfl
  have h12 : waits_behind e1 e2 := by
    rw [List.pairwise_append, List.pairwise_cons] at hp
    exact hp.2.1.1 e2 (by simp)
  have hr2 : e2.read_acq_signal = false := h12.2 hs1 ha1
  have hs2 : e2.snapshotted_page = none := by
    cases hsn : e2.snapshotted_page with
    | none => rfl
    | some s =>
      have := (reachable_snapshot_declared c h b e2 (by rw [hq]; simp) (by simp [hsn])).2
      rw [hr2] at this
      exact absurd this (by simp)
  have hfind : ∃ e0, find_acq c b e1.acq_id = some e0 := by
    cases hf : find_acq c b e1.acq_id with
    | none =>
      have := (find_acq_none_iff c b e1.acq_id).mp (by simp [hf])
      exfalso
      apply this
      rw [hq]
      simp
    | some e0 => exact ⟨e0, rfl⟩
  obtain ⟨e0, hf0⟩ := hfind
  have hids : ∀ x ∈ pre, x.acq_id ≠ e2.acq_id := by
    intro x hx he
    rw [List.map_append, List.nodup_append] at hnd
    exact hnd.2.2 (List.mem_map.mpr ⟨x, hx, rfl⟩) (by rw [he]; simp)
  have hacqs : advance (c.current_pages b).page true true
      ((c.current_pages b).acqs.filter (fun x => x.acq_id != e1.acq_id)) =
      pre ++ advance_acq (c.current_pages b).page true true e2 ::
        advance (c.current_pages b).page
          (true && ((advance_acq (c.current_pages b).page true true e2).snapshotted_page.isSome
            || decide (e2.access = alt_access_t.read)))
          (true && (advance_acq (c.current_pages b).page true true
            e2).snapshotted_page.isSome) post := by
    rw [hq, filter_release pre (e2 :: post) e1 hnd, advance_append_snapshots _ _ _ _ _ hpre,
      advance_cons_none _ _ _ _ _ hs2]
  have hfa : find_acq
      { set_acqs c b ((c.current_pages b).acqs.filter (fun x => x.acq_id != e1.acq_id)) with
        live_acqs := Function.update c.live_acqs e0.txn (c.live_acqs e0.txn - 1) }
      b e2.acq_id = some (advance_acq (c.current_pages b).page true true e2) := by
    unfold find_acq
    simp only [set_acqs, Function.update_apply, if_true]
    rw [hacqs]
    exact find_after_pre pre _ (advance_acq (c.current_pages b).page true true e2) hids
  refine ⟨{ set_acqs c b
      ((c.current_pages b).acqs.filter (fun x => x.acq_id != e1.acq_id)) with
      live_acqs := Function.update c.live_acqs e0.txn (c.live_acqs e0.txn - 1) },
    by simp only [step, hf0], ?_, ?_, ?_, ?_⟩
  · simp only [set_acqs, Function.update_apply, if_true]
  · refine ⟨advance_acq (c.current_pages b).page true true e2, hfa, rfl, ha2, ?_, ?_⟩
    · simp [advance_acq, ha2]
    · simp [advance_acq]
  · unfold current_page_for_read
    rw [hfa]
    cases hdec : e2.declared_snapshotted with
    | true => simp [advance_acq, hdec]
    | false => simp [advance_acq, hdec, set_acqs]
  · intro hdec
    unfold current_page_for_write
    rw [hfa]
    simp [advance_acq, hdec, ha2, set_acqs]

/-- Writes leave every queue as it is. -/
theorem run_writes_acqs (b acq : Nat) (contents : List (List Nat)) :
    ∀ (c c1 : page_cache_t),
      run (contents.map (fun x => op_t.write b acq x)) c = some c1 →
      ∀ b1, (c1.current_pages b1).acqs = (c.current_pages b1).acqs := by
  induction contents with
  | nil =>
    intro c c1 hr b1
    simp only [List.map_nil, run] at hr
    cases hr
    rfl
  | cons x rest ih =>
    intro c c1 hr b1
    simp only [List.map_cons, run] at hr
    cases hs : step c (op_t.write b acq x) with
    | none => simp [hs] at hr
    | some c2 =>
      simp only [hs] at hr
      rw [ih c2 c1 hr b1]
      simp only [step] at hs
      cases hf0 : find_acq c b acq with
      | none => simp [hf0] at hs
      | some e0 =>
        simp only [hf0] at hs
        split_ifs at hs
        cases hs
        simp only [set_page, Function.update_apply]
        split_ifs with he
        · rw [he]
        · rfl

/-- The queue after a write acquisition has been made behind a write-ready write acquisition
that is the last of the queue and has not declared itself snapshotted. -/
theorem acquire_behind_last (c : page_cache_t) (h : reachable_cache c) (txn b acq2 : Nat)
    (pre : List current_page_acq_t) (e1 : current_page_acq_t)
    (hq : (c.current_pages b).acqs = pre ++ [e1])
    (hw1 : e1.write_acq_signal = true) (hd1 : e1.declared_snapshotted = false)
    (ha1 : e1.access = alt_access_t.write)
    (c1 : page_cache_t)
    (hacq : step c (op_t.acquire txn b acq2 alt_access_t.write) = some c1) :
    (c1.current_pages b).acqs =
      pre ++ advance_acq (c.current_pages b).page true true e1 ::
        advance_acq (c.current_pages b).page false false
          (new_acq txn acq2 alt_access_t.write) :: [] ∧
    (advance_acq (c.current_pages b).page true true e1).snapshotted_page = none := by
  have hinv := reachable_cache_inv c h
  have hp := hinv.2.2.2.2.1 b
  rw [hq] at hp
  have hpre : ∀ x ∈ pre, x.snapshotted_page.isSome = true := by
    intro x hx
    rw [List.pairwise_append] at hp
    have := (hp.2.2 x hx e1 (by simp)).1
    cases hsn : x.snapshotted_page with
    | none =>
      rw [this hsn] at hw1
      exact absurd hw1 (by simp)
    | some s => rfl
  have hs1 : e1.snapshotted_page = none := by
    cases hsn : e1.snapshotted_page with
    | none => rfl
    | some s =>
      have := (reachable_snapshot_declared c h b e1 (by rw [hq]; simp) (by simp [hsn])).1
      rw [hd1] at this
      exact absurd this (by simp)
  have hx1 : (advance_acq (c.current_pages b).page true true e1).snapshotted_page = none := by
    simp [advance_acq, hd1]
  obtain ⟨-, -, hcp⟩ := acquire_eval c txn b acq2 alt_access_t.write c1 hacq
  refine ⟨?_, hx1⟩
  rw [hcp]
  simp only [Function.update_apply, if_true]
  rw [hq, List.append_assoc, advance_append_snapshots _ _ _ _ _ hpre, List.singleton_append,
    advance_cons_none _ _ _ _ _ hs1, hx1]
  simp only [Option.isSome_none, ha1, Bool.false_or, Bool.and_false]
  have hdec : decide (alt_access_t.write = alt_access_t.read) = false := by decide
  rw [hdec]
  simp only [Bool.and_false]
  rw [advance_cons_none _ _ _ _ _ rfl, advance_nil]

/-- C18, amended. Let the transaction of a write acquisition `acq1` that is held on block `b`
acquire the block for write again (`acq2`).  The new acquisition is queued at the end of the
queue of the slot, behind the first.  In every later state, as long as the first has not been
released and holds no snapshot, the second has neither signal pulsed.  If the first is
write-ready, has not declared itself snapshotted and was the last of the queue when the second
was made, then after any writes through the first its release makes the second write-ready and
read-ready, and the second then observes, for read and for write, exactly the page the first
left. -/
theorem reacquisition_directly_behind (c : page_cache_t) (h : reachable_cache c)
    (b acq1 acq2 : Nat) (e1 : current_page_acq_t)
    (hf : find_acq c b acq1 = some e1) (ha1 : e1.access = alt_access_t.write)
    (c1 : page_cache_t)
    (hacq : step c (op_t.acquire e1.txn b acq2 alt_access_t.write) = some c1) :
    ((c1.current_pages b).acqs.map (fun e => e.acq_id) =
        (c.current_pages b).acqs.map (fun e => e.acq_id) ++ [acq2] ∧
      acq1 ∈ (c.current_pages b).acqs.map (fun e => e.acq_id) ∧
      ∃ e2, find_acq c1 b acq2 = some e2 ∧ e2.txn = e1.txn ∧
        e2.access = alt_access_t.write) ∧
    (∀ (ops : List op_t) (c2 : page_cache_t), op_t.release b acq1 ∉ ops →
      run ops c1 = some c2 →
      ∃ x1, find_acq c2 b acq1 = some x1 ∧
        (x1.snapshotted_page = none → ∀ x2, find_acq c2 b acq2 = some x2 →
          x2.read_acq_signal = false ∧ x2.write_acq_signal = false)) ∧
    (e1.write_acq_signal = true → e1.declared_snapshotted = false →
      (∃ pre, (c.current_pages b).acqs = pre ++ [e1]) →
      ∀ (contents : List (List Nat)) (c2 : page_cache_t),
        run (contents.map (fun x => op_t.write b acq1 x)) c1 = some c2 →
        ∃ c3, step c2 (op_t.release b acq1) = some c3 ∧
          (c3.current_pages b).page = (c2.current_pages b).page ∧
          (∃ e, find_acq c3 b acq2 = some e ∧ e.txn = e1.txn ∧
            e.access = alt_access_t.write ∧
            e.write_acq_signal = true ∧ e.read_acq_signal = true) ∧
          current_page_for_read c3 b acq2 = some (c2.current_pages b).page ∧
          current_page_for_write c3 b acq2 = (c2.current_pages b).page) := by
  have hinv := reachable_cache_inv c h
  have hr1 : reachable_cache c1 := reachable_cache.step c _ c1 h hacq
  obtain ⟨hm1, hid1⟩ := find_acq_some c b acq1 e1 hf
  obtain ⟨-, hname, hcp⟩ := acquire_eval c e1.txn b acq2 alt_access_t.write c1 hacq
  have hin : acq1 ∈ (c.current_pages b).acqs.map (fun e => e.acq_id) :=
    List.mem_map.mpr ⟨e1, hm1, hid1⟩
  have hne : acq1 ≠ acq2 := by
    intro he
    rw [he] at hin
    exact hname hin
  have hacqs1 : (c1.current_pages b).acqs = advance (c.current_pages b).page true true
      ((c.current_pages b).acqs ++ [new_acq e1.txn acq2 alt_access_t.write]) := by
    rw [hcp]
    simp only [Function.update_apply, if_true]
  refine ⟨⟨?_, hin, ?_⟩, ?_, ?_⟩
  · rw [hacqs1, advance_map_id]
    simp [new_acq]
  · have hfn : ((c.current_pages b).acqs ++ [new_acq e1.txn acq2 alt_access_t.write]).find?
        (fun e => e.acq_id == acq2) = some (new_acq e1.txn acq2 alt_access_t.write) :=
      find_append_new _ acq2 _ hname rfl
    obtain ⟨r1, w1, hadv⟩ := advance_find (c.current_pages b).page acq2 _ true true _ hfn
    refine ⟨advance_acq (c.current_pages b).page r1 w1 (new_acq e1.txn acq2 alt_access_t.write),
      ?_, rfl, rfl⟩
    unfold find_acq
    rw [hacqs1, hadv]
    rfl
  · intro ops c2 hops hrun
    have hb1 : ∃ pre post, (c1.current_pages b).acqs.map (fun e => (e.acq_id, e.access)) =
        pre ++ (acq1, alt_access_t.write) :: post ∧ ∀ y ∈ pre, y.1 ≠ acq2 := by
      obtain ⟨S, T, hST⟩ := List.append_of_mem hm1
      refine ⟨S.map (fun e => (e.acq_id, e.access)),
        T.map (fun e => (e.acq_id, e.access)) ++ [(acq2, alt_access_t.write)], ?_, ?_⟩
      · rw [hacqs1, advance_map_key, hST]
        simp [new_acq, hid1, ha1]
      · intro y hy he
        obtain ⟨x, hx, hxy⟩ := List.mem_map.mp hy
        apply hname
        rw [hST]
        refine List.mem_map.mpr ⟨x, by simp [hx], ?_⟩
        rw [← he, ← hxy]
    have hb2 := run_keeps_behind b acq1 acq2 ops c1 c2 hb1 hops hrun
    exact behind_waits c2 (reachable_cache_inv c2 (run_reachable ops c1 c2 hr1 hrun)) b acq1
      acq2 hne hb2
  · intro hw1 hd1 hlast contents c2 hrun
    obtain ⟨pre, hq⟩ := hlast
    obtain ⟨hq1, hx1⟩ := acquire_behind_last c h e1.txn b acq2 pre e1 hq hw1 hd1 ha1 c1 hacq
    have hr2 : reachable_cache c2 := run_reachable _ c1 c2 hr1 hrun
    have hq2 : (c2.current_pages b).acqs =
        pre ++ advance_acq (c.current_pages b).page true true e1 ::
          advance_acq (c.current_pages b).page false false
            (new_acq e1.txn acq2 alt_access_t.write) :: [] := by
      rw [run_writes_acqs b acq1 contents c1 c2 hrun b, hq1]
    obtain ⟨c3, k1, k2, ⟨e, k3, k4, k5, k6, k7⟩, k8, k9⟩ :=
      release_first_of_two c2 hr2 b pre []
        (advance_acq (c.current_pages b).page true true e1)
        (advance_acq (c.current_pages b).page false false
          (new_acq e1.txn acq2 alt_access_t.write))
        hq2 (by simp [advance_acq, hw1]) hx1 ha1 rfl
    have hid : (advance_acq (c.current_pages b).page true true e1).acq_id = acq1 := hid1
    rw [hid] at k1
    exact ⟨c3, k1, k2, ⟨e, k3, k4, k5, k6, k7⟩, k8, k9 rfl⟩

theorem write_signal_waits_for_earlier_witness :
    reachable_cache txn2_behind_txn1 ∧
    (txn2_behind_txn1.current_pages 0).acqs =
      [] ++ { new_acq 1 1 alt_access_t.write with
                read_acq_signal := true, write_acq_signal := true } ::
        [new_acq 2 2 alt_access_t.write] ∧
    (new_acq 2 2 alt_access_t.write).read_acq_signal = false ∧
    (new_acq 2 2 alt_access_t.write).write_acq_signal = false :=
  have h : reachable_cache txn2_behind_txn1 :=
    run_reachable txn2_behind_txn1_ops _ _ reachable_cache.init rfl
  ⟨h, by decide,
   (write_signal_waits_for_earlier txn2_behind_txn1 h 0 []
      [new_acq 2 2 alt_access_t.write]
      { new_acq 1 1 alt_access_t.write with read_acq_signal := true, write_acq_signal := true }
      (new_acq 2 2 alt_access_t.write) (by decide) (by simp)).2.1 rfl rfl⟩

theorem snapshot_content_stays_witness :
    op_t.release 0 3 ∉ later_writers_ops ∧
    (after_later_writers.current_pages 0).page = some [9] ∧
    ∃ p, current_page_for_read reader_ready 0 3 = some p ∧
      current_page_for_read reader_snapshotted 0 3 = some p ∧
      current_page_for_read after_later_writers 0 3 = some p :=
  ⟨by decide, by decide,
   snapshot_content_stays reader_ready 0 3
    { new_acq 3 3 alt_access_t.read with read_acq_signal := true } (by decide) rfl
    reader_snapshotted rfl later_writers_ops (by decide) after_later_writers rfl⟩

theorem reacquisition_directly_behind_witness :
    reachable_cache txn14_holds ∧
    (txn14_holds.current_pages 0).page = some [7, 14] ∧
    step txn14_holds (op_t.acquire 14 0 2 alt_access_t.write) = some txn14_reacquired ∧
    (txn14_reacquired.current_pages 0).acqs.map
      (fun e => (e.acq_id, e.txn, e.read_acq_signal, e.write_acq_signal)) =
      [(1, 14, true, true), (2, 14, false, false)] ∧
    (∃ x1, find_acq txn14_reacquired 0 1 = some x1 ∧
      (x1.snapshotted_page = none → ∀ x2, find_acq txn14_reacquired 0 2 = some x2 →
        x2.read_acq_signal = false ∧ x2.write_acq_signal = false)) ∧
    ∃ c3, step txn14_reacquired (op_t.release 0 1) = some c3 ∧
      (∃ e, find_acq c3 0 2 = some e ∧ e.txn = 14 ∧ e.access = alt_access_t.write ∧
        e.write_acq_signal = true ∧ e.read_acq_signal = true) ∧
      current_page_for_read c3 0 2 = some (some [7, 14]) ∧
      current_page_for_write c3 0 2 = some [7, 14] :=
  have h : reachable_cache txn14_holds :=
    run_reachable txn14_ops _ _ reachable_cache.init rfl
  have k := reacquisition_directly_behind txn14_holds h 0 1 2
    { new_acq 14 1 alt_access_t.write with read_acq_signal := true, write_acq_signal := true }
    (by decide) rfl txn14_reacquired rfl
  ⟨h, by decide, rfl, by decide, k.2.1 [] txn14_reacquired (by simp) rfl,
   (k.2.2 rfl rfl ⟨[], by decide⟩ [] txn14_reacquired rfl).imp fun _ hk =>
     ⟨hk.1, hk.2.2.1, hk.2.2.2.1, hk.2.2.2.2⟩⟩

end page_cache

namespace ql

theorem wrap_int64_of_range (x : Int) (h1 : INT64_MIN ≤ x) (h2 : x ≤ INT64_MAX) :
    wrap_int64 x = x := by
  unfold INT64_MIN at h1
  unfold INT64_MAX at h2
  unfold wrap_int64
  rw [Int.emod_eq_of_lt (by omega) (by omega)]
  omega

/-- The expression of `scale_down` where nothing overflows: for `0 ≤ x` with
`x * 8 ≤ INT64_MAX` and `divisor ≥ 1` with `7 * divisor ≤ INT64_MAX` its value is
`x * 8 / (7 * divisor) + 8`. -/
theorem scaled_in_range (x divisor : Int) (hx : 0 ≤ x) (hx8 : x * 8 ≤ INT64_MAX)
    (hd : 1 ≤ divisor) (hd7 : 7 * divisor ≤ INT64_MAX) :
    scaled x divisor = some (x * 8 / (7 * divisor) + 8) := by
  have hmin : INT64_MIN ≤ 0 := by unfold INT64_MIN; norm_num
  have w1 : wrap_int64 (x * 8) = x * 8 :=
    wrap_int64_of_range _ (by unfold INT64_MIN; omega) hx8
  have w2 : wrap_int64 (7 * divisor) = 7 * divisor :=
    wrap_int64_of_range _ (by unfold INT64_MIN; omega) hd7
  have hq0 : 0 ≤ x * 8 / (7 * divisor) := Int.ediv_nonneg (by omega) (by omega)
  have hq1 : x * 8 / (7 * divisor) * (7 * divisor) ≤ x * 8 := Int.ediv_mul_le _ (by omega)
  have hq2 : x * 8 / (7 * divisor) * 7 ≤ x * 8 / (7 * divisor) * (7 * divisor) :=
    Int.mul_le_mul_of_nonneg_left (by omega) hq0
  have hq3 : x * 8 / (7 * divisor) + 8 ≤ INT64_MAX := by
    unfold INT64_MAX at hx8 ⊢
    omega
  unfold scaled
  rw [w1, w2]
  have hdiv : div_int64 (x * 8) (7 * divisor) = some (x * 8 / (7 * divisor)) := by
    unfold div_int64
    rw [if_neg (by
      rintro (h | ⟨-, h⟩)
      · omega
      · omega)]
    rw [Int.tdiv_eq_ediv (by omega) (by omega)]
  rw [hdiv]
  simp only
  rw [wrap_int64_of_range _ (by unfold INT64_MIN; omega) hq3]

/-- Where nothing overflows, `scale_down` returns the minimum of each limit and its scaled
value. -/
theorem scale_down_in_range (NORMAL : Nat) (b : batchspec_t) (divisor : Int)
    (hels : 1 ≤ b.els_left) (hels8 : b.els_left * 8 ≤ INT64_MAX)
    (hsize : 0 ≤ b.size_left) (hsize8 : b.size_left * 8 ≤ INT64_MAX)
    (hd : 1 ≤ divisor) (hd7 : 7 * divisor ≤ INT64_MAX) :
    batchspec_t.scale_down NORMAL b divisor =
      result_t.ok
        { batch_type := b.batch_type,
          els_left := min b.els_left (b.els_left * 8 / (7 * divisor) + 8),
          size_left := min b.size_left (b.size_left * 8 / (7 * divisor) + 8),
          end_time := if b.batch_type = NORMAL then b.end_time else MICROTIME_MAX } := by
  have hq0 : 0 ≤ b.els_left * 8 / (7 * divisor) := Int.ediv_nonneg (by omega) (by omega)
  unfold batchspec_t.scale_down
  rw [scaled_in_range _ _ (by omega) hels8 hd hd7, scaled_in_range _ _ hsize hsize8 hd hd7]
  simp only
  unfold batchspec_t.construct
  rw [if_pos]
  exact le_min hels (by omega)

/-- C22 at the default `els_left`: `batchspec_t::user` without `max_els` gives `els_left =
INT64_MAX`; in `scale_down(1)` the product `els_left * 8` does not fit in an `int64_t` and is
left as `-8`, so that the new `els_left` is `-8 / 7 + 8 = 7`, where
`min(els_left, els_left * 8 / (7 * divisor) + 8)` is `INT64_MAX`. -/
theorem scale_down_of_default :
    batchspec_t.user 0 1048576 0 none none none 1000 =
      result_t.ok
        { batch_type := 0, els_left := INT64_MAX, size_left := 262144, end_time := 501000 } ∧
    batchspec_t.scale_down 0
        { batch_type := 0, els_left := INT64_MAX, size_left := 262144, end_time := 501000 } 1 =
      result_t.ok { batch_type := 0, els_left := 7, size_left := 262144, end_time := 501000 } ∧
    min INT64_MAX (INT64_MAX * 8 / (7 * 1) + 8) = INT64_MAX := by
  decide

/-- C23 at `els_left = 2^60`: in `scale_down(1)` the product `els_left * 8 = 2^63` does not fit
in an `int64_t` and is left as `INT64_MIN`; the new `els_left` is negative and the
`r_sanity_check(els_left >= 1)` of the constructor fails. -/
theorem scale_down_fails_sanity_check :
    batchspec_t.user 0 1048576 0 (some (2 ^ 60)) none none 1000 =
      result_t.ok
        { batch_type := 0, els_left := 2 ^ 60, size_left := 262144, end_time := 501000 } ∧
    scaled (2 ^ 60) 1 = some (-1317624576693539393) ∧
    batchspec_t.scale_down 0
        { batch_type := 0, els_left := 2 ^ 60, size_left := 262144, end_time := 501000 } 1 =
      result_t.sanity_check_failed := by
  decide

/-- C24. For a `batchspec_t` with `els_left ≥ 1` and any `max_els`, `with_at_most(max_els)`
returns a `batchspec_t` (the sanity check of the constructor holds) whose `els_left` is
`max(1, min(els_left, min(INT64_MAX, max_els)))`: at least 1, at most the `els_left` before,
and at most `max_els` when `max_els ≥ 1`.  `batch_type` and `size_left` are unchanged, and so is
`end_time`: the constructor passes it on for the type `NORMAL` and sets the maximum otherwise,
which is what every `batchspec_t` the constructor made already has. -/
theorem with_at_most_clamps (NORMAL : Nat) (b : batchspec_t) (max_els : Nat)
    (hels : 1 ≤ b.els_left) :
    batchspec_t.with_at_most NORMAL b max_els =
      result_t.ok
        { batch_type := b.batch_type,
          els_left := max 1 (min b.els_left (min INT64_MAX (max_els : Int))),
          size_left := b.size_left,
          end_time := if b.batch_type = NORMAL then b.end_time else MICROTIME_MAX } ∧
    1 ≤ max 1 (min b.els_left (min INT64_MAX (max_els : Int))) ∧
    max 1 (min b.els_left (min INT64_MAX (max_els : Int))) ≤ b.els_left ∧
    (1 ≤ max_els → max 1 (min b.els_left (min INT64_MAX (max_els : Int))) ≤ (max_els : Int)) ∧
    ((b.batch_type ≠ NORMAL → b.end_time = MICROTIME_MAX) →
      batchspec_t.with_at_most NORMAL b max_els =
        result_t.ok
          { b with els_left := max 1 (min b.els_left (min INT64_MAX (max_els : Int))) }) ∧
    (∀ (batch_type : Nat) (els size : Int) (end_time : Nat) (b0 : batchspec_t),
      batchspec_t.construct NORMAL batch_type els size end_time = result_t.ok b0 →
      1 ≤ b0.els_left ∧ (b0.batch_type ≠ NORMAL → b0.end_time = MICROTIME_MAX)) := by
  have hcast : ((min INT64_MAX.toNat max_els : Nat) : Int) = min INT64_MAX (max_els : Int) := by
    have h1 : (INT64_MAX.toNat : Int) = INT64_MAX := by
      unfold INT64_MAX
      norm_num
    rw [Nat.cast_min, h1]
  have hres : batchspec_t.with_at_most NORMAL b max_els =
      result_t.ok
        { batch_type := b.batch_type,
          els_left := max 1 (min b.els_left (min INT64_MAX (max_els : Int))),
          size_left := b.size_left,
          end_time := if b.batch_type = NORMAL then b.end_time else MICROTIME_MAX } := by
    unfold batchspec_t.with_at_most batchspec_t.construct
    simp only
    rw [hcast, if_pos (le_max_left _ _)]
  refine ⟨hres, le_max_left _ _, ?_, ?_, ?_, ?_⟩
  · exact max_le hels (min_le_left _ _)
  · intro hm
    refine max_le (by exact_mod_cast hm) ?_
    exact le_trans (min_le_right _ _) (min_le_right _ _)
  · intro hinv
    rw [hres]
    congr 1
    cases b with
    | mk bt els size et =>
      simp only [batchspec_t.mk.injEq, true_and]
      by_cases hbt : bt = NORMAL
      · simp [hbt]
      · simp only [hbt, if_false]
        exact (hinv hbt).symm
  · intro batch_type els size end_time b0 h0
    unfold batchspec_t.construct at h0
    by_cases hg : els ≥ 1
    · rw [if_pos hg] at h0
      cases h0
      refine ⟨hg, ?_⟩
      intro hne
      simp only at hne ⊢
      rw [if_neg hne]
    · rw [if_neg hg] at h0
      exact absurd h0 (by simp)

theorem with_at_most_clamps_witness :
    (1 : Int) ≤ 1000 ∧
    batchspec_t.with_at_most 0
        { batch_type := 1, els_left := 1000, size_left := 5, end_time := MICROTIME_MAX } 0 =
      result_t.ok
        { batch_type := 1, els_left := 1, size_left := 5, end_time := MICROTIME_MAX } :=
  ⟨by decide,
   (with_at_most_clamps 0
      { batch_type := 1, els_left := 1000, size_left := 5, end_time := MICROTIME_MAX } 0
      (by decide)).2.2.2.2.1 (fun _ => rfl)⟩

end ql
